import Mathlib

/-!
Verification of the xdress type-system core (xdress/types/system.py).

This file gives a shallow embedding of the canonical type-algebra engine of
xdress: the descriptor value domain, the registry tables, canonicalization
(TypeSystem.canon together with TypeSystem._resolve_dependent_type,
TypeSystem.istemplate, TypeSystem.isdependent), predicate stripping
(TypeSystem.strip_predicates), the C++ spelling deriver (TypeSystem.cpp_type),
the registration API (register_class, register_numpy_dtype), the scoped
configuration swaps (swap_dtypes), and the Cython C-to-Python converter
front-end (TypeSystem.cython_c2py).

Modelling conventions:
* Python values that appear inside type descriptors are modelled by the
  inductive type Desc: strings, ints, bools (Python bool is a subclass of
  int and a Number), floats (kept opaque, identified by their repr, since
  canonicalization only passes numeric literals through and never computes
  with them), argument-kind tags (utils.Arg values), and tuples.
* Fallible Python code is modelled in the Except monad with an explicit
  error kind per Python exception class raised by the translated code.
  Recursive functions whose termination rests on the acyclicity of the
  registry (alias chains, refinement chains) take an explicit fuel
  parameter; running out of fuel is a distinct error that no handler in
  the translated code catches, so fuelled runs that succeed agree with the
  Python semantics.
* TypeSystem.canon is memoized (utils.memoize_method) keyed by the exact
  input argument, and every registry mutation invalidates the memo table
  (TypeSystem.clearmemo / the table wrappers in xdress/types/containers.py).
  Under that discipline a memoized read equals a fresh computation, so the
  pure canonicalizer below carries no memo table.  The memo table is
  modelled explicitly (with the registration API and the scoped swaps)
  where cache coherency itself is the property under scrutiny.
* TypeSystem._resolve_dependent_type temporarily installs the template
  parameters of a dependent-refinement signature in the shared
  type_aliases table, canonicalizes under that binding, and removes the
  bindings (and their canon memo entries) before returning.  Resolution is
  synchronous and single-threaded, so in the pure model the temporary
  binding is rendered by running the sub-canonicalizations against a
  registry extended with those aliases; the mutate-then-restore behaviour
  itself is modelled separately, state-passing style, where the frame
  effect on type_aliases is the property under scrutiny.
-/

set_option maxRecDepth 10000

namespace XdressTS

/-- Python values occurring in xdress type descriptors and canonical forms. -/
inductive Desc where
  | str (s : String)
  | int (n : Int)
  | bool (b : Bool)
  | float (r : String)
  | arg (k : Nat)
  | tup (xs : List Desc)
deriving Repr

mutual

def Desc.beq : Desc → Desc → Bool
  | .str a, .str b => a == b
  | .int a, .int b => a == b
  | .bool a, .bool b => a == b
  | .float a, .float b => a == b
  | .arg a, .arg b => a == b
  | .tup a, .tup b => Desc.beqList a b
  | _, _ => false

def Desc.beqList : List Desc → List Desc → Bool
  | [], [] => true
  | a :: as, b :: bs => Desc.beq a b && Desc.beqList as bs
  | _, _ => false

end

instance : BEq Desc := ⟨Desc.beq⟩

mutual

def Desc.beq_refl : (d : Desc) → Desc.beq d d = true
  | .str _ => by simp [Desc.beq]
  | .int _ => by simp [Desc.beq]
  | .bool _ => by simp [Desc.beq]
  | .float _ => by simp [Desc.beq]
  | .arg _ => by simp [Desc.beq]
  | .tup xs => by simp only [Desc.beq]; exact Desc.beqList_refl xs

def Desc.beqList_refl : (xs : List Desc) → Desc.beqList xs xs = true
  | [] => by simp [Desc.beqList]
  | a :: as => by
      simp only [Desc.beqList, Bool.and_eq_true]
      exact ⟨Desc.beq_refl a, Desc.beqList_refl as⟩

end

mutual

def Desc.eq_of_beq : {a b : Desc} → Desc.beq a b = true → a = b
  | .str _, .str _, h => by simp [Desc.beq] at h; simp [h]
  | .str _, .int _, h | .str _, .bool _, h | .str _, .float _, h
  | .str _, .arg _, h | .str _, .tup _, h => by simp [Desc.beq] at h
  | .int _, .str _, h | .int _, .bool _, h | .int _, .float _, h
  | .int _, .arg _, h | .int _, .tup _, h => by simp [Desc.beq] at h
  | .int _, .int _, h => by simp [Desc.beq] at h; simp [h]
  | .bool _, .str _, h | .bool _, .int _, h | .bool _, .float _, h
  | .bool _, .arg _, h | .bool _, .tup _, h => by simp [Desc.beq] at h
  | .bool _, .bool _, h => by simp [Desc.beq] at h; simp [h]
  | .float _, .str _, h | .float _, .int _, h | .float _, .bool _, h
  | .float _, .arg _, h | .float _, .tup _, h => by simp [Desc.beq] at h
  | .float _, .float _, h => by simp [Desc.beq] at h; simp [h]
  | .arg _, .str _, h | .arg _, .int _, h | .arg _, .bool _, h
  | .arg _, .float _, h | .arg _, .tup _, h => by simp [Desc.beq] at h
  | .arg _, .arg _, h => by simp [Desc.beq] at h; simp [h]
  | .tup _, .str _, h | .tup _, .int _, h | .tup _, .bool _, h
  | .tup _, .float _, h | .tup _, .arg _, h => by simp [Desc.beq] at h
  | .tup xs, .tup ys, h => by
      simp only [Desc.beq] at h
      have hx := Desc.eqList_of_beqList (a := xs) (b := ys) h
      simp [hx]

def Desc.eqList_of_beqList : {a b : List Desc} → Desc.beqList a b = true → a = b
  | [], [], _ => rfl
  | [], _ :: _, h => by simp [Desc.beqList] at h
  | _ :: _, [], h => by simp [Desc.beqList] at h
  | x :: xs, y :: ys, h => by
      simp only [Desc.beqList, Bool.and_eq_true] at h
      have h1 := Desc.eq_of_beq h.1
      have h2 := Desc.eqList_of_beqList h.2
      simp [h1, h2]

end

instance : LawfulBEq Desc where
  eq_of_beq := Desc.eq_of_beq
  rfl := Desc.beq_refl _

instance : DecidableEq Desc := fun a b =>
  if h : Desc.beq a b = true then .isTrue (Desc.eq_of_beq h)
  else .isFalse (fun he => h (he ▸ Desc.beq_refl a))

/-- Exception kinds raised by the translated code, one per Python exception
class, plus a distinct out-of-fuel marker that no translated handler
catches. -/
inductive Err where
  | typeError
  | indexError
  | keyError
  | valueError
  | assertionError
  | notImplementedError
  | fuel
deriving DecidableEq, Repr

instance {ε α : Type} [DecidableEq ε] [DecidableEq α] : DecidableEq (Except ε α) :=
  fun a b =>
    match a, b with
    | .ok x, .ok y =>
        if h : x = y then .isTrue (by simp [h]) else .isFalse (by simp [h])
    | .ok _, .error _ => .isFalse (by simp)
    | .error _, .ok _ => .isFalse (by simp)
    | .error x, .error y =>
        if h : x = y then .isTrue (by simp [h]) else .isFalse (by simp [h])

/-- Python t[0]: first element of a sequence.  Indexing a string yields its
first character as a length-1 string; an empty sequence raises IndexError;
a non-sequence raises TypeError. -/
def pyIndex0 : Desc → Except Err Desc
  | .str s => if s.length == 0 then .error .indexError else .ok (.str (s.take 1))
  | .tup [] => .error .indexError
  | .tup (x :: _) => .ok x
  | _ => .error .typeError

/-- Python t[1]: second element of a sequence (as used on dependency pairs). -/
def pyIndex1 : Desc → Except Err Desc
  | .str s => if s.length ≤ 1 then .error .indexError else .ok (.str ((s.drop 1).take 1))
  | .tup xs =>
      match xs with
      | _ :: y :: _ => .ok y
      | _ => .error .indexError
  | _ => .error .typeError

/-- Python len(t) for sequences; raises TypeError otherwise. -/
def pyLen : Desc → Except Err Nat
  | .str s => .ok s.length
  | .tup xs => .ok xs.length
  | _ => .error .typeError

/-- Python t[1:] for sequences, as the list of element values (a string
slices into its characters when iterated). -/
def pyElemsTail : Desc → Except Err (List Desc)
  | .str s => .ok ((s.data.drop 1).map (fun c => .str (String.mk [c])))
  | .tup xs => .ok (xs.drop 1)
  | _ => .error .typeError

/-- Python tuple unpacking "(a, b) = k".  A length-2 sequence unpacks into
its two elements; other lengths raise ValueError; non-iterables raise
TypeError. -/
def pyUnpack2 : Desc → Except Err (Desc × Desc)
  | .tup [a, b] => .ok (a, b)
  | .tup _ => .error .valueError
  | .str s =>
      if s.length == 2 then
        .ok (.str (s.take 1), .str ((s.drop 1).take 1))
      else .error .valueError
  | _ => .error .typeError

/-- Python numeric equality with the literal 0, as in "0 == t[1]": the int
0, False and the float 0.0 all compare equal to 0. -/
def pyEqZero : Desc → Bool
  | .int n => n == 0
  | .bool b => !b
  | .float r => r == "0.0"
  | _ => false

/-- Python isinstance(x, Number): ints, bools and floats. -/
def isNumber : Desc → Bool
  | .int _ => true
  | .bool _ => true
  | .float _ => true
  | _ => false

/-- Python isinstance(x, int): ints and bools (bool is a subclass of int). -/
def isInt : Desc → Bool
  | .int _ => true
  | .bool _ => true
  | _ => false

/-- Modelled from the spec: membership in the Arg enumeration of
xdress.utils (not under src/), the argument-kind tags TYPE / LITERAL /
VARIABLE / NONE used to disambiguate template slots. -/
def inArgEnum : Desc → Bool
  | .arg _ => true
  | _ => false

/-- Whether the pattern is a leading segment of the character list. -/
def listStartsWith : List Char → List Char → Bool
  | [], _ => true
  | _ :: _, [] => false
  | p :: ps, c :: cs => p == c && listStartsWith ps cs

/-- Left-to-right, non-overlapping replacement of a nonempty pattern in a
character list (Python str.replace); the first argument counts pattern
characters still to be skipped after a hit. -/
def listReplaceAux (pat rep : List Char) : Nat → List Char → List Char
  | _, [] => []
  | Nat.succ k, _ :: cs => listReplaceAux pat rep k cs
  | 0, c :: cs =>
      if pat.length > 0 && listStartsWith pat (c :: cs) then
        rep ++ listReplaceAux pat rep (pat.length - 1) cs
      else c :: listReplaceAux pat rep 0 cs

def listReplace (pat rep : List Char) (l : List Char) : List Char :=
  listReplaceAux pat rep 0 l

/-- Python s.replace(pat, rep); an empty pattern is never passed by the
translated call sites. -/
def pyReplace (s pat rep : String) : String :=
  if pat.data.isEmpty then s else ⟨listReplace pat.data rep.data s.data⟩

/-- Whether the pattern occurs anywhere in the character list. -/
def listHasSub (pat : List Char) : List Char → Bool
  | [] => pat.isEmpty
  | c :: cs => listStartsWith pat (c :: cs) || listHasSub pat cs

/-- Splitting a character list on a separator character, keeping empty
segments. -/
def splitOnChar (sep : Char) : List Char → List (List Char)
  | [] => [[]]
  | c :: cs =>
      let r := splitOnChar sep cs
      if c == sep then [] :: r
      else
        match r with
        | x :: xs => (c :: x) :: xs
        | [] => [[c]]

/-- Association-list lookup with string keys (Python dict lookup for the
string-keyed tables). -/
def alookup : List (String × Desc) → String → Option Desc
  | [], _ => none
  | (k, v) :: rest, s => if k == s then some v else alookup rest s

/-- Association-list lookup with string keys and arbitrary values. -/
def slookup {α : Type} : List (String × α) → String → Option α
  | [], _ => none
  | (k, v) :: rest, s => if k == s then some v else slookup rest s

/-- Association-list lookup with Desc keys (Python dict lookup for the
canonical-form-keyed tables). -/
def dlookup {α : Type} : List (Desc × α) → Desc → Option α
  | [], _ => none
  | (k, v) :: rest, s => if k == s then some v else dlookup rest s

/-- Removal of a string key from an association list (Python del d[k] for a
dict, which holds each key at most once). -/
def sdelete {α : Type} : List (String × α) → String → List (String × α)
  | [], _ => []
  | (k, v) :: rest, s => if k == s then sdelete rest s else (k, v) :: sdelete rest s

/-- Removal of a Desc key from an association list. -/
def ddelete {α : Type} : List (Desc × α) → Desc → List (Desc × α)
  | [], _ => []
  | (k, v) :: rest, s => if k == s then ddelete rest s else (k, v) :: ddelete rest s

/-- The registry tables consumed by canonicalization: TypeSystem.base_types,
TypeSystem.template_types (name to ordered dependency names),
TypeSystem.type_aliases and TypeSystem.refined_types (string or signature
keys to parent descriptors). -/
structure Reg where
  base_types : List Desc
  template_types : List (Desc × List String)
  type_aliases : List (String × Desc)
  refined_types : List (Desc × Desc)
deriving DecidableEq, Repr

/-- The set comprehension in TypeSystem.isdependent: the heads k[0] of the
non-string keys of refined_types.  (The shipped and registered signature
keys are nonempty tuples, so indexing them does not fail.) -/
def depNames (R : Reg) : List Desc :=
  R.refined_types.filterMap (fun kv =>
    match kv.1 with
    | .str _ => none
    | .tup (x :: _) => some x
    | _ => none)

/-- TypeSystem.isdependent on a string argument: membership of the name
among the dependent-refinement heads. -/
def isdepName (R : Reg) (s : String) : Bool :=
  (depNames R).contains (.str s)

/-- TypeSystem.isdependent: strings are checked against the dependent
heads, sequences recurse on their first element (raising IndexError when
empty), everything else is not dependent. -/
def isdepD (R : Reg) : Desc → Except Err Bool
  | .str s => .ok (isdepName R s)
  | .tup [] => .error .indexError
  | .tup (x :: _) => isdepD R x
  | _ => .ok false

/-- TypeSystem.istemplate: strings are checked against template_types,
sequences recurse on their first element, everything else is not a
template. -/
def istemplD (R : Reg) : Desc → Except Err Bool
  | .str s => .ok (dlookup R.template_types (.str s)).isSome
  | .tup [] => .error .indexError
  | .tup (x :: _) => istemplD R x
  | _ => .ok false

/-- The list-comprehension key search opening
TypeSystem._resolve_dependent_type: [k for k in refined_types if k[0] ==
tname][0] together with the value lookup refined_types[depkey].  The
comprehension materializes k[0] for every key, then takes the head
(IndexError when no key matches). -/
def findDepKey (R : Reg) (tname : Desc) : Except Err (Desc × Desc) :=
  go R.refined_types
where
  go : List (Desc × Desc) → Except Err (Desc × Desc)
    | [] => .error .indexError
    | (k, v) :: rest =>
        match pyIndex0 k with
        | .error e => .error e
        | .ok h => if h == tname then .ok (k, v) else go rest

mutual

/-- TypeSystem.canon (xdress/types/system.py lines 648-704), fuelled.
Strings resolve through base_types, type_aliases, refined_types and the
dependent heads in that order; sequences either resolve dependent types,
fill template slots, or form a (canonical head, predicate) pair.  The
first element of a sequence is read before the emptiness test, exactly as
in the source, so an empty sequence raises IndexError. -/
def canonF (R : Reg) : Nat → Desc → Except Err Desc
  | 0, _ => .error .fuel
  | Nat.succ n, t =>
    match t with
    | .str s =>
      if R.base_types.contains (.str s) then .ok (.str s)
      else
        match alookup R.type_aliases s with
        | some v => canonF R n v
        | none =>
          match dlookup R.refined_types (.str s) with
          | some parent =>
              match canonF R n parent with
              | .ok p => .ok (.tup [p, .str s])
              | .error e => .error e
          | none =>
              if isdepName R s then resolveDepF R n (.str s) none
              else .error .typeError
    | .tup [] => .error .indexError
    | .tup (t0 :: rest) =>
      let xs := t0 :: rest
      let lastv : Desc := if xs.length == 1 then .int 0 else xs.getLastD (.int 0)
      match t0 with
      | .str s0 =>
          if isdepName R s0 then resolveDepF R n t0 (some (.tup xs))
          else
            match dlookup R.template_types (.str s0) with
            | some params =>
                let templen := params.length
                let lastv2 : Desc :=
                  if xs.length == 1 + templen then .int 0 else xs.getLastD (.int 0)
                match canonSlots R n ((xs.drop 1).take templen) with
                | .ok slots => .ok (.tup (t0 :: (slots ++ [lastv2])))
                | .error e => .error e
            | none =>
                match canonF R n t0 with
                | .ok c => .ok (.tup [c, lastv])
                | .error e => .error e
      | .tup _ =>
          match isdepD R t0 with
          | .error e => .error e
          | .ok dep =>
            if dep then resolveDepF R n t0 (some (.tup xs))
            else
              match canonF R n t0 with
              | .ok c => .ok (.tup [c, lastv])
              | .error e => .error e
      | _ => .error .typeError
    | _ => .error .typeError

/-- The template-slot loop of TypeSystem.canon: numbers pass through, a
string slot is canonicalized with TypeError caught (the raw string passes
through on failure, any other exception propagates), an Arg-tagged pair
canonicalizes only its payload, other sequences canonicalize whole, and
anything else raises TypeError. -/
def canonSlots (R : Reg) : Nat → List Desc → Except Err (List Desc)
  | 0, _ => .error .fuel
  | Nat.succ _, [] => .ok []
  | Nat.succ n, tt :: more =>
    let one : Except Err Desc :=
      match tt with
      | .int _ | .bool _ | .float _ => .ok tt
      | .str _ =>
          match canonF R n tt with
          | .ok c => .ok c
          | .error .typeError => .ok tt
          | .error e => .error e
      | .tup ys =>
          match ys with
          | [y0, y1] => if inArgEnum y0 then canonF R n y1 else canonF R n tt
          | _ => canonF R n tt
      | _ => .error .typeError
    match one with
    | .error e => .error e
    | .ok c =>
        match canonSlots R n more with
        | .ok cs => .ok (c :: cs)
        | .error e => .error e

/-- Canonicalization mapped over a list (the middle comprehension of the
templated branch of _resolve_dependent_type). -/
def canonList (R : Reg) : Nat → List Desc → Except Err (List Desc)
  | 0, _ => .error .fuel
  | Nat.succ _, [] => .ok []
  | Nat.succ n, d :: ds =>
      match canonF R n d with
      | .error e => .error e
      | .ok c =>
          match canonList R n ds with
          | .ok cs => .ok (c :: cs)
          | .error e => .error e

/-- The dependency-triple comprehension of the templated branch of
_resolve_dependent_type: (k[0], canon(k[1]), instval) for the non-string
signature entries. -/
def depTriples (R : Reg) : Nat → List (Desc × Desc) → Except Err (List Desc)
  | 0, _ => .error .fuel
  | Nat.succ _, [] => .ok []
  | Nat.succ n, (k, instval) :: more =>
      match pyIndex0 k with
      | .error e => .error e
      | .ok k0 =>
          match pyIndex1 k with
          | .error e => .error e
          | .ok k1 =>
              match canonF R n k1 with
              | .error e => .error e
              | .ok ck1 =>
                  match depTriples R n more with
                  | .ok ts => .ok (.tup [k0, ck1, instval] :: ts)
                  | .error e => .error e

/-- The dependency-triple comprehension of the non-templated branch of
_resolve_dependent_type: (kname, canon(ktype), instval) where each
signature entry unpacks as (kname, ktype). -/
def depTriplesU (R : Reg) : Nat → List (Desc × Desc) → Except Err (List Desc)
  | 0, _ => .error .fuel
  | Nat.succ _, [] => .ok []
  | Nat.succ n, (k, instval) :: more =>
      match pyUnpack2 k with
      | .error e => .error e
      | .ok (kname, ktype) =>
          match canonF R n ktype with
          | .error e => .error e
          | .ok ck =>
              match depTriplesU R n more with
              | .ok ts => .ok (.tup [kname, ck, instval] :: ts)
              | .error e => .error e

/-- TypeSystem._resolve_dependent_type (lines 619-646), fuelled.  With no
instantiation the bare signature key is returned.  For a templated
signature the string parameters are bound as temporary aliases (after a
collision check against type_aliases) and the sub-canonicalizations run
under that binding; the source installs the bindings in the shared table
and deletes them (with their canon memo entries) before returning, which
for this synchronous, single-threaded resolution equals running the
sub-calls against the extended registry.  For a non-templated signature
each (name, type) entry pairs with its supplied value directly. -/
def resolveDepF (R : Reg) : Nat → Desc → Option Desc → Except Err Desc
  | 0, _, _ => .error .fuel
  | Nat.succ n, tname, tinst =>
    match findDepKey R tname with
    | .error e => .error e
    | .ok (depkey, depval) =>
      match istemplD R depkey with
      | .error e => .error e
      | .ok istemplated =>
        match tinst with
        | none => .ok depkey
        | some ti =>
          match pyLen ti, pyLen depkey with
          | .error e, _ => .error e
          | .ok _, .error e => .error e
          | .ok tiLen, .ok dkLen =>
            if tiLen ≠ dkLen then .error .assertionError
            else
              match pyElemsTail depkey, pyElemsTail ti with
              | .error e, _ => .error e
              | .ok _, .error e => .error e
              | .ok deprest, .ok tirest =>
                if istemplated then
                  let typemap : List (String × Desc) :=
                    (deprest.zip tirest).filterMap (fun kv =>
                      match kv.1 with
                      | .str s => some (s, kv.2)
                      | _ => none)
                  if typemap.any (fun kv => (alookup R.type_aliases kv.1).isSome) then
                    .error .typeError
                  else
                    let Rx : Reg := { R with type_aliases := R.type_aliases ++ typemap }
                    match canonF Rx n depval with
                    | .error e => .error e
                    | .ok a =>
                      let strParams : List Desc :=
                        deprest.filterMap (fun k =>
                          match k with
                          | .str s =>
                              if (typemap.any (fun kv => kv.1 == s)) then some (.str s)
                              else none
                          | _ => none)
                      match canonList Rx n strParams with
                      | .error e => .error e
                      | .ok bs =>
                        let rest2 : List (Desc × Desc) :=
                          (deprest.zip tirest).filter (fun kv =>
                            match kv.1 with
                            | .str s => !(typemap.any (fun kv2 => kv2.1 == s))
                            | _ => true)
                        match depTriples Rx n rest2 with
                        | .error e => .error e
                        | .ok cs => .ok (.tup [a, .tup (tname :: (bs ++ cs))])
                else
                  match canonF R n depval with
                  | .error e => .error e
                  | .ok a =>
                    match depTriplesU R n (deprest.zip tirest) with
                    | .error e => .error e
                    | .ok cs => .ok (.tup [a, .tup (tname :: cs)])

end

/-- The per-slot evaluation of the template-slot loop of TypeSystem.canon
(the body of the for-loop over t[1:1+templen]), factored for reasoning:
numbers pass through, a string slot is canonicalized with TypeError caught,
an Arg-tagged pair canonicalizes only its payload, other sequences
canonicalize whole, and anything else raises TypeError. -/
def slotExprF (R : Reg) (n : Nat) (tt : Desc) : Except Err Desc :=
  match tt with
  | .int _ | .bool _ | .float _ => .ok tt
  | .str _ =>
      match canonF R n tt with
      | .ok c => .ok c
      | .error .typeError => .ok tt
      | .error e => .error e
  | .tup ys =>
      match ys with
      | [y0, y1] => if inArgEnum y0 then canonF R n y1 else canonF R n tt
      | _ => canonF R n tt
  | _ => .error .typeError

mutual

/-- TypeSystem.strip_predicates (lines 706-720), fuelled: re-canonicalize,
then strip on the canonical form. -/
def stripPredsF (R : Reg) : Nat → Desc → Except Err Desc
  | 0, _ => .error .fuel
  | Nat.succ n, t =>
      match canonF R n t with
      | .error e => .error e
      | .ok c => stripCore R n c

/-- The shape dispatch of TypeSystem.strip_predicates on the canonical
form: strings return unchanged, a pair strips recursively on the head,
re-wrapping as (base, 0) only when the stripped predicate was 0 itself,
and longer tuples replace their final predicate with 0. -/
def stripCore (R : Reg) : Nat → Desc → Except Err Desc
  | 0, _ => .error .fuel
  | Nat.succ n, c =>
      match c with
      | .str s => .ok (.str s)
      | .tup xs =>
          match xs with
          | [a, b] =>
              match stripPredsF R n a with
              | .error e => .error e
              | .ok sp0 =>
                  if pyEqZero b then .ok (.tup [sp0, .int 0]) else .ok sp0
          | _ => .ok (.tup (xs.dropLast ++ [.int 0]))
      | _ => .error .typeError

end

/-- The intrange dependent-refinement signature documented in the module
docstring of xdress/types/system.py (line 130):
refined_types = \x7b('intrange', ('low', 'int32'), ('high', 'int32')): 'int32'\x7d. -/
def intrangeKey : Desc :=
  .tup [.str "intrange", .tup [.str "low", .str "int32"],
        .tup [.str "high", .str "int32"]]

/-- A fixed registry mirroring the stock tables documented in
xdress/types/system.py: a selection of the built-in base types, the
built-in template types map/set/vector with their dependency names, the
documented aliases, the documented simple refinements posint and nucid,
and the documented intrange dependent refinement. -/
def Rc : Reg where
  base_types := [.str "int32", .str "int64", .str "float32", .str "float64",
                 .str "char", .str "str", .str "bool", .str "void"]
  template_types :=
    [(.str "map", ["key_type", "value_type"]),
     (.str "set", ["value_type"]),
     (.str "vector", ["value_type"])]
  type_aliases := [("int", .str "int32"), ("i4", .str "int32"), ("f8", .str "float64")]
  refined_types :=
    [(.str "posint", .str "int32"),
     (.str "nucid", .str "int32"),
     (intrangeKey, .str "int32")]

/-- A successful fuelled canonicalization, at some sufficient fuel. -/
def CanonRel (t c : Desc) : Prop := ∃ n, canonF Rc n t = .ok c

/-- A successful fuelled predicate stripping, at some sufficient fuel. -/
def StripRel (t r : Desc) : Prop := ∃ n, stripPredsF Rc n t = .ok r

mutual

/-- Python str(x) on descriptor values (used whenever the translated code
formats a value into a string); tuples repr their elements, quoting
strings. -/
def pyStr : Desc → String
  | .str s => s
  | .int n => toString n
  | .bool b => if b then "True" else "False"
  | .float r => r
  | .arg k => "Arg." ++ toString k
  | .tup xs => "(" ++ String.intercalate ", " (pyStrQList xs) ++
      (if xs.length == 1 then ",)" else ")")

def pyStrQ : Desc → String
  | .str s => "\x27" ++ s ++ "\x27"
  | .int n => toString n
  | .bool b => if b then "True" else "False"
  | .float r => r
  | .arg k => "Arg." ++ toString k
  | .tup xs => "(" ++ String.intercalate ", " (pyStrQList xs) ++
      (if xs.length == 1 then ",)" else ")")

def pyStrQList : List Desc → List String
  | [] => []
  | d :: ds => pyStrQ d :: pyStrQList ds

end

/-- A spelling-table entry: a template string, or the NotImplemented
sentinel that some shipped tables carry.  (The shipped tables can also
hold callables materialized on first use; the registries modelled here
hold static entries only, matching the scenarios of the registration
API claims.) -/
inductive CfgVal where
  | s (v : String)
  | notImpl
deriving DecidableEq, Repr

/-- An import-table value: a tuple of import tuples, each listing module
name parts with Python None allowed. -/
abbrev Imp := List (List (Option String))

/-- A cython_c2py_conv table entry: NotImplemented or the tuple of one to
three conversion template strings. -/
inductive Conv where
  | notImpl
  | tups (ts : List String)
deriving DecidableEq, Repr

/-- An argument-kind tag as consumed by the renderers: utils.Arg.LIT,
utils.Arg.TYPE, utils.Arg.VAR, or any other value (Arg.NONE and the
1-tuple default both fall through every identity test and behave
alike). -/
inductive ArgKind where
  | alit
  | atype
  | avar
  | anone
deriving DecidableEq, Repr

/-- Replace-or-append insertion for a Desc-keyed table (Python dict
setitem: an existing key keeps its position, a new key appends). -/
def dinsert {α : Type} : List (Desc × α) → Desc → α → List (Desc × α)
  | [], k, v => [(k, v)]
  | (k0, v0) :: rest, k, v =>
      if k0 == k then (k0, v) :: rest else (k0, v0) :: dinsert rest k v

/-- Replace-or-append insertion for a string-keyed table. -/
def sinsert {α : Type} : List (String × α) → String → α → List (String × α)
  | [], k, v => [(k, v)]
  | (k0, v0) :: rest, k, v =>
      if k0 == k then (k0, v) :: rest else (k0, v0) :: sinsert rest k v

/-- Python set.add on a list-modelled set: a no-op when already present,
otherwise an insertion. -/
def saddOnce : List Desc → Desc → List Desc
  | [], d => [d]
  | x :: rest, d => if x == d then x :: rest else x :: saddOnce rest d

/-- The full type-system state: the registry tables of TypeSystem.__init__
that the modelled methods consume, plus the method memo table kept by
utils.memoize_method. -/
structure TS where
  base_types : List Desc
  template_types : List (Desc × List String)
  type_aliases : List (String × Desc)
  refined_types : List (Desc × Desc)
  humannames : List (Desc × String)
  extra_types : String
  dtypes : String
  stlcontainers : String
  argument_kinds : List (Desc × List ArgKind)
  variable_namespace : List (String × String)
  cpp_types : List (Desc × CfgVal)
  numpy_types : List (Desc × String)
  from_pytypes : List (Desc × List String)
  cython_ctypes : List (Desc × CfgVal)
  cython_cytypes : List (Desc × CfgVal)
  cython_pytypes : List (Desc × CfgVal)
  cython_cimports : List (Desc × Imp)
  cython_cyimports : List (Desc × Imp)
  cython_pyimports : List (Desc × Imp)
  cython_functionnames : List (Desc × String)
  cython_classnames : List (Desc × String)
  cython_c2py_conv : List (Desc × Conv)
  cython_py2c_conv : List (Desc × (String × Option String))
  cache : List (String × Desc × Option CfgVal)
deriving DecidableEq, Repr

/-- The registry slice of a type-system state consumed by
canonicalization. -/
def TS.toReg (ts : TS) : Reg :=
  { base_types := ts.base_types
    template_types := ts.template_types
    type_aliases := ts.type_aliases
    refined_types := ts.refined_types }

/-- TypeSystem.clearmemo: drop every memoized method result. -/
def TS.clearmemo (ts : TS) : TS := { ts with cache := [] }

/-- Modelled from the spec: the value formatting done on read by the table
wrappers of xdress/types/containers.py (not under src/).  The three
configuration module names are opaque substitution values spliced into
spelling and import template strings; a placeholder expands to the module
name qualified with a trailing dot, and an empty module name expands to
nothing. -/
def modDot (m : String) : String := if m == "" then "" else m ++ "."

/-- Modelled from the spec: expansion of the module-name placeholders in a
string table value on lazy read (xdress/types/containers.py, not under
src/). -/
def substMods (ts : TS) (v : String) : String :=
  pyReplace (pyReplace (pyReplace v "\x7bextra_types\x7d" (modDot ts.extra_types))
      "\x7bdtypes\x7d" (modDot ts.dtypes))
      "\x7bstlcontainers\x7d" (modDot ts.stlcontainers)

/-- Lazy read of a CfgVal table entry: string values come back with their
module placeholders expanded, the NotImplemented sentinel is returned
as-is. -/
def cfgGet (ts : TS) (tab : List (Desc × CfgVal)) (k : Desc) : Option CfgVal :=
  (dlookup tab k).map (fun v =>
    match v with
    | .s w => .s (substMods ts w)
    | .notImpl => .notImpl)

/-- Coercion of a spelling result to text, as Python str() would render it
inside a format call (the implicit None return of cpp_type prints as
None). -/
def cfgStr : Option CfgVal → String
  | some (.s v) => v
  | some .notImpl => "NotImplemented"
  | none => "None"

/-- TypeSystem.isrefinement: strings are members of refined_types,
everything else defers to isdependent. -/
def isrefD (R : Reg) : Desc → Except Err Bool
  | .str s => .ok (dlookup R.refined_types (.str s)).isSome
  | d => isdepD R d

/-- TypeSystem._cpp_type_add_predicate: append the predicate text, except
that const is prepended. -/
def cppAddPred (x last : String) : String :=
  if last == "const" then last ++ " " ++ x else x ++ " " ++ last

/-- An element of the template_filling list: a string, or a non-string
object whose presence makes the final join raise TypeError. -/
inductive JoinVal where
  | s (v : String)
  | notstr
deriving DecidableEq, Repr

/-- Python ', '.join over template_filling: every element must be a
string. -/
def pyJoin (sep : String) : List JoinVal → Except Err String
  | els =>
      if els.any (fun e => e matches .notstr) then .error .typeError
      else .ok (String.intercalate sep (els.filterMap (fun e =>
        match e with
        | .s v => some v
        | .notstr => none)))

/-- TypeSystem._cpp_var_name: qualify a variable with its registered
namespace; an unregistered (or non-string) variable passes through. -/
def cppVarName (ts : TS) (var : Desc) : JoinVal :=
  match var with
  | .str s =>
      let ns := (slookup ts.variable_namespace s).getD ""
      if ns.length > 0 then .s (ns ++ "::" ++ s) else .s s
  | _ => .notstr

/-- TypeSystem.cpp_literal: bools look up their spelling table entry,
numbers print themselves, strings print their repr. -/
def cppLiteralF (ts : TS) : Desc → Except Err JoinVal
  | .bool b =>
      match cfgGet ts ts.cpp_types (.bool b) with
      | some (.s v) => .ok (.s v)
      | some .notImpl => .ok .notstr
      | none => .error .keyError
  | .int n => .ok (.s (pyStr (.int n)))
  | .float r => .ok (.s (pyStr (.float r)))
  | .str s => .ok (.s (pyStrQ (.str s)))
  | _ => .error .typeError

/-- The trailing-predicate text of TypeSystem.cpp_type: ints render
bracketed, other values are used as they are. -/
def predText (b : Desc) : String :=
  if isInt b then "[" ++ pyStr b ++ "]" else pyStr b

mutual

/-- TypeSystem.cpp_type (lines 754-805), fuelled: canonicalize, then for a
base-type string read the spelling table; pairs render scalars, refinement
overrides or predicate suffixes; longer tuples assert template arity and
fill the template spelling slot by slot according to the registered
argument kinds.  Paths that fall off the end of the source function return
Python None, modelled as an ok none result. -/
def cppTypeF (ts : TS) : Nat → Desc → Except Err (Option CfgVal)
  | 0, _ => .error .fuel
  | Nat.succ n, t =>
    match canonF ts.toReg n t with
    | .error e => .error e
    | .ok c =>
      match c with
      | .str s =>
          if ts.base_types.contains (.str s) then
            match cfgGet ts ts.cpp_types (.str s) with
            | some v => .ok (some v)
            | none => .error .keyError
          else .ok none
      | .tup xs =>
          match xs with
          | [a, b] =>
              if pyEqZero b then cppTypeF ts n a
              else
                match isrefD ts.toReg b with
                | .error e => .error e
                | .ok isref =>
                  if isref then
                    match pyIndex0 b with
                    | .error e => .error e
                    | .ok b0 =>
                        match cfgGet ts ts.cpp_types b0 with
                        | some v => .ok (some v)
                        | none => cppTypeF ts n a
                  else
                    match cppTypeF ts n a with
                    | .error e => .error e
                    | .ok base => .ok (some (.s (cppAddPred (cfgStr base) (predText b))))
          | t0 :: _ :: _ :: _ =>
              if (dlookup ts.template_types t0).isNone then .error .assertionError
              else if xs.length ≠ ((dlookup ts.template_types t0).getD []).length + 2 then
                .error .assertionError
              else
                match cfgGet ts ts.cpp_types t0 with
                | none => .error .keyError
                | some .notImpl => .error .assertionError
                | some (.s tname) =>
                  let kinds := (dlookup ts.argument_kinds c).getD
                    (List.replicate (xs.length - 2) .anone)
                  match cppFill ts n ((xs.drop 1).dropLast.zip kinds) with
                  | .error e => .error e
                  | .ok fills =>
                    match pyJoin ", " fills with
                    | .error e => .error e
                    | .ok inner =>
                      let cppt := tname ++ "< " ++ inner ++ " >"
                      let lastv := xs.getLastD (.int 0)
                      if !(pyEqZero lastv) then
                        .ok (some (.s (cppAddPred cppt (predText lastv))))
                      else .ok (some (.s cppt))
          | _ => .ok none
      | _ => .ok none

/-- The template_filling loop of TypeSystem.cpp_type: LIT slots render as
literals, TYPE slots recurse, VAR slots qualify as variables; untagged
slots render bools from the spelling table, numbers as text, and probe
anything else as a type with a variable fallback on TypeError. -/
def cppFill (ts : TS) : Nat → List (Desc × ArgKind) → Except Err (List JoinVal)
  | 0, _ => .error .fuel
  | Nat.succ _, [] => .ok []
  | Nat.succ n, (x, kind) :: more =>
    let one : Except Err JoinVal :=
      match kind with
      | .alit => cppLiteralF ts x
      | .atype =>
          match cppTypeF ts n x with
          | .error e => .error e
          | .ok r =>
              match r with
              | some (.s v) => .ok (.s v)
              | _ => .ok .notstr
      | .avar => .ok (cppVarName ts x)
      | .anone =>
          match x with
          | .bool b =>
              match cfgGet ts ts.cpp_types (.bool b) with
              | some (.s v) => .ok (.s v)
              | some .notImpl => .ok .notstr
              | none => .error .keyError
          | .int _ | .float _ => .ok (.s (pyStr x))
          | _ =>
              match cppTypeF ts n x with
              | .ok (some (.s v)) => .ok (.s v)
              | .ok _ => .ok .notstr
              | .error .typeError => .ok (cppVarName ts x)
              | .error e => .error e
    match one with
    | .error e => .error e
    | .ok j =>
        match cppFill ts n more with
        | .error e => .error e
        | .ok js => .ok (j :: js)

end

/-- The memoized entry point for TypeSystem.cpp_type: utils.memoize_method
keys the cache by method name and exact argument; a hit returns the stored
result, a miss computes and stores.  (Inner recursive calls also pass
through the decorated method in the source; the claims here quantify over
an arbitrary pre-existing cache, which covers any set of stale inner
entries.) -/
def cppTypeM (ts : TS) (fuel : Nat) (t : Desc) : Except Err (Option CfgVal × TS) :=
  match dlookup (ts.cache.filterMap (fun e =>
      if e.1 == "cpp_type" then some (e.2.1, e.2.2) else none)) t with
  | some v => .ok (v, ts)
  | none =>
      match cppTypeF ts fuel t with
      | .error e => .error e
      | .ok r => .ok (r, { ts with cache := ts.cache ++ [("cpp_type", t, r)] })

/-- The template_args parameter of TypeSystem.register_class: absent, a
string, or a sequence of template parameter names. -/
inductive TArgs where
  | noneA
  | strA (s : String)
  | listA (ls : List String)
deriving DecidableEq, Repr

/-- An argument accepted by _ensure_importable: None, a bare string, a
single import tuple, or a tuple of import tuples. -/
inductive EnsArg where
  | noneE
  | strE (s : String)
  | tup1 (t : List (Option String))
  | tup2 (t : Imp)
deriving DecidableEq, Repr

/-- xdress/types/system.py _ensure_importable (lines 2265-2271): strings
and None wrap twice, a single tuple whose head is a string or None wraps
once, anything else passes through. -/
def ensureImportable : EnsArg → Imp
  | .noneE => [[none]]
  | .strE s => [[some s]]
  | .tup1 t => [t]
  | .tup2 t => t

/-- The optional keyword arguments of TypeSystem.register_class in source
order. -/
structure RegClassArgs where
  template_args : TArgs := .noneA
  cython_c_type : Option CfgVal := none
  cython_cimport : Option EnsArg := none
  cython_cy_type : Option CfgVal := none
  cython_py_type : Option CfgVal := none
  cython_template_class_name : Option String := none
  cython_template_function_name : Option String := none
  cython_cyimport : Option EnsArg := none
  cython_pyimport : Option EnsArg := none
  cython_c2py : Option Conv := none
  cython_py2c : Option (String × Option String) := none
  cpp_type : Option CfgVal := none
  human_name : Option String := none
  from_pytype : Option (List String) := none
deriving Repr

/-- TypeSystem.register_class (lines 1463-1524).  The class name lands in
base_types (a plain set) or template_types (a plain dict); each provided
spelling, import, converter or mangling entry is stored through its table
wrapper.  Modelled from the spec for the wrappers of
xdress/types/containers.py (not under src/): every write through a wrapped
table invalidates all memoized results before any subsequent read, while
the plain containers base_types, template_types, from_pytypes and
humannames are written directly. -/
def registerClass (ts : TS) (name : Desc) (args : RegClassArgs) : Except Err TS := do
  let ts ←
    match args.template_args with
    | .noneA => pure { ts with base_types := saddOnce ts.base_types name }
    | .strA s =>
        if s.length == 0 then
          pure { ts with base_types := saddOnce ts.base_types name }
        else .error .typeError
    | .listA ls =>
        if ls.length == 0 then
          pure { ts with base_types := saddOnce ts.base_types name }
        else pure { ts with template_types := dinsert ts.template_types name ls }
  let ts := match args.cython_c_type with
    | some v => { ts with cython_ctypes := dinsert ts.cython_ctypes name v, cache := [] }
    | none => ts
  let ts := match args.cython_cy_type with
    | some v => { ts with cython_cytypes := dinsert ts.cython_cytypes name v, cache := [] }
    | none => ts
  let ts := match args.cython_py_type with
    | some v => { ts with cython_pytypes := dinsert ts.cython_pytypes name v, cache := [] }
    | none => ts
  let ts := match args.from_pytype with
    | some v => { ts with from_pytypes := dinsert ts.from_pytypes name v }
    | none => ts
  let ts := match args.cpp_type with
    | some v => { ts with cpp_types := dinsert ts.cpp_types name v, cache := [] }
    | none => ts
  let ts := match args.human_name with
    | some v => { ts with humannames := dinsert ts.humannames name v }
    | none => ts
  let ts := match args.cython_cimport with
    | some v => { ts with
        cython_cimports := dinsert ts.cython_cimports name (ensureImportable v),
        cache := [] }
    | none => ts
  let ts := match args.cython_cyimport with
    | some v => { ts with
        cython_cyimports := dinsert ts.cython_cyimports name (ensureImportable v),
        cache := [] }
    | none => ts
  let ts := match args.cython_pyimport with
    | some v => { ts with
        cython_pyimports := dinsert ts.cython_pyimports name (ensureImportable v),
        cache := [] }
    | none => ts
  let ts := match args.cython_c2py with
    | some v => { ts with
        cython_c2py_conv := dinsert ts.cython_c2py_conv name v,
        cache := [] }
    | none => ts
  let ts := match args.cython_py2c with
    | some v => { ts with
        cython_py2c_conv := dinsert ts.cython_py2c_conv name v,
        cache := [] }
    | none => ts
  let ts := match args.cython_template_class_name with
    | some v => { ts with
        cython_classnames := dinsert ts.cython_classnames name v,
        cache := [] }
    | none => ts
  let ts := match args.cython_template_function_name with
    | some v => { ts with
        cython_functionnames := dinsert ts.cython_functionnames name v,
        cache := [] }
    | none => ts
  pure ts

/-- The outcome of running a with-block body: either a normal completion
or an exception, in both cases with the state the body left behind. -/
def BodyRun : Type := TS → Option Err × TS

/-- TypeSystem.swap_dtypes (lines 1891-1900) run around a caller body
under the with-statement protocol for @contextmanager generators: on
entry the dtypes value is replaced and the memo table cleared; on normal
exit the generator resumes after its yield, clearing the memo table again
and restoring the old value.  When the body raises, the exception is
thrown into the generator at the yield point, and since the generator
body has no try/finally the code after the yield never runs: the
exception propagates with the swapped value and the body-polluted memo
table still in place. -/
def swapDtypesRun (ts : TS) (s : String) (body : BodyRun) : Option Err × TS :=
  let ts1 := TS.clearmemo { ts with dtypes := s }
  match body ts1 with
  | (none, ts2) => (none, { TS.clearmemo ts2 with dtypes := ts.dtypes })
  | (some e, ts2) => (some e, ts2)

/-- TypeSystem.swap_stlcontainers (lines 1902-1911), with the same
@contextmanager protocol as swap_dtypes. -/
def swapStlcontainersRun (ts : TS) (s : String) (body : BodyRun) : Option Err × TS :=
  let ts1 := TS.clearmemo { ts with stlcontainers := s }
  match body ts1 with
  | (none, ts2) => (none, { TS.clearmemo ts2 with stlcontainers := ts.stlcontainers })
  | (some e, ts2) => (some e, ts2)

/-- Substitution of named fields into a Python format template by targeted
replacement of each \x7bname\x7d placeholder. -/
def pyFormatMap (tmpl : String) : List (String × String) → String
  | [] => tmpl
  | (k, v) :: rest => pyFormatMap (pyReplace tmpl ("\x7b" ++ k ++ "\x7d") v) rest

/-- The numeric-literal mangling of TypeSystem.cython_functionname (line
1264): sign characters and the decimal point are spelled out. -/
def cyNumMangle (x : Desc) : String :=
  pyReplace (pyReplace (pyReplace (pyStr x) "-" "Neg") "+" "Pos") "." "point"

mutual

/-- The format-dictionary loop shared by cython_functionname when the head
names a template: each slot contributes its mangled text under the
declared dependency name. -/
def cyFillFuncname (ts : TS) : Nat → Desc → String → Except Err String
  | 0, _, _ => .error .fuel
  | Nat.succ n, c, fmt =>
    match c with
    | .tup (t0 :: rest) =>
        let params := (dlookup ts.template_types t0).getD []
        let slots := rest.dropLast
        match cyFillGo ts n (params.zip slots) with
        | .error e => .error e
        | .ok kvs => .ok (pyFormatMap fmt kvs)
    | _ => .error .typeError

def cyFillGo (ts : TS) : Nat → List (String × Desc) → Except Err (List (String × String))
  | 0, _ => .error .fuel
  | Nat.succ _, [] => .ok []
  | Nat.succ n, (key, x) :: more =>
    let one : Except Err String :=
      match x with
      | .str s =>
          match dlookup ts.cython_functionnames (.str s) with
          | some v => .ok (substMods ts v)
          | none => .ok s
      | .int _ | .bool _ | .float _ => .ok (cyNumMangle x)
      | .tup (x0 :: _) =>
          if ts.base_types.contains x0 then
            match dlookup ts.cython_functionnames x0 with
            | some v => .ok (substMods ts v)
            | none => .error .keyError
          else
            match dlookup ts.cython_functionnames x0 with
            | none => .error .keyError
            | some fmt2 => cyFillFuncname ts n x (substMods ts fmt2)
      | _ => .error .typeError
    match one with
    | .error e => .error e
    | .ok v =>
        match cyFillGo ts n more with
        | .error e => .error e
        | .ok vs => .ok ((key, v) :: vs)

end

/-- TypeSystem.cython_functionname (lines 1248-1271, also bound as
cython_variablename), fuelled: canonicalize, look through
cython_functionnames for atomic and base-headed forms, and for template
forms fill the per-head format string by mangling each slot. -/
def cythonFunctionnameF (ts : TS) : Nat → Desc → Except Err (Desc × String)
  | 0, _ => .error .fuel
  | Nat.succ n, t =>
    match canonF ts.toReg n t with
    | .error e => .error e
    | .ok c =>
      match c with
      | .str s =>
          match dlookup ts.cython_functionnames (.str s) with
          | some v => .ok (c, substMods ts v)
          | none => .error .keyError
      | .tup xs =>
          match xs with
          | [] => .error .indexError
          | t0 :: _ =>
              if ts.base_types.contains t0 then
                match dlookup ts.cython_functionnames t0 with
                | some v => .ok (c, substMods ts v)
                | none => .error .keyError
              else
                match dlookup ts.cython_functionnames t0 with
                | none => .error .keyError
                | some fmt =>
                    match cyFillFuncname ts n c (substMods ts fmt) with
                    | .error e => .error e
                    | .ok v => .ok (c, v)
      | _ => .error .typeError

/-- TypeSystem.register_numpy_dtype (lines 1810-1838): canonicalize, and
when the canonical form already holds a numpy_types entry return at once,
leaving every table untouched; otherwise derive the dtype variable name,
store the dtypes-module spelling, register the five alias spellings for
it, and extend the import tables (reading the raw backing dicts of
the import wrappers).  Writes go through wrapped tables and so clear the memo
cache (modelled from the spec for xdress/types/containers.py, not under
src/). -/
def registerNumpyDtype (ts : TS) (fuel : Nat) (t : Desc)
    (cython_cimport cython_cyimport cython_pyimport : Option EnsArg) :
    Except Err TS :=
  match canonF ts.toReg fuel t with
  | .error e => .error e
  | .ok ct =>
    if (dlookup ts.numpy_types ct).isSome then .ok ts
    else
      match cythonFunctionnameF ts fuel ct with
      | .error e => .error e
      | .ok (_, varname) =>
        let rawv := "\x7bdtypes\x7dxd_" ++ varname ++ ".num"
        let ts := { ts with numpy_types := dinsert ts.numpy_types ct rawv, cache := [] }
        let readv := substMods ts rawv
        let ts := { ts with type_aliases := sinsert ts.type_aliases readv ct, cache := [] }
        let ts := { ts with
          type_aliases := sinsert ts.type_aliases ("xd_" ++ varname) ct, cache := [] }
        let ts := { ts with
          type_aliases := sinsert ts.type_aliases ("xd_" ++ varname ++ ".num") ct,
          cache := [] }
        let ts := { ts with
          type_aliases := sinsert ts.type_aliases ("\x7bdtypes\x7dxd_" ++ varname) ct,
          cache := [] }
        let ts := { ts with
          type_aliases :=
            sinsert ts.type_aliases ("\x7bdtypes\x7dxd_" ++ varname ++ ".num") ct,
          cache := [] }
        let ts :=
          match cython_cimport with
          | some ci =>
              let x := (match dlookup ts.cython_cimports ct with
                        | some old => old
                        | none => ensureImportable .noneE) ++ ensureImportable ci
              { ts with cython_cimports := dinsert ts.cython_cimports ct x, cache := [] }
          | none => ts
        let xcy := [[some "\x7bdtypes\x7d"]] ++
          (match dlookup ts.cython_cyimports ct with
           | some old => old
           | none => ensureImportable .noneE) ++
          (match cython_cyimport with
           | some a => ensureImportable a
           | none => ensureImportable .noneE)
        let ts := { ts with
          cython_cyimports := dinsert ts.cython_cyimports ct xcy,
          cache := [] }
        let xpy := [[some "\x7bdtypes\x7d"]] ++
          (match dlookup ts.cython_pyimports ct with
           | some old => old
           | none => ensureImportable .noneE) ++
          (match cython_pyimport with
           | some a => ensureImportable a
           | none => ensureImportable .noneE)
        let ts := { ts with
          cython_pyimports := dinsert ts.cython_pyimports ct xpy,
          cache := [] }
        .ok ts

/-- Python "pat in s" on strings. -/
def strHas (s pat : String) : Bool := listHasSub pat.data s.data

/-- Python s.splitlines(): split on newlines, with no final empty segment
and an empty list for an empty string. -/
def splitLines (s : String) : List String :=
  let parts := (splitOnChar (Char.ofNat 10) s.data).map (fun l => String.mk l)
  if parts.getLastD "" == "" then parts.dropLast else parts

/-- Python l.split()[-1]: the last whitespace-separated token of a line
(the translated call sites only apply it to nonempty lines). -/
def lastToken (l : String) : String :=
  ((((splitOnChar (Char.ofNat 32) l.data).map (fun w => String.mk w)).filter
      (fun w => w ≠ "")).getLastD "")

/-- The first unwrapping loop of TypeSystem.cython_c2py_getitem (lines
1303-1306): while the key misses the converter table and is not a string,
descend into the refinement predicate when there is one, else into the
head. -/
def c2pyLoop1 (ts : TS) : Nat → Desc → Except Err Desc
  | 0, _ => .error .fuel
  | Nat.succ n, tkey =>
    if (dlookup ts.cython_c2py_conv tkey).isSome then .ok tkey
    else
      match tkey with
      | .str s => .ok (.str s)
      | .tup [] => .error .indexError
      | .tup [_] => .error .indexError
      | .tup (x0 :: y1 :: _) =>
          match isrefD ts.toReg y1 with
          | .error e => .error e
          | .ok r => if r then c2pyLoop1 ts n y1 else c2pyLoop1 ts n x0
      | _ => .error .typeError

/-- The second unwrapping loop of TypeSystem.cython_c2py_getitem (lines
1308-1311): restart from the canonical type, descending only through
heads. -/
def c2pyLoop2 (ts : TS) : Nat → Desc → Except Err Desc
  | 0, _ => .error .fuel
  | Nat.succ n, tkey =>
    if (dlookup ts.cython_c2py_conv tkey).isSome then .ok tkey
    else
      match tkey with
      | .str s => .ok (.str s)
      | .tup [] => .error .indexError
      | .tup (x0 :: _) => c2pyLoop2 ts n x0
      | _ => .error .typeError

/-- TypeSystem.cython_c2py_getitem (lines 1299-1316): canonicalize, unwrap
to the nearest registered converter key, and read the entry.  (A callable
entry would be materialized and written back on first use; the registries
modelled here hold static entries.) -/
def cythonC2pyGetitem (ts : TS) (fuel : Nat) (t : Desc) : Except Err Conv :=
  match canonF ts.toReg fuel t with
  | .error e => .error e
  | .ok c =>
    match c2pyLoop1 ts fuel c with
    | .error e => .error e
    | .ok tk1 =>
      match (if (dlookup ts.cython_c2py_conv tk1).isSome then .ok tk1
             else c2pyLoop2 ts fuel c) with
      | .error e => .error e
      | .ok tk2 =>
          match dlookup ts.cython_c2py_conv tk2 with
          | some v => .ok v
          | none => .error .keyError

/-- The string renderings of a type exposed by the typestr helper object
(class typestr, lines 1940 onward) that the conversion templates can
splice in.  Its properties call back into the spelling deriver; the
renderings enter cython_c2py as an opaque record here, which is exact for
every property the ValueError claim quantifies over, since the single
raise ValueError statement of the module is the one inside cython_c2py
itself. -/
structure TStrO where
  cython_cytype : String
  cython_pytype : String
  cython_ctype : String
  cython_ctype_nopred : String
  cython_cytype_nopred : String
  trepr : String
deriving DecidableEq, Repr

/-- Substitution of the cython_c2py template keyword set: var, cache_name,
proxy_name and the typestr attribute references. -/
def fmtC2py (o : TStrO) (var cacheName proxyName : String) (tmpl : String) : String :=
  pyFormatMap tmpl
    [("var", var), ("cache_name", cacheName), ("proxy_name", proxyName),
     ("t.cython_cytype", o.cython_cytype), ("t.cython_pytype", o.cython_pytype),
     ("t.cython_ctype", o.cython_ctype),
     ("t.cython_ctype_nopred", o.cython_ctype_nopred),
     ("t.cython_cytype_nopred", o.cython_cytype_nopred),
     ("t.type", o.trepr)]

/-- The declaration/body merge of TypeSystem.cython_c2py (lines 1362-1379):
append the numpy shape declaration when the body needs one, hoist the cdef
lines of the body into the declaration, and drop a duplicate proxy
declaration. -/
def c2pyMerge (proxyName : String) (decl body : Option String) :
    Option String × Option String :=
  let withShape : Option String × Option String :=
    match body with
    | some b =>
        if strHas b "np.npy_intp" then
          (some ((decl.getD "") ++ "\ncdef np.npy_intp " ++ proxyName ++ "_shape[1]"),
           body)
        else (decl, body)
    | none => (decl, body)
  match withShape with
  | (some d, some b) =>
      let newdecl := "\n" ++ String.intercalate "\n"
        ((splitLines b).filter (fun l => listStartsWith "cdef".data l.data))
      let b2 := String.intercalate "\n"
        ((splitLines b).filter (fun l => !(listStartsWith "cdef".data l.data)))
      let proxyInNew := (((splitLines newdecl).filter (fun l => l.length > 0)).map
        lastToken).contains proxyName
      if proxyInNew then
        let newdecl2 := newdecl ++ String.join
          ((splitLines d).filterMap (fun dl =>
            if lastToken dl ≠ proxyName then some ("\n" ++ dl) else none))
        (some newdecl2, some b2)
      else (some (d ++ newdecl), some b2)
  | other => other

/-- The code-producing body of TypeSystem.cython_c2py (lines 1333-1380),
reached only after the flag guard and the NotImplemented guard: compute
the variable, cache and proxy names, fill the template selected by the
view/cached index, and post-process the declaration and body. -/
def c2pyBuild (o : TStrO) (name : String) (tl : List String) (ind : Nat)
    (instName proxyName cacheName : Option String)
    (cachePfx : Option String) (existingName : Option String) :
    Except Err (Option String × Option String × String × Bool) :=
  let var0 := match instName with
    | none => name
    | some i => i ++ "." ++ name
  let var := match existingName with
    | some e => if e == "" then var0 else e
    | none => var0
  let cn0 := cacheName.getD ("_" ++ name)
  let cn := match cachePfx with
    | none => cn0
    | some p => p ++ "." ++ cn0
  let proxy := proxyName.getD (name ++ "_proxy")
  let fmt := fmtC2py o var cn proxy
  let sel : Except Err (Option String × Option String × String × Bool) :=
    if tl.length == 1 || ind == 0 then
      match tl.head? with
      | none => .error .indexError
      | some t0 =>
          if strHas t0 "\x7bproxy_name\x7d" then
            .ok (none, some (fmt t0), proxy, false)
          else .ok (none, none, fmt t0, false)
    else if ind == 1 then
      match tl.get? 1 with
      | none => .error .indexError
      | some t1 =>
          .ok (some ("cdef " ++ o.cython_cytype ++ " " ++ proxy),
               some (fmt t1), proxy, false)
    else
      match tl.get? 2 with
      | none => .error .indexError
      | some t2 =>
          .ok (some ("cdef " ++ o.cython_cytype ++ " " ++ proxy),
               some (fmt t2), cn, true)
  match sel with
  | .error e => .error e
  | .ok (decl, body, rtn, isc) =>
      let m := c2pyMerge proxy decl body
      .ok (m.1, m.2, rtn, isc)

/-- TypeSystem.cython_c2py (lines 1318-1380): canonicalize, fetch the
converter templates, reject the cached-without-view flag combination with
ValueError, reject a NotImplemented entry, then build the conversion
code. -/
def cythonC2py (ts : TS) (o : TStrO) (fuel : Nat) (name : String) (t : Desc)
    (view cached : Bool) (instName proxyName cacheName : Option String)
    (cachePfx : Option String) (existingName : Option String) :
    Except Err (Option String × Option String × String × Bool) :=
  match canonF ts.toReg fuel t with
  | .error e => .error e
  | .ok c =>
    match cythonC2pyGetitem ts fuel c with
    | .error e => .error e
    | .ok c2pyt =>
      let ind : Nat := (if view then 1 else 0) + (if cached then 1 else 0)
      if cached && !view then .error .valueError
      else
        match c2pyt with
        | .notImpl => .error .notImplementedError
        | .tups tl =>
            c2pyBuild o name tl ind instName proxyName cacheName cachePfx
              existingName

/-- The static registry tables read by the state-passing canonicalizer
(the shared mutable type_aliases table lives in the mutable state). -/
structure RegS where
  base_types : List Desc
  template_types : List (Desc × List String)
  refined_types : List (Desc × Desc)
deriving DecidableEq, Repr

/-- The mutable state threaded through the state-passing canonicalizer:
the shared type_aliases table and the canon memo table kept by
utils.memoize_method under keys (canon, (t,), ()). -/
structure MSt where
  type_aliases : List (String × Desc)
  canonMemo : List (Desc × Desc)
deriving DecidableEq, Repr

/-- The dependent heads of a RegS (as depNames). -/
def depNamesS (B : RegS) : List Desc :=
  B.refined_types.filterMap (fun kv =>
    match kv.1 with
    | .str _ => none
    | .tup (x :: _) => some x
    | _ => none)

/-- TypeSystem.isdependent over RegS. -/
def isdepDS (B : RegS) : Desc → Except Err Bool
  | .str s => .ok ((depNamesS B).contains (.str s))
  | .tup [] => .error .indexError
  | .tup (x :: _) => isdepDS B x
  | _ => .ok false

/-- TypeSystem.istemplate over RegS. -/
def istemplDS (B : RegS) : Desc → Except Err Bool
  | .str s => .ok (dlookup B.template_types (.str s)).isSome
  | .tup [] => .error .indexError
  | .tup (x :: _) => istemplDS B x
  | _ => .ok false

/-- The signature-key search of _resolve_dependent_type over RegS. -/
def findDepKeyS (B : RegS) (tname : Desc) : Except Err (Desc × Desc) :=
  go B.refined_types
where
  go : List (Desc × Desc) → Except Err (Desc × Desc)
    | [] => .error .indexError
    | (k, v) :: rest =>
        match pyIndex0 k with
        | .error e => .error e
        | .ok h => if h == tname then .ok (k, v) else go rest

/-- The dict construction of the typemap in _resolve_dependent_type: later
bindings of the same parameter name overwrite earlier ones, and each key
appears once. -/
def typemapOf (deprest tirest : List Desc) : List (String × Desc) :=
  (deprest.zip tirest).foldl (fun acc kv =>
    match kv.1 with
    | .str s => sinsert acc s kv.2
    | _ => acc) []

/-- The deletion loop closing the templated branch of
_resolve_dependent_type (lines 639-641): each temporary alias is removed
from type_aliases and its canon memo entry deleted; TypeSystem.delmemo
performs a raw del on the cache and raises KeyError when the entry is
absent. -/
def delTempAliases : List String → MSt → Except Err MSt
  | [], st => .ok st
  | k :: ks, st =>
      let st1 : MSt := { st with type_aliases := sdelete st.type_aliases k }
      if (dlookup st1.canonMemo (.str k)).isSome then
        delTempAliases ks { st1 with canonMemo := ddelete st1.canonMemo (.str k) }
      else .error .keyError

mutual

/-- The state-passing rendering of TypeSystem.canon: identical branch
structure to canonF, with the shared type_aliases table and the canon memo
table threaded explicitly.  Every call first consults the memo table and
every computed result is stored, as utils.memoize_method does. -/
def canonStM (B : RegS) : Nat → MSt → Desc → Except Err (Desc × MSt)
  | 0, _, _ => .error .fuel
  | Nat.succ n, st, t =>
    match dlookup st.canonMemo t with
    | some c => .ok (c, st)
    | none =>
      match canonCoreSt B n st t with
      | .error e => .error e
      | .ok (r, st1) => .ok (r, { st1 with canonMemo := dinsert st1.canonMemo t r })

/-- The body of TypeSystem.canon in the state-passing rendering. -/
def canonCoreSt (B : RegS) : Nat → MSt → Desc → Except Err (Desc × MSt)
  | 0, _, _ => .error .fuel
  | Nat.succ n, st, t =>
    match t with
    | .str s =>
      if B.base_types.contains (.str s) then .ok (.str s, st)
      else
        match alookup st.type_aliases s with
        | some v => canonStM B n st v
        | none =>
          match dlookup B.refined_types (.str s) with
          | some parent =>
              match canonStM B n st parent with
              | .ok (p, st1) => .ok (.tup [p, .str s], st1)
              | .error e => .error e
          | none =>
              if (depNamesS B).contains (.str s) then resolveDepStM B n st (.str s) none
              else .error .typeError
    | .tup [] => .error .indexError
    | .tup (t0 :: rest) =>
      let xs := t0 :: rest
      let lastv : Desc := if xs.length == 1 then .int 0 else xs.getLastD (.int 0)
      match t0 with
      | .str s0 =>
          if (depNamesS B).contains (.str s0) then
            resolveDepStM B n st t0 (some (.tup xs))
          else
            match dlookup B.template_types (.str s0) with
            | some params =>
                let templen := params.length
                let lastv2 : Desc :=
                  if xs.length == 1 + templen then .int 0 else xs.getLastD (.int 0)
                match canonSlotsSt B n st ((xs.drop 1).take templen) with
                | .ok (slots, st1) => .ok (.tup (t0 :: (slots ++ [lastv2])), st1)
                | .error e => .error e
            | none =>
                match canonStM B n st t0 with
                | .ok (c, st1) => .ok (.tup [c, lastv], st1)
                | .error e => .error e
      | .tup _ =>
          match isdepDS B t0 with
          | .error e => .error e
          | .ok dep =>
            if dep then resolveDepStM B n st t0 (some (.tup xs))
            else
              match canonStM B n st t0 with
              | .ok (c, st1) => .ok (.tup [c, lastv], st1)
              | .error e => .error e
      | _ => .error .typeError
    | _ => .error .typeError

/-- The template-slot loop in the state-passing rendering. -/
def canonSlotsSt (B : RegS) : Nat → MSt → List Desc → Except Err (List Desc × MSt)
  | 0, _, _ => .error .fuel
  | Nat.succ _, st, [] => .ok ([], st)
  | Nat.succ n, st, tt :: more =>
    let one : Except Err (Desc × MSt) :=
      match tt with
      | .int _ | .bool _ | .float _ => .ok (tt, st)
      | .str _ =>
          match canonStM B n st tt with
          | .ok p => .ok p
          | .error .typeError => .ok (tt, st)
          | .error e => .error e
      | .tup ys =>
          match ys with
          | [y0, y1] => if inArgEnum y0 then canonStM B n st y1 else canonStM B n st tt
          | _ => canonStM B n st tt
      | _ => .error .typeError
    match one with
    | .error e => .error e
    | .ok (c, st1) =>
        match canonSlotsSt B n st1 more with
        | .ok (cs, st2) => .ok (c :: cs, st2)
        | .error e => .error e

/-- Canonicalization mapped over a list in the state-passing rendering. -/
def canonListSt (B : RegS) : Nat → MSt → List Desc → Except Err (List Desc × MSt)
  | 0, _, _ => .error .fuel
  | Nat.succ _, st, [] => .ok ([], st)
  | Nat.succ n, st, d :: ds =>
      match canonStM B n st d with
      | .error e => .error e
      | .ok (c, st1) =>
          match canonListSt B n st1 ds with
          | .ok (cs, st2) => .ok (c :: cs, st2)
          | .error e => .error e

/-- The templated dependency-triple loop in the state-passing rendering. -/
def depTriplesSt (B : RegS) : Nat → MSt → List (Desc × Desc) →
    Except Err (List Desc × MSt)
  | 0, _, _ => .error .fuel
  | Nat.succ _, st, [] => .ok ([], st)
  | Nat.succ n, st, (k, instval) :: more =>
      match pyIndex0 k with
      | .error e => .error e
      | .ok k0 =>
          match pyIndex1 k with
          | .error e => .error e
          | .ok k1 =>
              match canonStM B n st k1 with
              | .error e => .error e
              | .ok (ck1, st1) =>
                  match depTriplesSt B n st1 more with
                  | .ok (tris, st2) => .ok (.tup [k0, ck1, instval] :: tris, st2)
                  | .error e => .error e

/-- The non-templated dependency-triple loop in the state-passing
rendering. -/
def depTriplesUSt (B : RegS) : Nat → MSt → List (Desc × Desc) →
    Except Err (List Desc × MSt)
  | 0, _, _ => .error .fuel
  | Nat.succ _, st, [] => .ok ([], st)
  | Nat.succ n, st, (k, instval) :: more =>
      match pyUnpack2 k with
      | .error e => .error e
      | .ok (kname, ktype) =>
          match canonStM B n st ktype with
          | .error e => .error e
          | .ok (ck, st1) =>
              match depTriplesUSt B n st1 more with
              | .ok (tris, st2) => .ok (.tup [kname, ck, instval] :: tris, st2)
              | .error e => .error e

/-- TypeSystem._resolve_dependent_type in the state-passing rendering.
The templated branch installs the typemap bindings in the shared
type_aliases table (after the collision check), canonicalizes under them,
and closes with the deletion loop removing the bindings and their canon
memo entries.  (The table wrappers of containers.py are not under src/;
the memo table is conservatively retained across the installation, which
is the worst case for binding leakage.) -/
def resolveDepStM (B : RegS) : Nat → MSt → Desc → Option Desc →
    Except Err (Desc × MSt)
  | 0, _, _, _ => .error .fuel
  | Nat.succ n, st, tname, tinst =>
    match findDepKeyS B tname with
    | .error e => .error e
    | .ok (depkey, depval) =>
      match istemplDS B depkey with
      | .error e => .error e
      | .ok istemplated =>
        match tinst with
        | none => .ok (depkey, st)
        | some ti =>
          match pyLen ti, pyLen depkey with
          | .error e, _ => .error e
          | .ok _, .error e => .error e
          | .ok tiLen, .ok dkLen =>
            if tiLen ≠ dkLen then .error .assertionError
            else
              match pyElemsTail depkey, pyElemsTail ti with
              | .error e, _ => .error e
              | .ok _, .error e => .error e
              | .ok deprest, .ok tirest =>
                if istemplated then
                  let typemap := typemapOf deprest tirest
                  if typemap.any (fun kv => (alookup st.type_aliases kv.1).isSome) then
                    .error .typeError
                  else
                    let st0 : MSt :=
                      { st with type_aliases := st.type_aliases ++ typemap }
                    match canonStM B n st0 depval with
                    | .error e => .error e
                    | .ok (a, st1) =>
                      let strParams : List Desc :=
                        deprest.filterMap (fun k =>
                          match k with
                          | .str s =>
                              if (typemap.any (fun kv => kv.1 == s)) then
                                some (.str s)
                              else none
                          | _ => none)
                      match canonListSt B n st1 strParams with
                      | .error e => .error e
                      | .ok (bs, st2) =>
                        let rest2 : List (Desc × Desc) :=
                          (deprest.zip tirest).filter (fun kv =>
                            match kv.1 with
                            | .str s => !(typemap.any (fun kv2 => kv2.1 == s))
                            | _ => true)
                        match depTriplesSt B n st2 rest2 with
                        | .error e => .error e
                        | .ok (cs, st3) =>
                            match delTempAliases (typemap.map (fun kv => kv.1)) st3 with
                            | .error e => .error e
                            | .ok st4 =>
                                .ok (.tup [a, .tup (tname :: (bs ++ cs))], st4)
                else
                  match canonStM B n st depval with
                  | .error e => .error e
                  | .ok (a, st1) =>
                    match depTriplesUSt B n st1 (deprest.zip tirest) with
                    | .error e => .error e
                    | .ok (cs, st2) => .ok (.tup [a, .tup (tname :: cs)], st2)

end

mutual

/-- The hashability type-walk of the specification: a value built only
from strings, ints (Python bools included, being an int subclass) and
tuples, recursively. -/
def strIntTup : Desc → Bool
  | .str _ => true
  | .int _ => true
  | .bool _ => true
  | .float _ => false
  | .arg _ => false
  | .tup xs => strIntTupList xs

def strIntTupList : List Desc → Bool
  | [] => true
  | d :: ds => strIntTup d && strIntTupList ds

end

/-- A registry whose alias values and refinement keys and values pass the
strings-ints-tuples walk (every shipped table does). -/
def regFlat (R : Reg) : Bool :=
  R.type_aliases.all (fun kv => strIntTup kv.2) &&
  R.refined_types.all (fun kv => strIntTup kv.1 && strIntTup kv.2)

/-- The declared arity of the template heads of the fixed registry Rc. -/
def templArityRc (s : String) : Option Nat :=
  if s == "map" then some 2
  else if s == "set" then some 1
  else if s == "vector" then some 1
  else none

/-- The atomic names the fixed registry Rc resolves: base types, aliases
and simple refinements. -/
def wfStrRc (s : String) : Bool :=
  s == "int32" || s == "int64" || s == "float32" || s == "float64" ||
  s == "char" || s == "str" || s == "bool" || s == "void" ||
  s == "int" || s == "i4" || s == "f8" || s == "posint" || s == "nucid"

/-- An atomic name on which canonicalization over Rc fails with TypeError:
known to no table and not a dependent head. -/
def strFailsRc (s : String) : Bool :=
  !(wfStrRc s) && !(s == "intrange")

/-- Whether a descriptor is headed (hereditarily through first elements)
by the dependent-refinement name of Rc. -/
def depHeadRc : Desc → Bool
  | .str s => s == "intrange"
  | .tup (x :: _) => depHeadRc x
  | _ => false

/-- Whether a descriptor is a bare template-head name of Rc. -/
def isTemplStrRc : Desc → Bool
  | .str s => (templArityRc s).isSome
  | _ => false

mutual

/-- Well-formed type descriptors over the fixed registry Rc, in the sense
of the specification data model, fuelled: resolvable atomic names;
length-1 scalar shorthands and (head, predicate) pairs whose head is
itself well-formed and neither a bare template name nor dependent-headed;
template applications with the declared arity (an optional trailing
predicate allowed); and fully instantiated applications of the dependent
refinement.  Bare references to the dependent-refinement head are not
included: their canonical form is the uninstantiated signature. -/
def wfF : Nat → Desc → Bool
  | 0, _ => false
  | Nat.succ n, d =>
    match d with
    | .str s => wfStrRc s
    | .tup [] => false
    | .tup (.str h :: rest) =>
        match templArityRc h with
        | some a =>
            (rest.length == a || rest.length == a + 1) && wfSlotsF n a rest
        | none =>
            if h == "intrange" then rest.length == 2
            else wfHeadF n (.str h) && rest.length ≤ 1
    | .tup (x :: rest) => wfHeadF n x && rest.length ≤ 1
    | _ => false

/-- A well-formed head position: well-formed, not a bare template name,
not dependent-headed. -/
def wfHeadF : Nat → Desc → Bool
  | 0, _ => false
  | Nat.succ n, d => wfF n d && !(isTemplStrRc d) && !(depHeadRc d)

/-- The first a elements of a slot list are well-formed slots. -/
def wfSlotsF : Nat → Nat → List Desc → Bool
  | 0, _, _ => false
  | Nat.succ _, 0, _ => true
  | Nat.succ _, _ + 1, [] => true
  | Nat.succ n, a + 1, d :: ds => wfSlotF n d && wfSlotsF n a ds

/-- A well-formed template slot: a numeric literal, a non-dependent atomic
name (unresolvable names pass through canonicalization unchanged), an
argument-kind-tagged pair with a well-formed payload, or a well-formed
nested descriptor. -/
def wfSlotF : Nat → Desc → Bool
  | 0, _ => false
  | Nat.succ n, d =>
    match d with
    | .int _ | .bool _ | .float _ => true
    | .str s => !(s == "intrange")
    | .tup [y0, y1] => if inArgEnum y0 then wfF n y1 else wfF n (.tup [y0, y1])
    | .tup xs => wfF n (.tup xs)
    | .arg _ => false

end

/-- Well-formedness at some sufficient fuel. -/
def WfRc (t : Desc) : Prop := ∃ n, wfF n t = true

mutual

/-- The canonical forms over the fixed registry Rc: base-type names,
(canonical, predicate) pairs with an arbitrary predicate value (the
canonicalizer passes the trailing predicate through untouched), and
filled template forms of the declared arity. -/
inductive Canon : Desc → Prop
  | base (s : String) :
      Rc.base_types.contains (.str s) = true → Canon (.str s)
  | pair (c p : Desc) : Canon c → Canon (.tup [c, p])
  | templ (h : String) (slots : List Desc) (p : Desc) (a : Nat) :
      templArityRc h = some a → slots.length = a → CanonSlots slots →
      Canon (.tup (.str h :: (slots ++ [p])))

/-- Lists of canonical template-slot values. -/
inductive CanonSlots : List Desc → Prop
  | nil : CanonSlots []
  | cons (d : Desc) (ds : List Desc) :
      CanonSlot d → CanonSlots ds → CanonSlots (d :: ds)

/-- A canonical template-slot value: a numeric literal, a canonical form,
or an unresolvable name that passed through. -/
inductive CanonSlot : Desc → Prop
  | num (d : Desc) : isNumber d = true → CanonSlot d
  | can (d : Desc) : Canon d → CanonSlot d
  | fail (s : String) : strFailsRc s = true → CanonSlot (.str s)

end

/-- The fixed points of predicate stripping over Rc: base names, pairs
with a zero predicate over a stripped head, and template forms with a
zero predicate. -/
inductive Stripped : Desc → Prop
  | base (s : String) :
      Rc.base_types.contains (.str s) = true → Stripped (.str s)
  | pair0 (c : Desc) : Stripped c → Stripped (.tup [c, .int 0])
  | templ (h : String) (slots : List Desc) (a : Nat) :
      templArityRc h = some a → slots.length = a → CanonSlots slots →
      Stripped (.tup (.str h :: (slots ++ [.int 0])))

/-- A registry holding the range dependent refinement of the module
docstring (line 153), whose signature is templated: range is both a
template head and a dependent-refinement head, so resolution binds vtype
as a temporary alias. -/
def Bdep : RegS where
  base_types := [.str "int32", .str "float64", .str "str"]
  template_types := [(.str "vector", ["value_type"]),
                     (.str "range", ["vtype", "low", "high"])]
  refined_types :=
    [(.tup [.str "range", .str "vtype", .tup [.str "low", .str "vtype"],
            .tup [.str "high", .str "vtype"]], .str "vtype")]

/-- The string template-parameter names of a dependent-refinement
signature key (the keys bound as temporary aliases during resolution). -/
def sigParams (depkey : Desc) : List String :=
  match pyElemsTail depkey with
  | .ok l => l.filterMap (fun d => match d with | .str s => some s | _ => none)
  | .error _ => []

/-- A concrete type-system state over the Rc tables with a few spelling,
mangling and converter entries, used to instantiate the stateful
theorems. -/
def TSc : TS where
  base_types := Rc.base_types
  template_types := Rc.template_types
  type_aliases := Rc.type_aliases
  refined_types := Rc.refined_types
  humannames := []
  extra_types := "xdress_extra_types"
  dtypes := "dtypes"
  stlcontainers := "stlcontainers"
  argument_kinds := []
  variable_namespace := []
  cpp_types := [(.str "int32", .s "int"), (.str "float64", .s "double"),
                (.str "vector", .s "std::vector")]
  numpy_types := [(.str "int32", "np.NPY_INT32")]
  from_pytypes := []
  cython_ctypes := []
  cython_cytypes := []
  cython_pytypes := []
  cython_cimports := []
  cython_cyimports := []
  cython_pyimports := []
  cython_functionnames := [(.str "int32", "int32"), (.str "float64", "float64"),
      (.str "vector", "vector_\x7bvalue_type\x7d")]
  cython_classnames := []
  cython_c2py_conv :=
    [(.str "int32", .tups ["int(\x7bvar\x7d)"]),
     (.str "float64",
      .tups ["float(\x7bvar\x7d)",
             "\x7bproxy_name\x7d = float(\x7bvar\x7d)",
             "\x7bproxy_name\x7d = float(\x7bvar\x7d)"])]
  cython_py2c_conv := []
  cache := []

/-- A typestr rendering record for instantiating the converter claims. -/
def oT : TStrO where
  cython_cytype := "float64"
  cython_pytype := "float"
  cython_ctype := "double"
  cython_ctype_nopred := "double"
  cython_cytype_nopred := "float64"
  trepr := "float64"

/-- A with-block body that raises (the failing scenario of the scoped-swap
restoration claim). -/
def raisingBody : BodyRun := fun ts => (some .valueError, ts)

/-- A with-block body that completes normally. -/
def okBody : BodyRun := fun ts => (none, ts)

/-- A with-block body that memoizes a spelling derived under the swapped
configuration and then raises. -/
def staleBody : BodyRun := fun ts =>
  (some .valueError,
   { ts with cache := [("cpp_type", .str "int32", some (.s "STALE"))] })

/-- The lazy read applied to a just-stored table value: the value as the
wrapped table hands it back (module placeholders expanded on strings). -/
def cfgRead (ts : TS) : CfgVal → CfgVal
  | .s w => .s (substMods ts w)
  | .notImpl => .notImpl

/-- The state register_class leaves behind when called with a name and a
C++ spelling only: the name joins base_types, the spelling lands in
cpp_types, and the memo table is invalidated. -/
def afterRegisterSpelling (ts : TS) (x : String) (v : CfgVal) : TS :=
  { ts with
    base_types := saddOnce ts.base_types (.str x),
    cpp_types := dinsert ts.cpp_types (.str x) v,
    cache := [] }

/-- The signature key of the range dependent refinement of Bdep. -/
def rangeKey : Desc :=
  .tup [.str "range", .str "vtype", .tup [.str "low", .str "vtype"],
        .tup [.str "high", .str "vtype"]]

end XdressTS

namespace XdressTS

/-- C7: canon applied to an empty sequence fails, but not with the
documented type-resolution error: the source reads t[0] before its
emptiness test, so for every registry state the call raises IndexError
and the TypeError branch guarding empty sequences is unreachable. -/
theorem canon_empty_raises_indexError (R : Reg) (n : Nat) :
    canonF R (n + 1) (.tup []) = .error .indexError := rfl

/-- C5: with vector of declared arity 1 over the fixed registry,
canon(("vector", "int32")) defaults the predicate and succeeds as
("vector", "int32", 0), but canon(("vector",)) does not raise an
arity-mismatch error: it silently returns the malformed pair
("vector", "vector"), reusing the head as its own trailing predicate. -/
theorem canon_vector_arity_behaviour :
    canonF Rc 32 (.tup [.str "vector", .str "int32"]) =
      .ok (.tup [.str "vector", .str "int32", .int 0]) ∧
    canonF Rc 32 (.tup [.str "vector"]) =
      .ok (.tup [.str "vector", .str "vector"]) := by
  constructor
  · rfl
  · rfl

/-- C4: evaluating the swap_dtypes context manager at a body that raises.
The prior value "dtypes" of the configuration is not reinstated on the
exception path (the state still carries the swapped value "other"), and a
memo entry the body wrote under the swapped configuration survives,
while a normally completing body does get the prior value restored and
the memo table cleared. -/
theorem swap_dtypes_raise_not_restored :
    (swapDtypesRun TSc "other" raisingBody).1 = some .valueError ∧
    (swapDtypesRun TSc "other" raisingBody).2.dtypes = "other" ∧
    TSc.dtypes = "dtypes" ∧
    (swapDtypesRun TSc "other" staleBody).2.cache =
      [("cpp_type", .str "int32", some (.s "STALE"))] ∧
    (swapDtypesRun TSc "other" okBody).2.dtypes = "dtypes" ∧
    (swapDtypesRun TSc "other" okBody).2.cache = [] := by
  refine ⟨rfl, rfl, rfl, rfl, rfl, rfl⟩

/-- C1 counterexample: canonicalization over the fixed registry is not
idempotent on the bare dependent-refinement reference "intrange": its
canonical form is the uninstantiated signature, and canonicalizing that
signature again resolves it into a different (instantiated) form. -/
theorem canon_not_idempotent_on_bare_dependent :
    canonF Rc 32 (.str "intrange") = .ok intrangeKey ∧
    canonF Rc 32 intrangeKey ≠ .ok intrangeKey := by
  refine ⟨rfl, ?_⟩
  decide

/-- C3 counterexample: for the non-zero predicate "*" over the base type
int32, strip_predicates(canon(("int32", "*"))) returns the bare base
"int32", not the pair ("int32", 0) the claim demands; the (base, 0)
re-wrap happens only when the stripped predicate was 0. -/
theorem strip_predicates_nonzero_returns_bare :
    stripPredsF Rc 32 (.tup [.str "int32", .str "*"]) = .ok (.str "int32") ∧
    stripPredsF Rc 32 (.str "int32") = .ok (.str "int32") ∧
    (Desc.str "int32" : Desc) ≠ .tup [.str "int32", .int 0] := by
  refine ⟨rfl, rfl, by decide⟩

/-- C6 counterexample: a literal float in a template slot passes through
canonicalization unchanged, so the canonical form of ("vector", 1.5) is
("vector", 1.5, 0), which fails the strings-ints-tuples type-walk. -/
theorem canon_float_slot_not_int_walk :
    canonF Rc 32 (.tup [.str "vector", .float "1.5"]) =
      .ok (.tup [.str "vector", .float "1.5", .int 0]) ∧
    strIntTup (.tup [.str "vector", .float "1.5", .int 0]) = false := by
  refine ⟨rfl, rfl⟩

end XdressTS

namespace XdressTS

theorem saddOnce_contains (l : List Desc) (d : Desc) :
    (saddOnce l d).contains d = true := by
  induction l with
  | nil => simp [saddOnce]
  | cons x rest ih =>
      by_cases h : x == d
      · have hx := Desc.eq_of_beq h
        subst hx
        simp [saddOnce, List.contains_cons]
      · simp only [saddOnce, h, if_false, Bool.false_eq_true]
        simp only [List.contains_cons, ih, Bool.or_true]

theorem dlookup_dinsert {α : Type} (l : List (Desc × α)) (k : Desc) (v : α) :
    dlookup (dinsert l k v) k = some v := by
  induction l with
  | nil => simp [dinsert, dlookup]
  | cons kv rest ih =>
      by_cases h : kv.1 == k
      · simp [dinsert, h, dlookup]
      · simp [dinsert, h, dlookup, ih]

/-- C10: register_numpy_dtype returns at once when the canonical form is
already a numpy_types key, leaving the whole type-system state (all
tables) untouched. -/
theorem register_numpy_dtype_idempotent (ts : TS) (fuel : Nat) (t ct : Desc)
    (ci cyi pyi : Option EnsArg)
    (hc : canonF ts.toReg fuel t = .ok ct)
    (hm : (dlookup ts.numpy_types ct).isSome = true) :
    registerNumpyDtype ts fuel t ci cyi pyi = .ok ts := by
  simp only [registerNumpyDtype, hc, hm, if_true]

/-- C10 witness: re-registering the already-registered int32 dtype through
its alias int is a no-op on the concrete state TSc. -/
theorem register_numpy_dtype_idempotent_witness :
    registerNumpyDtype TSc 20 (.str "int") none none none = .ok TSc :=
  register_numpy_dtype_idempotent TSc 20 (.str "int") (.str "int32")
    none none none rfl rfl

/-- C2: registering a new backend spelling v for a class name x through
register_class fully invalidates the memo table (whatever stale entries it
held, in particular a memoized cpp_type result for x), and the next
cpp_type query for x recomputes and observes the newly registered
spelling. -/
theorem register_class_new_spelling_observed (ts : TS) (x : String)
    (v : CfgVal) (n : Nat) :
    registerClass ts (.str x) { cpp_type := some v } =
      .ok (afterRegisterSpelling ts x v) ∧
    cppTypeM (afterRegisterSpelling ts x v) (n + 2) (.str x) =
      .ok (some (cfgRead (afterRegisterSpelling ts x v) v),
        { afterRegisterSpelling ts x v with
          cache := [("cpp_type", .str x,
                     some (cfgRead (afterRegisterSpelling ts x v) v))] }) := by
  constructor
  · rfl
  · have hb2 : Desc.str x ∈ saddOnce ts.base_types (.str x) := by
      have h := saddOnce_contains ts.base_types (.str x)
      simpa using h
    have hl : dlookup (dinsert ts.cpp_types (Desc.str x) v) (Desc.str x) =
        some v := dlookup_dinsert _ _ _
    simp [cppTypeM, cppTypeF, canonF, TS.toReg, afterRegisterSpelling, cfgGet,
      cfgRead, dlookup, hl, hb2, substMods]

end XdressTS

namespace XdressTS

theorem c2pyBuild_ne_valueError (o : TStrO) (name : String) (tl : List String)
    (ind : Nat) (iN pN cN cP eN : Option String) :
    c2pyBuild o name tl ind iN pN cN cP eN ≠ .error .valueError := by
  unfold c2pyBuild
  repeat' split
  all_goals simp_all

/-- C9: for a type whose canonical form reaches a registered converter
entry, cython_c2py raises ValueError exactly when called with cached=True
and view=False, before producing any conversion code; every permitted
flag combination never raises ValueError (the remaining failures of the
body are IndexError on too-short template tuples or NotImplementedError,
and the single raise ValueError statement of the module is the flag
guard). -/
theorem cython_c2py_valueError_iff (ts : TS) (o : TStrO) (fuel : Nat)
    (name : String) (t c : Desc) (conv : Conv) (view cached : Bool)
    (iN pN cN cP eN : Option String)
    (hc : canonF ts.toReg fuel t = .ok c)
    (hg : cythonC2pyGetitem ts fuel c = .ok conv) :
    (cythonC2py ts o fuel name t view cached iN pN cN cP eN =
        .error .valueError) ↔ (cached = true ∧ view = false) := by
  simp only [cythonC2py, hc, hg]
  cases cached <;> cases view <;>
    simp only [Bool.and_self, Bool.and_false, Bool.false_and, Bool.and_true,
      Bool.true_and, Bool.not_true, Bool.not_false, Bool.and_not_self,
      if_true, if_false, Bool.true_eq_false, Bool.false_eq_true] <;>
    try simp
  all_goals
    cases conv with
    | notImpl => simp
    | tups tl => simp [c2pyBuild_ne_valueError]

/-- C9 witness: over the concrete state TSc, the float64 conversion with
view off and caching on raises ValueError, while the same call with both
flags on does not. -/
theorem cython_c2py_valueError_iff_witness :
    (cythonC2py TSc oT 20 "x" (.str "float64") false true none none none
        (some "self") none = .error .valueError) ↔
      (true = true ∧ false = false) :=
  cython_c2py_valueError_iff TSc oT 20 "x" (.str "float64") (.str "float64")
    (.tups ["float(\x7bvar\x7d)",
            "\x7bproxy_name\x7d = float(\x7bvar\x7d)",
            "\x7bproxy_name\x7d = float(\x7bvar\x7d)"])
    false true none none none (some "self") none rfl rfl

end XdressTS

namespace XdressTS

theorem alookup_sdelete_self (l : List (String × Desc)) (k : String) :
    alookup (sdelete l k) k = none := by
  induction l with
  | nil => simp [sdelete, alookup]
  | cons kv rest ih =>
      obtain ⟨k0, v0⟩ := kv
      by_cases h : k0 == k
      · simp [sdelete, h, ih]
      · simp [sdelete, h, alookup, ih]

theorem alookup_sdelete_of_none (l : List (String × Desc)) (k kd : String)
    (h : alookup l k = none) : alookup (sdelete l kd) k = none := by
  induction l with
  | nil => simp [sdelete, alookup]
  | cons kv rest ih =>
      obtain ⟨k0, v0⟩ := kv
      simp only [alookup] at h
      by_cases h0 : k0 == k
      · simp [h0] at h
      · simp only [h0, Bool.false_eq_true, if_false] at h
        by_cases h1 : k0 == kd
        · simp [sdelete, h1, ih h]
        · simp [sdelete, h1, alookup, h0, ih h]

theorem dlookup_ddelete_self {α : Type} (l : List (Desc × α)) (k : Desc) :
    dlookup (ddelete l k) k = none := by
  induction l with
  | nil => simp [ddelete, dlookup]
  | cons kv rest ih =>
      obtain ⟨k0, v0⟩ := kv
      by_cases h : k0 == k
      · simp [ddelete, h, ih]
      · simp [ddelete, h, dlookup, ih]

theorem dlookup_ddelete_of_none {α : Type} (l : List (Desc × α)) (k kd : Desc)
    (h : dlookup l k = none) : dlookup (ddelete l kd) k = none := by
  induction l with
  | nil => simp [ddelete, dlookup]
  | cons kv rest ih =>
      obtain ⟨k0, v0⟩ := kv
      simp only [dlookup] at h
      by_cases h0 : k0 == k
      · simp [h0] at h
      · simp only [h0, Bool.false_eq_true, if_false] at h
        by_cases h1 : k0 == kd
        · simp [ddelete, h1, ih h]
        · simp [ddelete, h1, dlookup, h0, ih h]

theorem delTemp_none_preserved (ks : List String) :
    ∀ (st st' : MSt) (k : String), delTempAliases ks st = .ok st' →
      alookup st.type_aliases k = none →
      dlookup st.canonMemo (.str k) = none →
      alookup st'.type_aliases k = none ∧
        dlookup st'.canonMemo (.str k) = none := by
  induction ks with
  | nil =>
      intro st st' k h ha hm
      simp only [delTempAliases] at h
      cases h
      exact ⟨ha, hm⟩
  | cons k1 rest ih =>
      intro st st' k h ha hm
      simp only [delTempAliases] at h
      split at h
      · exact ih _ _ k h
          (alookup_sdelete_of_none _ _ _ ha)
          (dlookup_ddelete_of_none _ _ _ hm)
      · exact (Except.noConfusion h)

theorem delTemp_removes (ks : List String) :
    ∀ (st st' : MSt), delTempAliases ks st = .ok st' →
      ∀ k ∈ ks, alookup st'.type_aliases k = none ∧
        dlookup st'.canonMemo (.str k) = none := by
  induction ks with
  | nil => intro st st' _ k hk; simp at hk
  | cons k1 rest ih =>
      intro st st' h k hk
      simp only [delTempAliases] at h
      split at h
      · rcases List.mem_cons.mp hk with rfl | hmem
        · exact delTemp_none_preserved rest _ _ k h
            (alookup_sdelete_self _ _) (dlookup_ddelete_self _ _)
        · exact ih _ _ h k hmem
      · exact (Except.noConfusion h)

theorem mem_keys_sinsert_self {α : Type} (l : List (String × α)) (k : String)
    (v : α) : k ∈ (sinsert l k v).map Prod.fst := by
  induction l with
  | nil => simp [sinsert]
  | cons kv rest ih =>
      obtain ⟨k0, v0⟩ := kv
      by_cases h : k0 == k
      · simp only [sinsert, h, if_true]
        have hk : k0 = k := by simpa using h
        simp [hk]
      · simp only [sinsert, h, Bool.false_eq_true, if_false, List.map_cons]
        exact List.mem_cons_of_mem _ ih

theorem mem_keys_sinsert_mono {α : Type} (l : List (String × α))
    (k ks : String) (v : α) (h : ks ∈ l.map Prod.fst) :
    ks ∈ (sinsert l k v).map Prod.fst := by
  induction l with
  | nil => simp at h
  | cons kv rest ih =>
      obtain ⟨k0, v0⟩ := kv
      by_cases h0 : k0 == k
      · simpa [sinsert, h0] using h
      · simp only [List.map_cons, List.mem_cons] at h
        rcases h with rfl | h
        · simp [sinsert, h0]
        · simp only [sinsert, h0, Bool.false_eq_true, if_false, List.map_cons,
            List.mem_cons]
          exact Or.inr (ih h)

theorem typemap_foldl_covers (ps : List (Desc × Desc)) :
    ∀ (acc : List (String × Desc)) (s : String),
      ((Desc.str s) ∈ ps.map Prod.fst ∨ s ∈ acc.map Prod.fst) →
      s ∈ (ps.foldl (fun acc kv =>
        match kv.1 with
        | .str s1 => sinsert acc s1 kv.2
        | _ => acc) acc).map Prod.fst := by
  induction ps with
  | nil =>
      intro acc s h
      simpa using h.resolve_left (by simp)
  | cons kv rest ih =>
      intro acc s h
      obtain ⟨kk, iv⟩ := kv
      simp only [List.foldl_cons]
      rcases h with hin | hacc
      · simp only [List.map_cons, List.mem_cons] at hin
        rcases hin with heq | hin
        · have : kk = .str s := heq.symm
          subst this
          exact ih _ s (Or.inr (mem_keys_sinsert_self _ _ _))
        · cases kk <;> exact ih _ s (Or.inl hin)
      · cases hkk : kk with
        | str s1 => exact ih _ s (Or.inr (mem_keys_sinsert_mono _ _ _ _ hacc))
        | int n => exact ih _ s (Or.inr hacc)
        | bool b => exact ih _ s (Or.inr hacc)
        | float r => exact ih _ s (Or.inr hacc)
        | arg a => exact ih _ s (Or.inr hacc)
        | tup xs => exact ih _ s (Or.inr hacc)

end XdressTS

namespace XdressTS

theorem pyElemsTail_length (d : Desc) (m : Nat) (l : List Desc)
    (hm : pyLen d = .ok m) (hl : pyElemsTail d = .ok l) :
    l.length = m - 1 := by
  cases d with
  | str s =>
      simp only [pyLen] at hm
      simp only [pyElemsTail] at hl
      cases hm; cases hl
      simp only [List.length_map, List.length_drop, String.length]
  | tup xs =>
      simp only [pyLen] at hm
      simp only [pyElemsTail] at hl
      cases hm; cases hl
      simp
  | int n => simp [pyLen] at hm
  | bool b => simp [pyLen] at hm
  | float r => simp [pyLen] at hm
  | arg k => simp [pyLen] at hm

theorem typemapOf_covers (deprest tirest : List Desc) (s : String)
    (hlen : deprest.length = tirest.length)
    (hmem : (Desc.str s) ∈ deprest) :
    s ∈ (typemapOf deprest tirest).map Prod.fst := by
  unfold typemapOf
  apply typemap_foldl_covers
  left
  rw [List.map_fst_zip deprest tirest (le_of_eq hlen)]
  exact hmem

/-- C8: when a templated dependent-refinement resolution succeeds, the
returned state holds none of the signature template-parameter names in
the type_aliases table, and the canon memo entries for those names are
gone: the closing loop of _resolve_dependent_type deletes every temporary
binding and its memoized canonicalization. -/
theorem resolve_dependent_clears_temp_bindings
    (B : RegS) (n : Nat) (st st1 : MSt) (tname ti r depkey depval : Desc)
    (hk : findDepKeyS B tname = .ok (depkey, depval))
    (ht : istemplDS B depkey = .ok true)
    (hr : resolveDepStM B (n + 1) st tname (some ti) = .ok (r, st1)) :
    ∀ s ∈ sigParams depkey,
      alookup st1.type_aliases s = none ∧
        dlookup st1.canonMemo (.str s) = none := by
  intro s hs
  simp only [resolveDepStM, hk, ht] at hr
  repeat' split at hr
  all_goals try exact (Except.noConfusion hr)
  all_goals try (exact absurd trivial (by assumption))
  rename_i xA xB tiLen dkLen hlenTi hlenDk hne xC xD deprest tirest htailDk
    htailTi htrue hguard xE ra stA hcanon xF bs stB hlist xG cs stC htri xH
    stD hdel
  cases hr
  have hmem : (Desc.str s) ∈ deprest := by
    simp only [sigParams, htailDk] at hs
    rcases List.mem_filterMap.mp hs with ⟨a, ha, hfa⟩
    cases a <;> simp at hfa
    subst hfa
    exact ha
  have hlen : deprest.length = tirest.length := by
    have h1 := pyElemsTail_length depkey dkLen deprest hlenDk htailDk
    have h2 := pyElemsTail_length ti tiLen tirest hlenTi htailTi
    have h3 : tiLen = dkLen := not_not.mp hne
    omega
  have hkeys : s ∈ (typemapOf deprest tirest).map Prod.fst :=
    typemapOf_covers _ _ s hlen hmem
  exact delTemp_removes _ _ _ hdel s (by simpa using hkeys)

end XdressTS

namespace XdressTS

/-- C8 witness: resolving range over int32 with bounds 1 and 2 against the
Bdep registry leaves a final state whose alias table and canon memo hold
nothing for the signature parameter vtype. -/
theorem resolve_dependent_clears_temp_bindings_witness :
    alookup (MSt.mk [] [(.str "int32", .str "int32")]).type_aliases "vtype" =
        none ∧
      dlookup (MSt.mk [] [(.str "int32", .str "int32")]).canonMemo
        (.str "vtype") = none :=
  resolve_dependent_clears_temp_bindings Bdep 29 ⟨[], []⟩
    ⟨[], [(.str "int32", .str "int32")]⟩ (.str "range")
    (.tup [.str "range", .str "int32", .int 1, .int 2])
    (.tup [.str "int32", .tup [.str "range", .str "int32",
      .tup [.str "low", .str "int32", .int 1],
      .tup [.str "high", .str "int32", .int 2]]])
    rangeKey (.str "vtype") rfl rfl rfl "vtype" (by decide)

end XdressTS

namespace XdressTS

theorem canonF_succ_str (R : Reg) (n : Nat) (s : String) :
    canonF R (n + 1) (.str s) =
      (if R.base_types.contains (.str s) then .ok (.str s)
       else
         match alookup R.type_aliases s with
         | some v => canonF R n v
         | none =>
           match dlookup R.refined_types (.str s) with
           | some parent =>
               match canonF R n parent with
               | .ok p => .ok (.tup [p, .str s])
               | .error e => .error e
           | none =>
               if isdepName R s then resolveDepF R n (.str s) none
               else .error .typeError) := rfl

theorem canonF_succ_nil (R : Reg) (n : Nat) :
    canonF R (n + 1) (.tup []) = .error .indexError := rfl

theorem canonF_succ_cons (R : Reg) (n : Nat) (t0 : Desc) (rest : List Desc) :
    canonF R (n + 1) (.tup (t0 :: rest)) =
      (match t0 with
       | .str s0 =>
           if isdepName R s0 then resolveDepF R n t0 (some (.tup (t0 :: rest)))
           else
             match dlookup R.template_types (.str s0) with
             | some params =>
                 match canonSlots R n (((t0 :: rest).drop 1).take params.length) with
                 | .ok slots =>
                     .ok (.tup (t0 :: (slots ++
                       [if (t0 :: rest).length == 1 + params.length then Desc.int 0
                        else (t0 :: rest).getLastD (.int 0)])))
                 | .error e => .error e
             | none =>
                 match canonF R n t0 with
                 | .ok c =>
                     .ok (.tup [c,
                       if (t0 :: rest).length == 1 then Desc.int 0
                       else (t0 :: rest).getLastD (.int 0)])
                 | .error e => .error e
       | .tup _ =>
           match isdepD R t0 with
           | .error e => .error e
           | .ok dep =>
             if dep then resolveDepF R n t0 (some (.tup (t0 :: rest)))
             else
               match canonF R n t0 with
               | .ok c =>
                   .ok (.tup [c,
                     if (t0 :: rest).length == 1 then Desc.int 0
                     else (t0 :: rest).getLastD (.int 0)])
               | .error e => .error e
       | _ => .error .typeError) := rfl

theorem canonSlots_succ_nil (R : Reg) (n : Nat) :
    canonSlots R (n + 1) [] = .ok [] := rfl

theorem canonSlots_succ_cons (R : Reg) (n : Nat) (tt : Desc) (more : List Desc) :
    canonSlots R (n + 1) (tt :: more) =
      (match (match tt with
              | .int _ | .bool _ | .float _ => Except.ok tt
              | .str _ =>
                  match canonF R n tt with
                  | .ok c => .ok c
                  | .error .typeError => .ok tt
                  | .error e => .error e
              | .tup ys =>
                  match ys with
                  | [y0, y1] => if inArgEnum y0 then canonF R n y1 else canonF R n tt
                  | _ => canonF R n tt
              | _ => Except.error Err.typeError) with
       | .error e => .error e
       | .ok c =>
           match canonSlots R n more with
           | .ok cs => .ok (c :: cs)
           | .error e => .error e) := rfl

theorem canonList_succ_nil (R : Reg) (n : Nat) :
    canonList R (n + 1) [] = .ok [] := rfl

theorem canonList_succ_cons (R : Reg) (n : Nat) (d : Desc) (ds : List Desc) :
    canonList R (n + 1) (d :: ds) =
      (match canonF R n d with
       | .error e => .error e
       | .ok c =>
           match canonList R n ds with
           | .ok cs => .ok (c :: cs)
           | .error e => .error e) := rfl

theorem depTriples_succ_nil (R : Reg) (n : Nat) :
    depTriples R (n + 1) [] = .ok [] := rfl

theorem depTriples_succ_cons (R : Reg) (n : Nat) (k instval : Desc)
    (more : List (Desc × Desc)) :
    depTriples R (n + 1) ((k, instval) :: more) =
      (match pyIndex0 k with
       | .error e => .error e
       | .ok k0 =>
           match pyIndex1 k with
           | .error e => .error e
           | .ok k1 =>
               match canonF R n k1 with
               | .error e => .error e
               | .ok ck1 =>
                   match depTriples R n more with
                   | .ok ts => .ok (.tup [k0, ck1, instval] :: ts)
                   | .error e => .error e) := rfl

theorem depTriplesU_succ_nil (R : Reg) (n : Nat) :
    depTriplesU R (n + 1) [] = .ok [] := rfl

theorem depTriplesU_succ_cons (R : Reg) (n : Nat) (k instval : Desc)
    (more : List (Desc × Desc)) :
    depTriplesU R (n + 1) ((k, instval) :: more) =
      (match pyUnpack2 k with
       | .error e => .error e
       | .ok (kname, ktype) =>
           match canonF R n ktype with
           | .error e => .error e
           | .ok ck =>
               match depTriplesU R n more with
               | .ok ts => .ok (.tup [kname, ck, instval] :: ts)
               | .error e => .error e) := rfl

theorem resolveDepF_succ (R : Reg) (n : Nat) (tname : Desc) (tinst : Option Desc) :
    resolveDepF R (n + 1) tname tinst =
      (match findDepKey R tname with
       | .error e => .error e
       | .ok (depkey, depval) =>
         match istemplD R depkey with
         | .error e => .error e
         | .ok istemplated =>
           match tinst with
           | none => .ok depkey
           | some ti =>
             match pyLen ti, pyLen depkey with
             | .error e, _ => .error e
             | .ok _, .error e => .error e
             | .ok tiLen, .ok dkLen =>
               if tiLen ≠ dkLen then .error .assertionError
               else
                 match pyElemsTail depkey, pyElemsTail ti with
                 | .error e, _ => .error e
                 | .ok _, .error e => .error e
                 | .ok deprest, .ok tirest =>
                   if istemplated then
                     if ((deprest.zip tirest).filterMap (fun kv =>
                           match kv.1 with
                           | .str s => some (s, kv.2)
                           | _ => none)).any
                         (fun kv => (alookup R.type_aliases kv.1).isSome) then
                       .error .typeError
                     else
                       match canonF
                           { R with type_aliases := R.type_aliases ++
                               ((deprest.zip tirest).filterMap (fun kv =>
                                 match kv.1 with
                                 | .str s => some (s, kv.2)
                                 | _ => none)) }
                           n depval with
                       | .error e => .error e
                       | .ok a =>
                         match canonList
                             { R with type_aliases := R.type_aliases ++
                                 ((deprest.zip tirest).filterMap (fun kv =>
                                   match kv.1 with
                                   | .str s => some (s, kv.2)
                                   | _ => none)) }
                             n
                             (deprest.filterMap (fun k =>
                               match k with
                               | .str s =>
                                   if (((deprest.zip tirest).filterMap (fun kv =>
                                         match kv.1 with
                                         | .str s2 => some (s2, kv.2)
                                         | _ => none)).any (fun kv => kv.1 == s)) then
                                     some (.str s)
                                   else none
                               | _ => none)) with
                         | .error e => .error e
                         | .ok bs =>
                           match depTriples
                               { R with type_aliases := R.type_aliases ++
                                   ((deprest.zip tirest).filterMap (fun kv =>
                                     match kv.1 with
                                     | .str s => some (s, kv.2)
                                     | _ => none)) }
                               n
                               ((deprest.zip tirest).filter (fun kv =>
                                 match kv.1 with
                                 | .str s => !(((deprest.zip tirest).filterMap (fun kv2 =>
                                     match kv2.1 with
                                     | .str s2 => some (s2, kv2.2)
                                     | _ => none)).any (fun kv2 => kv2.1 == s))
                                 | _ => true)) with
                           | .error e => .error e
                           | .ok cs => .ok (.tup [a, .tup (tname :: (bs ++ cs))])
                   else
                     match canonF R n depval with
                     | .error e => .error e
                     | .ok a =>
                       match depTriplesU R n (deprest.zip tirest) with
                       | .error e => .error e
                       | .ok cs => .ok (.tup [a, .tup (tname :: cs)])) := rfl

theorem stripPredsF_succ (R : Reg) (n : Nat) (t : Desc) :
    stripPredsF R (n + 1) t =
      (match canonF R n t with
       | .error e => .error e
       | .ok c => stripCore R n c) := rfl

theorem stripCore_succ (R : Reg) (n : Nat) (c : Desc) :
    stripCore R (n + 1) c =
      (match c with
       | .str s => .ok (.str s)
       | .tup xs =>
           match xs with
           | [a, b] =>
               match stripPredsF R n a with
               | .error e => .error e
               | .ok sp0 =>
                   if pyEqZero b then .ok (.tup [sp0, .int 0]) else .ok sp0
           | _ => .ok (.tup (xs.dropLast ++ [.int 0]))
       | _ => .error .typeError) := rfl

end XdressTS


namespace XdressTS

theorem err_ne_fuel {α β : Type} {e : Err}
    (h : (Except.error e : Except Err α) ≠ .error .fuel) :
    (Except.error e : Except Err β) ≠ .error .fuel := by
  intro h2
  injection h2 with h3
  exact h (by rw [h3])

theorem canon_mono_step : ∀ n : Nat,
    (∀ (R : Reg) (t : Desc) (r : Except Err Desc),
        canonF R n t = r → r ≠ .error .fuel → canonF R (n + 1) t = r) ∧
    (∀ (R : Reg) (l : List Desc) (r : Except Err (List Desc)),
        canonSlots R n l = r → r ≠ .error .fuel → canonSlots R (n + 1) l = r) ∧
    (∀ (R : Reg) (l : List Desc) (r : Except Err (List Desc)),
        canonList R n l = r → r ≠ .error .fuel → canonList R (n + 1) l = r) ∧
    (∀ (R : Reg) (l : List (Desc × Desc)) (r : Except Err (List Desc)),
        depTriples R n l = r → r ≠ .error .fuel → depTriples R (n + 1) l = r) ∧
    (∀ (R : Reg) (l : List (Desc × Desc)) (r : Except Err (List Desc)),
        depTriplesU R n l = r → r ≠ .error .fuel → depTriplesU R (n + 1) l = r) ∧
    (∀ (R : Reg) (t : Desc) (ti : Option Desc) (r : Except Err Desc),
        resolveDepF R n t ti = r → r ≠ .error .fuel → resolveDepF R (n + 1) t ti = r) := by
  intro n
  induction n with
  | zero =>
      refine ⟨?_, ?_, ?_, ?_, ?_, ?_⟩
      · intro R t r h hne; exact absurd (h.symm.trans rfl) hne
      · intro R l r h hne; exact absurd (h.symm.trans rfl) hne
      · intro R l r h hne; exact absurd (h.symm.trans rfl) hne
      · intro R l r h hne; exact absurd (h.symm.trans rfl) hne
      · intro R l r h hne; exact absurd (h.symm.trans rfl) hne
      · intro R t ti r h hne; exact absurd (h.symm.trans rfl) hne
  | succ n ih =>
      obtain ⟨ihC, ihS, ihL, ihT, ihU, ihR⟩ := ih
      refine ⟨?_, ?_, ?_, ?_, ?_, ?_⟩
      · -- canonF
        intro R t r h hne
        cases t with
        | str s =>
            rw [canonF_succ_str] at h ⊢
            by_cases hb : R.base_types.contains (Desc.str s) = true
            · simp only [hb, if_true] at h ⊢; exact h
            · simp only [hb, Bool.false_eq_true, if_false] at h ⊢
              cases ha : alookup R.type_aliases s with
              | some v =>
                  simp only [ha] at h ⊢
                  exact ihC R v r h hne
              | none =>
                  simp only [ha] at h ⊢
                  cases hrf : dlookup R.refined_types (Desc.str s) with
                  | some parent =>
                      simp only [hrf] at h ⊢
                      cases hp : canonF R n parent with
                      | error e =>
                          simp only [hp] at h
                          subst h
                          rw [ihC R parent (Except.error e) hp (err_ne_fuel hne)]
                      | ok p =>
                          simp only [hp] at h
                          rw [ihC R parent (Except.ok p) hp (by simp)]
                          exact h
                  | none =>
                      simp only [hrf] at h ⊢
                      by_cases hd : isdepName R s = true
                      · simp only [hd, if_true] at h ⊢
                        exact ihR R (.str s) none r h hne
                      · simp only [hd, Bool.false_eq_true, if_false] at h ⊢
                        exact h
        | tup xs =>
            cases xs with
            | nil => rw [canonF_succ_nil] at h ⊢; exact h
            | cons t0 rest =>
                rw [canonF_succ_cons] at h ⊢
                cases t0 with
                | str s0 =>
                    by_cases hd : isdepName R s0 = true
                    · simp only [hd, if_true] at h ⊢
                      exact ihR R (.str s0) (some (.tup (Desc.str s0 :: rest))) r h hne
                    · simp only [hd, Bool.false_eq_true, if_false] at h ⊢
                      cases htm : dlookup R.template_types (Desc.str s0) with
                      | some params =>
                          simp only [htm] at h ⊢
                          cases hsl : canonSlots R n (((Desc.str s0 :: rest).drop 1).take params.length) with
                          | error e =>
                              simp only [hsl] at h
                              subst h
                              rw [ihS R _ (Except.error e) hsl (err_ne_fuel hne)]
                          | ok slots =>
                              simp only [hsl] at h
                              rw [ihS R _ (Except.ok slots) hsl (by simp)]
                              exact h
                      | none =>
                          simp only [htm] at h ⊢
                          cases hp : canonF R n (Desc.str s0) with
                          | error e =>
                              simp only [hp] at h
                              subst h
                              rw [ihC R _ (Except.error e) hp (err_ne_fuel hne)]
                          | ok p =>
                              simp only [hp] at h
                              rw [ihC R _ (Except.ok p) hp (by simp)]
                              exact h
                | tup ys =>
                    cases hdd : isdepD R (Desc.tup ys) with
                    | error e =>
                        simp only [hdd] at h ⊢
                        exact h
                    | ok dep =>
                        simp only [hdd] at h ⊢
                        cases dep with
                        | true =>
                            simp only [if_true] at h ⊢
                            exact ihR R _ _ r h hne
                        | false =>
                            simp only [Bool.false_eq_true, if_false] at h ⊢
                            cases hp : canonF R n (Desc.tup ys) with
                            | error e =>
                                simp only [hp] at h
                                subst h
                                rw [ihC R _ (Except.error e) hp (err_ne_fuel hne)]
                            | ok p =>
                                simp only [hp] at h
                                rw [ihC R _ (Except.ok p) hp (by simp)]
                                exact h
                | int m => exact h
                | bool b => exact h
                | float f => exact h
                | arg a => exact h
        | int m => exact h
        | bool b => exact h
        | float f => exact h
        | arg a => exact h
      · -- canonSlots
        intro R l r h hne
        cases l with
        | nil => rw [canonSlots_succ_nil] at h ⊢; exact h
        | cons tt more =>
            rw [canonSlots_succ_cons] at h ⊢
            cases tt with
            | int m =>
                cases hrest : canonSlots R n more with
                | error e2 =>
                    simp only [hrest] at h
                    subst h
                    rw [ihS R more _ hrest (err_ne_fuel hne)]
                | ok cs =>
                    simp only [hrest] at h
                    rw [ihS R more _ hrest (by simp)]
                    exact h
            | bool b =>
                cases hrest : canonSlots R n more with
                | error e2 =>
                    simp only [hrest] at h
                    subst h
                    rw [ihS R more _ hrest (err_ne_fuel hne)]
                | ok cs =>
                    simp only [hrest] at h
                    rw [ihS R more _ hrest (by simp)]
                    exact h
            | float f =>
                cases hrest : canonSlots R n more with
                | error e2 =>
                    simp only [hrest] at h
                    subst h
                    rw [ihS R more _ hrest (err_ne_fuel hne)]
                | ok cs =>
                    simp only [hrest] at h
                    rw [ihS R more _ hrest (by simp)]
                    exact h
            | arg a => exact h
            | str s1 =>
                cases hc : canonF R n (Desc.str s1) with
                | ok c =>
                    rw [ihC R (Desc.str s1) _ hc (by simp)]
                    simp only [hc] at h
                    cases hrest : canonSlots R n more with
                    | error e2 =>
                        simp only [hrest] at h
                        subst h
                        rw [ihS R more _ hrest (err_ne_fuel hne)]
                    | ok cs =>
                        simp only [hrest] at h
                        rw [ihS R more _ hrest (by simp)]
                        exact h
                | error e =>
                    cases e with
                    | typeError =>
                        rw [ihC R (Desc.str s1) _ hc (by decide)]
                        simp only [hc] at h
                        cases hrest : canonSlots R n more with
                        | error e2 =>
                            simp only [hrest] at h
                            subst h
                            rw [ihS R more _ hrest (err_ne_fuel hne)]
                        | ok cs =>
                            simp only [hrest] at h
                            rw [ihS R more _ hrest (by simp)]
                            exact h
                    | fuel =>
                        simp only [hc] at h
                        subst h
                        exact absurd rfl hne
                    | indexError =>
                        simp only [hc] at h
                        subst h
                        rw [ihC R (Desc.str s1) _ hc (by decide)]
                    | keyError =>
                        simp only [hc] at h
                        subst h
                        rw [ihC R (Desc.str s1) _ hc (by decide)]
                    | valueError =>
                        simp only [hc] at h
                        subst h
                        rw [ihC R (Desc.str s1) _ hc (by decide)]
                    | assertionError =>
                        simp only [hc] at h
                        subst h
                        rw [ihC R (Desc.str s1) _ hc (by decide)]
                    | notImplementedError =>
                        simp only [hc] at h
                        subst h
                        rw [ihC R (Desc.str s1) _ hc (by decide)]
            | tup ys =>
                have step : ∀ w : Desc,
                    (match (canonF R n w : Except Err Desc) with
                     | .error e => Except.error e
                     | .ok c =>
                         match canonSlots R n more with
                         | .ok cs => Except.ok (c :: cs)
                         | .error e => .error e) = r →
                    (match (canonF R (n+1) w : Except Err Desc) with
                     | .error e => Except.error e
                     | .ok c =>
                         match canonSlots R (n+1) more with
                         | .ok cs => Except.ok (c :: cs)
                         | .error e => .error e) = r := by
                  intro w hw
                  cases hc : canonF R n w with
                  | error e =>
                      simp only [hc] at hw
                      subst hw
                      rw [ihC R w _ hc (err_ne_fuel hne)]
                  | ok c =>
                      rw [ihC R w _ hc (by simp)]
                      simp only [hc] at hw
                      cases hrest : canonSlots R n more with
                      | error e2 =>
                          simp only [hrest] at hw
                          subst hw
                          rw [ihS R more _ hrest (err_ne_fuel hne)]
                      | ok cs =>
                          simp only [hrest] at hw
                          rw [ihS R more _ hrest (by simp)]
                          exact hw
                cases ys with
                | nil => exact step (Desc.tup []) h
                | cons y0 ys1 =>
                    cases ys1 with
                    | nil => exact step (Desc.tup [y0]) h
                    | cons y1 ys2 =>
                        cases ys2 with
                        | nil =>
                            by_cases ha0 : inArgEnum y0 = true
                            · simp only [ha0, if_true] at h ⊢
                              exact step y1 h
                            · simp only [ha0, Bool.false_eq_true, if_false] at h ⊢
                              exact step (Desc.tup [y0, y1]) h
                        | cons y2 ys3 => exact step (Desc.tup (y0 :: y1 :: y2 :: ys3)) h
      · -- canonList
        intro R l r h hne
        cases l with
        | nil => rw [canonList_succ_nil] at h ⊢; exact h
        | cons d ds =>
            rw [canonList_succ_cons] at h ⊢
            cases hc : canonF R n d with
            | error e =>
                simp only [hc] at h
                subst h
                rw [ihC R d _ hc (err_ne_fuel hne)]
            | ok c =>
                rw [ihC R d _ hc (by simp)]
                simp only [hc] at h
                cases hrest : canonList R n ds with
                | error e2 =>
                    simp only [hrest] at h
                    subst h
                    rw [ihL R ds _ hrest (err_ne_fuel hne)]
                | ok cs =>
                    simp only [hrest] at h
                    rw [ihL R ds _ hrest (by simp)]
                    exact h
      · -- depTriples
        intro R l r h hne
        cases l with
        | nil => rw [depTriples_succ_nil] at h ⊢; exact h
        | cons kv more =>
            obtain ⟨k, instval⟩ := kv
            rw [depTriples_succ_cons] at h ⊢
            cases hk0 : pyIndex0 k with
            | error e => simp only [hk0] at h ⊢; exact h
            | ok k0 =>
                simp only [hk0] at h ⊢
                cases hk1 : pyIndex1 k with
                | error e => simp only [hk1] at h ⊢; exact h
                | ok k1 =>
                    simp only [hk1] at h ⊢
                    cases hc : canonF R n k1 with
                    | error e =>
                        simp only [hc] at h
                        subst h
                        rw [ihC R k1 _ hc (err_ne_fuel hne)]
                    | ok ck1 =>
                        rw [ihC R k1 _ hc (by simp)]
                        simp only [hc] at h
                        cases hrest : depTriples R n more with
                        | error e2 =>
                            simp only [hrest] at h
                            subst h
                            rw [ihT R more _ hrest (err_ne_fuel hne)]
                        | ok ts2 =>
                            simp only [hrest] at h
                            rw [ihT R more _ hrest (by simp)]
                            exact h
      · -- depTriplesU
        intro R l r h hne
        cases l with
        | nil => rw [depTriplesU_succ_nil] at h ⊢; exact h
        | cons kv more =>
            obtain ⟨k, instval⟩ := kv
            rw [depTriplesU_succ_cons] at h ⊢
            cases hu : pyUnpack2 k with
            | error e => simp only [hu] at h ⊢; exact h
            | ok p =>
                obtain ⟨kname, ktype⟩ := p
                simp only [hu] at h ⊢
                cases hc : canonF R n ktype with
                | error e =>
                    simp only [hc] at h
                    subst h
                    rw [ihC R ktype _ hc (err_ne_fuel hne)]
                | ok ck =>
                    rw [ihC R ktype _ hc (by simp)]
                    simp only [hc] at h
                    cases hrest : depTriplesU R n more with
                    | error e2 =>
                        simp only [hrest] at h
                        subst h
                        rw [ihU R more _ hrest (err_ne_fuel hne)]
                    | ok ts2 =>
                        simp only [hrest] at h
                        rw [ihU R more _ hrest (by simp)]
                        exact h
      · -- resolveDepF
        intro R tname ti r h hne
        rw [resolveDepF_succ] at h ⊢
        cases hf : findDepKey R tname with
        | error e => simp only [hf] at h ⊢; exact h
        | ok dk =>
            obtain ⟨depkey, depval⟩ := dk
            simp only [hf] at h ⊢
            cases hit : istemplD R depkey with
            | error e => simp only [hit] at h ⊢; exact h
            | ok istemplated =>
                simp only [hit] at h ⊢
                cases ti with
                | none => exact h
                | some tiv =>
                    cases hl1 : pyLen tiv with
                    | error e => simp only [hl1] at h ⊢; exact h
                    | ok tiLen =>
                        simp only [hl1] at h ⊢
                        cases hl2 : pyLen depkey with
                        | error e => simp only [hl2] at h ⊢; exact h
                        | ok dkLen =>
                            simp only [hl2] at h ⊢
                            by_cases hlen : tiLen ≠ dkLen
                            · rw [if_pos hlen] at h ⊢; exact h
                            · rw [if_neg hlen] at h ⊢
                              cases he1 : pyElemsTail depkey with
                              | error e => simp only [he1] at h ⊢; exact h
                              | ok deprest =>
                                  simp only [he1] at h ⊢
                                  cases he2 : pyElemsTail tiv with
                                  | error e => simp only [he2] at h ⊢; exact h
                                  | ok tirest =>
                                      simp only [he2] at h ⊢
                                      cases istemplated with
                                      | false =>
                                          rw [if_neg (by simp)] at h ⊢
                                          cases hc : canonF R n depval with
                                          | error e =>
                                              simp only [hc] at h
                                              subst h
                                              rw [ihC R depval _ hc (err_ne_fuel hne)]
                                          | ok a =>
                                              rw [ihC R depval _ hc (by simp)]
                                              simp only [hc] at h
                                              cases hu : depTriplesU R n (deprest.zip tirest) with
                                              | error e =>
                                                  simp only [hu] at h
                                                  subst h
                                                  rw [ihU R _ _ hu (err_ne_fuel hne)]
                                              | ok cs =>
                                                  simp only [hu] at h
                                                  rw [ihU R _ _ hu (by simp)]
                                                  exact h
                                      | true =>
                                          rw [if_pos rfl] at h ⊢
                                          split at h
                                          · rename_i hany
                                            rw [if_pos hany]
                                            exact h
                                          · rename_i hany
                                            rw [if_neg hany]
                                            split at h
                                            · rename_i e hc
                                              subst h
                                              rw [ihC _ depval _ hc (err_ne_fuel hne)]
                                            · rename_i a hc
                                              rw [ihC _ depval _ hc (by simp)]
                                              split at h
                                              · rename_i e hcl
                                                subst h
                                                rw [ihL _ _ _ hcl (err_ne_fuel hne)]
                                              · rename_i bs hcl
                                                rw [ihL _ _ _ hcl (by simp)]
                                                split at h
                                                · rename_i e hdt
                                                  subst h
                                                  rw [ihT _ _ _ hdt (err_ne_fuel hne)]
                                                · rename_i cs hdt
                                                  rw [ihT _ _ _ hdt (by simp)]
                                                  exact h

end XdressTS


namespace XdressTS

/-- Fuel monotonicity for canonF: a fuel-insensitive result is stable under
any fuel increase. -/
theorem canonF_mono_le {R : Reg} {t : Desc} {r : Except Err Desc} {n m : Nat}
    (hnm : n ≤ m) (h : canonF R n t = r) (hne : r ≠ .error .fuel) :
    canonF R m t = r := by
  induction hnm with
  | refl => exact h
  | step _ ih => exact (canon_mono_step _).1 R t r ih hne

theorem canonSlots_mono_le {R : Reg} {l : List Desc} {r : Except Err (List Desc)} {n m : Nat}
    (hnm : n ≤ m) (h : canonSlots R n l = r) (hne : r ≠ .error .fuel) :
    canonSlots R m l = r := by
  induction hnm with
  | refl => exact h
  | step _ ih => exact (canon_mono_step _).2.1 R l r ih hne

/-- Determinism of successful canonicalization across fuels. -/
theorem canonF_det {R : Reg} {t c c' : Desc} {n m : Nat}
    (h1 : canonF R n t = .ok c) (h2 : canonF R m t = .ok c') : c = c' := by
  have H1 : canonF R (max n m) t = .ok c := canonF_mono_le (Nat.le_max_left n m) h1 (by simp)
  have H2 : canonF R (max n m) t = .ok c' := canonF_mono_le (Nat.le_max_right n m) h2 (by simp)
  rw [H1] at H2
  injection H2

/-- A successful canonicalization excludes any error at another fuel. -/
theorem canonF_ok_not_err {R : Reg} {t c : Desc} {e : Err} {n m : Nat}
    (h1 : canonF R n t = .ok c) (h2 : canonF R m t = .error e) : e = .fuel := by
  by_contra hne
  have H1 : canonF R (max n m) t = .ok c := canonF_mono_le (Nat.le_max_left n m) h1 (by simp)
  have H2 : canonF R (max n m) t = .error e :=
    canonF_mono_le (Nat.le_max_right n m) h2 (by intro hx; injection hx with hy; exact hne hy)
  rw [H1] at H2
  exact Except.noConfusion H2

end XdressTS

namespace XdressTS


theorem canonSlots_slot_cons (R : Reg) (n : Nat) (tt : Desc) (more : List Desc) :
    canonSlots R (n + 1) (tt :: more) =
      (match slotExprF R n tt with
       | .error e => .error e
       | .ok c =>
           match canonSlots R n more with
           | .ok cs => .ok (c :: cs)
           | .error e => .error e) := rfl

theorem slotExprF_pair (R : Reg) (n : Nat) (y0 y1 : Desc) :
    slotExprF R n (.tup [y0, y1]) =
      (if inArgEnum y0 then canonF R n y1 else canonF R n (.tup [y0, y1])) := rfl

theorem slotExprF_long (R : Reg) (n : Nat) (y0 y1 z : Desc) (zs : List Desc) :
    slotExprF R n (.tup (y0 :: y1 :: z :: zs)) =
      canonF R n (.tup (y0 :: y1 :: z :: zs)) := rfl

theorem slotExprF_mono_le {R : Reg} {d : Desc} {r : Except Err Desc} {n m : Nat}
    (hnm : n ≤ m) (h : slotExprF R n d = r) (hne : r ≠ .error .fuel) :
    slotExprF R m d = r := by
  cases d with
  | int k => exact h ▸ rfl
  | bool b => exact h ▸ rfl
  | float f => exact h ▸ rfl
  | arg a => exact h ▸ rfl
  | str s =>
      simp only [slotExprF] at h ⊢
      cases hc : canonF R n (.str s) with
      | ok c =>
          rw [canonF_mono_le hnm hc (by simp)]
          simp only [hc] at h
          exact h
      | error e =>
          cases e with
          | typeError =>
              rw [canonF_mono_le hnm hc (by decide)]
              simp only [hc] at h
              exact h
          | fuel =>
              simp only [hc] at h
              subst h
              exact absurd rfl hne
          | indexError =>
              rw [canonF_mono_le hnm hc (by decide)]
              simp only [hc] at h
              exact h
          | keyError =>
              rw [canonF_mono_le hnm hc (by decide)]
              simp only [hc] at h
              exact h
          | valueError =>
              rw [canonF_mono_le hnm hc (by decide)]
              simp only [hc] at h
              exact h
          | assertionError =>
              rw [canonF_mono_le hnm hc (by decide)]
              simp only [hc] at h
              exact h
          | notImplementedError =>
              rw [canonF_mono_le hnm hc (by decide)]
              simp only [hc] at h
              exact h
  | tup ys =>
      cases ys with
      | nil =>
          simp only [slotExprF] at h ⊢
          exact canonF_mono_le hnm h hne
      | cons y0 ys1 =>
          cases ys1 with
          | nil =>
              simp only [slotExprF] at h ⊢
              exact canonF_mono_le hnm h hne
          | cons y1 ys2 =>
              cases ys2 with
              | nil =>
                  rw [slotExprF_pair] at h ⊢
                  by_cases ha0 : inArgEnum y0 = true
                  · simp only [ha0, if_true] at h ⊢
                    exact canonF_mono_le hnm h hne
                  · simp only [ha0, Bool.false_eq_true, if_false] at h ⊢
                    exact canonF_mono_le hnm h hne
              | cons y2 ys3 =>
                  rw [slotExprF_long] at h ⊢
                  exact canonF_mono_le hnm h hne

end XdressTS


namespace XdressTS

theorem isdepName_Rc_eq (s : String) : isdepName Rc s = (s == "intrange") := by
  cases hb : s == "intrange" with
  | true =>
      have : s = "intrange" := by simpa using hb
      subst this
      decide
  | false =>
      have hne : ¬ s = "intrange" := by simpa using hb
      simp [isdepName, depNames, Rc, List.contains, intrangeKey, hne]

theorem dlookup_templ_none {h : String} (hn : templArityRc h = none) :
    dlookup Rc.template_types (.str h) = none := by
  by_cases h1 : h = "map"
  · subst h1; simp [templArityRc] at hn
  · by_cases h2 : h = "set"
    · subst h2; simp [templArityRc] at hn
    · by_cases h3 : h = "vector"
      · subst h3; simp [templArityRc] at hn
      · simp [dlookup, Rc, beq_iff_eq, Ne.symm h1, Ne.symm h2, Ne.symm h3]

theorem dlookup_templ_some {h : String} {a : Nat} (hs : templArityRc h = some a) :
    ∃ params, dlookup Rc.template_types (.str h) = some params ∧ params.length = a := by
  by_cases h1 : h = "map"
  · subst h1
    simp [templArityRc] at hs
    exact ⟨["key_type", "value_type"], by simp [dlookup, Rc], by simp [hs.symm]⟩
  · by_cases h2 : h = "set"
    · subst h2
      simp [templArityRc, h1] at hs
      exact ⟨["value_type"], by simp [dlookup, Rc], by simp [hs.symm]⟩
    · by_cases h3 : h = "vector"
      · subst h3
        simp [templArityRc, h1, h2] at hs
        exact ⟨["value_type"], by simp [dlookup, Rc], by simp [hs.symm]⟩
      · simp [templArityRc, h1, h2, h3] at hs

theorem templArity_pos {h : String} {a : Nat} (hs : templArityRc h = some a) :
    1 ≤ a := by
  by_cases h1 : h = "map"
  · subst h1; simp [templArityRc] at hs; omega
  · by_cases h2 : h = "set"
    · subst h2; simp [templArityRc, h1] at hs; omega
    · by_cases h3 : h = "vector"
      · subst h3; simp [templArityRc, h1, h2] at hs; omega
      · simp [templArityRc, h1, h2, h3] at hs

theorem templArity_not_intrange {h : String} {a : Nat} (hs : templArityRc h = some a) :
    (h == "intrange") = false := by
  by_cases h1 : h = "map"
  · subst h1; decide
  · by_cases h2 : h = "set"
    · subst h2; decide
    · by_cases h3 : h = "vector"
      · subst h3; decide
      · simp [templArityRc, h1, h2, h3] at hs

end XdressTS
namespace XdressTS

theorem str_beq_str (a b : String) : ((Desc.str a : Desc) == Desc.str b) = (a == b) := rfl

theorem tup_beq_str (xs : List Desc) (b : String) :
    ((Desc.tup xs : Desc) == Desc.str b) = false := rfl

theorem wf_isdepD : ∀ n x, wfF n x = true → isdepD Rc x = .ok (depHeadRc x) := by
  intro n
  induction n using Nat.strong_induction_on with
  | _ n ih =>
      intro x hw
      match n, x with
      | 0, x => simp [wfF] at hw
      | Nat.succ n, .int m => simp [wfF] at hw
      | Nat.succ n, .bool b => simp [wfF] at hw
      | Nat.succ n, .float f => simp [wfF] at hw
      | Nat.succ n, .arg a => simp [wfF] at hw
      | Nat.succ n, .str s => simp [isdepD, depHeadRc, isdepName_Rc_eq]
      | Nat.succ n, .tup [] => simp [wfF] at hw
      | Nat.succ n, .tup (.str h :: rest) =>
          show isdepD Rc (.str h) = .ok (depHeadRc (.str h))
          simp [isdepD, depHeadRc, isdepName_Rc_eq]
      | Nat.succ n, .tup (.tup ys :: rest) =>
          simp only [wfF, Bool.and_eq_true] at hw
          obtain ⟨hhead, _⟩ := hw
          match n, hhead with
          | 0, hhead => simp [wfHeadF] at hhead
          | Nat.succ k, hhead =>
              simp only [wfHeadF, Bool.and_eq_true] at hhead
              have := ih k (by omega) (.tup ys) hhead.1.1
              show isdepD Rc (.tup ys) = .ok (depHeadRc (.tup ys))
              exact this
      | Nat.succ n, .tup (.int m :: rest) =>
          simp only [wfF, Bool.and_eq_true] at hw
          obtain ⟨hhead, _⟩ := hw
          match n, hhead with
          | 0, hhead => simp [wfHeadF] at hhead
          | Nat.succ k, hhead =>
              simp only [wfHeadF, Bool.and_eq_true] at hhead
              rcases k with _ | j
              · simp [wfF] at hhead
              · simp [wfF] at hhead
      | Nat.succ n, .tup (.bool b :: rest) =>
          simp only [wfF, Bool.and_eq_true] at hw
          obtain ⟨hhead, _⟩ := hw
          match n, hhead with
          | 0, hhead => simp [wfHeadF] at hhead
          | Nat.succ k, hhead =>
              simp only [wfHeadF, Bool.and_eq_true] at hhead
              rcases k with _ | j
              · simp [wfF] at hhead
              · simp [wfF] at hhead
      | Nat.succ n, .tup (.float f :: rest) =>
          simp only [wfF, Bool.and_eq_true] at hw
          obtain ⟨hhead, _⟩ := hw
          match n, hhead with
          | 0, hhead => simp [wfHeadF] at hhead
          | Nat.succ k, hhead =>
              simp only [wfHeadF, Bool.and_eq_true] at hhead
              rcases k with _ | j
              · simp [wfF] at hhead
              · simp [wfF] at hhead
      | Nat.succ n, .tup (.arg a :: rest) =>
          simp only [wfF, Bool.and_eq_true] at hw
          obtain ⟨hhead, _⟩ := hw
          match n, hhead with
          | 0, hhead => simp [wfHeadF] at hhead
          | Nat.succ k, hhead =>
              simp only [wfHeadF, Bool.and_eq_true] at hhead
              rcases k with _ | j
              · simp [wfF] at hhead
              · simp [wfF] at hhead

end XdressTS
namespace XdressTS

theorem canonF_fail_str {s : String} (hw : wfStrRc s = false)
    (hi : (s == "intrange") = false) (m : Nat) :
    canonF Rc (m + 1) (.str s) = .error .typeError := by
  simp only [wfStrRc, Bool.or_eq_false_iff, beq_eq_false_iff_ne, ne_eq] at hw
  obtain ⟨⟨⟨⟨⟨⟨⟨⟨⟨⟨⟨⟨h1, h2⟩, h3⟩, h4⟩, h5⟩, h6⟩, h7⟩, h8⟩, h9⟩, h10⟩, h11⟩, h12⟩, h13⟩ := hw
  have hb : Rc.base_types.contains (Desc.str s) = false := by
    simp [Rc, List.contains, List.elem, str_beq_str,
      beq_eq_false_iff_ne.mpr h1, beq_eq_false_iff_ne.mpr h2,
      beq_eq_false_iff_ne.mpr h3, beq_eq_false_iff_ne.mpr h4,
      beq_eq_false_iff_ne.mpr h5, beq_eq_false_iff_ne.mpr h6,
      beq_eq_false_iff_ne.mpr h7, beq_eq_false_iff_ne.mpr h8]
  have ha : alookup Rc.type_aliases s = none := by
    simp [Rc, alookup, beq_iff_eq, Ne.symm h9, Ne.symm h10, Ne.symm h11]
  have hr : dlookup Rc.refined_types (Desc.str s) = none := by
    simp [Rc, dlookup, str_beq_str, beq_iff_eq, Ne.symm h12, Ne.symm h13,
      (show (intrangeKey == Desc.str s) = false from rfl)]
  rw [canonF_succ_str]
  simp only [hb, ha, hr, isdepName_Rc_eq, hi, Bool.false_eq_true, if_false]

end XdressTS
namespace XdressTS

theorem canon_sound_str {s : String} {m : Nat} {c : Desc} (hw : wfStrRc s = true)
    (h : canonF Rc m (.str s) = .ok c) : Canon c := by
  simp only [wfStrRc, Bool.or_eq_true, beq_iff_eq, or_assoc] at hw
  rcases hw with rfl | rfl | rfl | rfl | rfl | rfl | rfl | rfl | rfl | rfl | rfl | rfl | rfl
  · rw [canonF_det h (show canonF Rc 5 (.str "int32") = .ok (.str "int32") by decide)]
    exact Canon.base _ (by decide)
  · rw [canonF_det h (show canonF Rc 5 (.str "int64") = .ok (.str "int64") by decide)]
    exact Canon.base _ (by decide)
  · rw [canonF_det h (show canonF Rc 5 (.str "float32") = .ok (.str "float32") by decide)]
    exact Canon.base _ (by decide)
  · rw [canonF_det h (show canonF Rc 5 (.str "float64") = .ok (.str "float64") by decide)]
    exact Canon.base _ (by decide)
  · rw [canonF_det h (show canonF Rc 5 (.str "char") = .ok (.str "char") by decide)]
    exact Canon.base _ (by decide)
  · rw [canonF_det h (show canonF Rc 5 (.str "str") = .ok (.str "str") by decide)]
    exact Canon.base _ (by decide)
  · rw [canonF_det h (show canonF Rc 5 (.str "bool") = .ok (.str "bool") by decide)]
    exact Canon.base _ (by decide)
  · rw [canonF_det h (show canonF Rc 5 (.str "void") = .ok (.str "void") by decide)]
    exact Canon.base _ (by decide)
  · rw [canonF_det h (show canonF Rc 5 (.str "int") = .ok (.str "int32") by decide)]
    exact Canon.base _ (by decide)
  · rw [canonF_det h (show canonF Rc 5 (.str "i4") = .ok (.str "int32") by decide)]
    exact Canon.base _ (by decide)
  · rw [canonF_det h (show canonF Rc 5 (.str "f8") = .ok (.str "float64") by decide)]
    exact Canon.base _ (by decide)
  · rw [canonF_det h
      (show canonF Rc 5 (.str "posint") = .ok (.tup [.str "int32", .str "posint"]) by decide)]
    exact Canon.pair _ _ (Canon.base _ (by decide))
  · rw [canonF_det h
      (show canonF Rc 5 (.str "nucid") = .ok (.tup [.str "int32", .str "nucid"]) by decide)]
    exact Canon.pair _ _ (Canon.base _ (by decide))

end XdressTS
namespace XdressTS

theorem canon_wfstr_total {s : String} (hw : wfStrRc s = true) :
    ∃ v, canonF Rc 5 (.str s) = .ok v := by
  simp only [wfStrRc, Bool.or_eq_true, beq_iff_eq, or_assoc] at hw
  rcases hw with rfl | rfl | rfl | rfl | rfl | rfl | rfl | rfl | rfl | rfl | rfl | rfl | rfl
  · exact ⟨.str "int32", by decide⟩
  · exact ⟨.str "int64", by decide⟩
  · exact ⟨.str "float32", by decide⟩
  · exact ⟨.str "float64", by decide⟩
  · exact ⟨.str "char", by decide⟩
  · exact ⟨.str "str", by decide⟩
  · exact ⟨.str "bool", by decide⟩
  · exact ⟨.str "void", by decide⟩
  · exact ⟨.str "int32", by decide⟩
  · exact ⟨.str "int32", by decide⟩
  · exact ⟨.str "float64", by decide⟩
  · exact ⟨.tup [.str "int32", .str "posint"], by decide⟩
  · exact ⟨.tup [.str "int32", .str "nucid"], by decide⟩

theorem wfSlots_take : ∀ (l : List Desc) (n a : Nat), wfSlotsF n a l = true →
    ∀ d ∈ l.take a, ∃ k, wfSlotF k d = true := by
  intro l
  induction l with
  | nil => intro n a _ d hd; simp at hd
  | cons x xs ih =>
      intro n a hw d hd
      cases n with
      | zero => simp [wfSlotsF] at hw
      | succ n =>
          cases a with
          | zero => simp at hd
          | succ a =>
              simp only [wfSlotsF, Bool.and_eq_true] at hw
              rcases (by simpa using hd : d = x ∨ d ∈ xs.take a) with rfl | hd2
              · exact ⟨n, hw.1⟩
              · exact ih n a hw.2 d hd2

theorem depTriplesU_intrange {m : Nat} {r0 r1 : Desc} {cs : List Desc}
    (h : depTriplesU Rc m
      [(.tup [.str "low", .str "int32"], r0), (.tup [.str "high", .str "int32"], r1)] = .ok cs) :
    cs = [.tup [.str "low", .str "int32", r0], .tup [.str "high", .str "int32", r1]] := by
  match m with
  | 0 => exact Except.noConfusion h
  | Nat.succ m =>
      rw [depTriplesU_succ_cons] at h
      simp only [show pyUnpack2 (Desc.tup [.str "low", .str "int32"]) =
        .ok (.str "low", .str "int32") from rfl] at h
      cases hc1 : canonF Rc m (.str "int32") with
      | error e => simp only [hc1] at h; exact Except.noConfusion h
      | ok a1 =>
          have ha1 : a1 = .str "int32" :=
            canonF_det hc1 (show canonF Rc 1 (.str "int32") = .ok (.str "int32") by decide)
          subst ha1
          simp only [hc1] at h
          match m, h with
          | 0, h => exact Except.noConfusion h
          | Nat.succ m, h =>
              rw [depTriplesU_succ_cons] at h
              simp only [show pyUnpack2 (Desc.tup [.str "high", .str "int32"]) =
                .ok (.str "high", .str "int32") from rfl] at h
              cases hc2 : canonF Rc m (.str "int32") with
              | error e => simp only [hc2] at h; exact Except.noConfusion h
              | ok a2 =>
                  have ha2 : a2 = .str "int32" :=
                    canonF_det hc2 (show canonF Rc 1 (.str "int32") = .ok (.str "int32") by decide)
                  subst ha2
                  simp only [hc2] at h
                  match m, h with
                  | 0, h => exact Except.noConfusion h
                  | Nat.succ m, h =>
                      rw [depTriplesU_succ_nil] at h
                      injection h with h2
                      exact h2.symm

end XdressTS
namespace XdressTS

theorem resolveDep_intrange_inv {m : Nat} {r0 r1 c : Desc}
    (h : resolveDepF Rc m (.str "intrange")
      (some (.tup [.str "intrange", r0, r1])) = .ok c) :
    c = .tup [.str "int32",
      .tup [.str "intrange", .tup [.str "low", .str "int32", r0],
            .tup [.str "high", .str "int32", r1]]] := by
  match m with
  | 0 => exact Except.noConfusion h
  | Nat.succ m =>
      rw [resolveDepF_succ] at h
      simp only [show findDepKey Rc (.str "intrange") = .ok (intrangeKey, .str "int32") by decide,
        show istemplD Rc intrangeKey = .ok false by decide,
        show pyLen (Desc.tup [.str "intrange", r0, r1]) = .ok 3 from rfl,
        show pyLen intrangeKey = .ok 3 by decide,
        show pyElemsTail intrangeKey =
          .ok [.tup [.str "low", .str "int32"], .tup [.str "high", .str "int32"]] by decide,
        show pyElemsTail (Desc.tup [.str "intrange", r0, r1]) = .ok [r0, r1] from rfl,
        Bool.false_eq_true, if_false] at h
      rw [if_neg (show ¬((3:Nat) ≠ 3) by omega)] at h
      simp only [List.zip_cons_cons, List.zip_nil_right] at h
      cases hca : canonF Rc m (.str "int32") with
      | error e => simp only [hca] at h; exact Except.noConfusion h
      | ok a =>
          have ha : a = .str "int32" :=
            canonF_det hca (show canonF Rc 1 (.str "int32") = .ok (.str "int32") by decide)
          subst ha
          simp only [hca] at h
          cases htr : depTriplesU Rc m
              [(.tup [.str "low", .str "int32"], r0), (.tup [.str "high", .str "int32"], r1)] with
          | error e => simp only [htr] at h; exact Except.noConfusion h
          | ok cs =>
              have hcs := depTriplesU_intrange htr
              subst hcs
              simp only [htr] at h
              injection h with h2
              exact h2.symm

end XdressTS
namespace XdressTS

theorem canon_sound_all : ∀ m : Nat,
    (∀ t c, (∃ k, wfF k t = true) → canonF Rc m t = .ok c → Canon c) ∧
    (∀ l cs, (∀ d ∈ l, ∃ k, wfSlotF k d = true) → canonSlots Rc m l = .ok cs →
        CanonSlots cs ∧ cs.length = l.length) ∧
    (∀ d c, (∃ k, wfSlotF k d = true) → slotExprF Rc m d = .ok c → CanonSlot c) := by
  intro m
  induction m with
  | zero =>
      refine ⟨?_, ?_, ?_⟩
      · intro t c _ h; exact Except.noConfusion h
      · intro l cs _ h; exact Except.noConfusion h
      · intro d c hwf h
        cases d with
        | int k => injection h with h1; subst h1; exact CanonSlot.num _ rfl
        | bool b => injection h with h1; subst h1; exact CanonSlot.num _ rfl
        | float f => injection h with h1; subst h1; exact CanonSlot.num _ rfl
        | arg a => exact Except.noConfusion h
        | str s => simp [slotExprF, canonF] at h
        | tup ys =>
            rcases ys with _ | ⟨y0, _ | ⟨y1, _ | ⟨y2, ys3⟩⟩⟩
            · exact Except.noConfusion h
            · exact Except.noConfusion h
            · rw [slotExprF_pair] at h
              by_cases ha0 : inArgEnum y0 = true
              · rw [if_pos ha0] at h; exact Except.noConfusion h
              · rw [if_neg ha0] at h; exact Except.noConfusion h
            · rw [slotExprF_long] at h; exact Except.noConfusion h
  | succ m ih =>
      obtain ⟨ihC, ihS, ihE⟩ := ih
      have HC : ∀ t c, (∃ k, wfF k t = true) → canonF Rc (m + 1) t = .ok c → Canon c := by
        intro t c hwf h
        obtain ⟨k, hk⟩ := hwf
        match k, hk with
        | 0, hk => simp [wfF] at hk
        | Nat.succ k, hk =>
        cases t with
        | int j => simp [wfF] at hk
        | bool b => simp [wfF] at hk
        | float f => simp [wfF] at hk
        | arg a => simp [wfF] at hk
        | str s =>
            simp only [wfF] at hk
            exact canon_sound_str hk h
        | tup xs =>
        cases xs with
        | nil => simp [wfF] at hk
        | cons t0 rest =>
        cases t0 with
        | int j =>
            simp only [wfF, Bool.and_eq_true] at hk
            match k, hk.1 with
            | 0, hh => simp [wfHeadF] at hh
            | Nat.succ k2, hh =>
                simp only [wfHeadF, Bool.and_eq_true] at hh
                rcases k2 with _ | j2
                · simp [wfF] at hh
                · simp [wfF] at hh
        | bool b =>
            simp only [wfF, Bool.and_eq_true] at hk
            match k, hk.1 with
            | 0, hh => simp [wfHeadF] at hh
            | Nat.succ k2, hh =>
                simp only [wfHeadF, Bool.and_eq_true] at hh
                rcases k2 with _ | j2
                · simp [wfF] at hh
                · simp [wfF] at hh
        | float f =>
            simp only [wfF, Bool.and_eq_true] at hk
            match k, hk.1 with
            | 0, hh => simp [wfHeadF] at hh
            | Nat.succ k2, hh =>
                simp only [wfHeadF, Bool.and_eq_true] at hh
                rcases k2 with _ | j2
                · simp [wfF] at hh
                · simp [wfF] at hh
        | arg a =>
            simp only [wfF, Bool.and_eq_true] at hk
            match k, hk.1 with
            | 0, hh => simp [wfHeadF] at hh
            | Nat.succ k2, hh =>
                simp only [wfHeadF, Bool.and_eq_true] at hh
                rcases k2 with _ | j2
                · simp [wfF] at hh
                · simp [wfF] at hh
        | tup ys =>
            simp only [wfF, Bool.and_eq_true] at hk
            obtain ⟨hh, hrest⟩ := hk
            match k, hh with
            | 0, hh => simp [wfHeadF] at hh
            | Nat.succ k2, hh =>
                simp only [wfHeadF, Bool.and_eq_true, Bool.not_eq_true'] at hh
                obtain ⟨⟨hwfy, _⟩, hdep⟩ := hh
                rw [canonF_succ_cons] at h
                rw [show isdepD Rc (Desc.tup ys) = .ok (depHeadRc (.tup ys)) from
                  wf_isdepD k2 (.tup ys) hwfy] at h
                rw [hdep] at h
                simp only [Bool.false_eq_true, if_false] at h
                cases hc0 : canonF Rc m (.tup ys) with
                | error e => simp only [hc0] at h; exact Except.noConfusion h
                | ok c0 =>
                    simp only [hc0] at h
                    injection h with h2
                    subst h2
                    exact Canon.pair _ _ (ihC (.tup ys) c0 ⟨k2, hwfy⟩ hc0)
        | str h0 =>
            simp only [wfF] at hk
            cases hta : templArityRc h0 with
            | some a =>
                simp only [hta, Bool.and_eq_true] at hk
                obtain ⟨hlen, hslots⟩ := hk
                obtain ⟨params, hdl, hplen⟩ := dlookup_templ_some hta
                rw [canonF_succ_cons] at h
                simp only [isdepName_Rc_eq, templArity_not_intrange hta,
                  Bool.false_eq_true, if_false, hdl] at h
                have hlist : ((Desc.str h0 :: rest).drop 1).take params.length = rest.take a := by
                  simp [hplen]
                rw [hlist] at h
                cases hsl : canonSlots Rc m (rest.take a) with
                | error e => simp only [hsl] at h; exact Except.noConfusion h
                | ok slots =>
                    simp only [hsl] at h
                    obtain ⟨hcs, hcslen⟩ :=
                      ihS (rest.take a) slots (wfSlots_take rest k a hslots) hsl
                    have hrlen : a ≤ rest.length := by
                      rcases (by simpa using hlen : rest.length = a ∨ rest.length = a + 1) with
                        he | he <;> omega
                    have hslen : slots.length = a := by
                      rw [hcslen, List.length_take]; omega
                    injection h with h2
                    subst h2
                    exact Canon.templ h0 slots _ a hta hslen hcs
            | none =>
                simp only [hta] at hk
                by_cases hint : h0 = "intrange"
                · subst hint
                  rw [if_pos (show ("intrange" == "intrange") = true from rfl)] at hk
                  have hlen2 : rest.length = 2 := by simpa using hk
                  rcases rest with _ | ⟨r0, _ | ⟨r1, _ | ⟨r2, rr⟩⟩⟩
                  · simp only [List.length_nil] at hlen2; omega
                  · simp only [List.length_cons, List.length_nil] at hlen2; omega
                  rotate_right
                  · simp only [List.length_cons] at hlen2; omega
                  rw [canonF_succ_cons] at h
                  simp only [show isdepName Rc "intrange" = true by decide, if_true] at h

                  rw [resolveDep_intrange_inv h]
                  exact Canon.pair _ _ (Canon.base _ (by decide))
                · rw [if_neg (by simpa using hint)] at hk
                  simp only [Bool.and_eq_true] at hk
                  obtain ⟨hh, hrle⟩ := hk
                  match k, hh with
                  | 0, hh => simp [wfHeadF] at hh
                  | Nat.succ k2, hh =>
                      simp only [wfHeadF, Bool.and_eq_true, Bool.not_eq_true'] at hh
                      obtain ⟨⟨hwfh, _⟩, _⟩ := hh
                      rcases k2 with _ | k3
                      · simp [wfF] at hwfh
                      rename_i hwfh
                      have hws : wfStrRc h0 = true := by simpa [wfF] using hwfh
                      rw [canonF_succ_cons] at h
                      simp only [isdepName_Rc_eq,
                        show (h0 == "intrange") = false by simpa using hint,
                        Bool.false_eq_true, if_false, dlookup_templ_none hta] at h
                      cases hc0 : canonF Rc m (.str h0) with
                      | error e => simp only [hc0] at h; exact Except.noConfusion h
                      | ok c0 =>
                          simp only [hc0] at h
                          injection h with h2
                          subst h2
                          exact Canon.pair _ _ (canon_sound_str hws hc0)
      refine ⟨HC, ?_, ?_⟩
      · intro l cs hmem h
        cases l with
        | nil =>
            rw [canonSlots_succ_nil] at h
            injection h with h2
            subst h2
            exact ⟨CanonSlots.nil, rfl⟩
        | cons d ds =>
            rw [canonSlots_slot_cons] at h
            cases hse : slotExprF Rc m d with
            | error e => simp only [hse] at h; exact Except.noConfusion h
            | ok c1 =>
                simp only [hse] at h
                cases hrest : canonSlots Rc m ds with
                | error e => simp only [hrest] at h; exact Except.noConfusion h
                | ok cs2 =>
                    simp only [hrest] at h
                    injection h with h2
                    subst h2
                    obtain ⟨hcs2, hlen2⟩ :=
                      ihS ds cs2 (fun d2 hd2 => hmem d2 (List.mem_cons_of_mem _ hd2)) hrest
                    exact ⟨CanonSlots.cons _ _
                      (ihE d c1 (hmem d (List.mem_cons_self _ _)) hse) hcs2,
                      by simp [hlen2]⟩
      · intro d c hwf hse
        obtain ⟨k, hk⟩ := hwf
        match k, hk with
        | 0, hk => simp [wfSlotF] at hk
        | Nat.succ k, hk =>
        cases d with
        | int j => injection hse with h1; subst h1; exact CanonSlot.num _ rfl
        | bool b => injection hse with h1; subst h1; exact CanonSlot.num _ rfl
        | float f => injection hse with h1; subst h1; exact CanonSlot.num _ rfl
        | arg a => exact Except.noConfusion hse
        | str s =>
            simp only [wfSlotF, Bool.not_eq_true'] at hk
            by_cases hws : wfStrRc s = true
            · simp only [slotExprF] at hse
              cases hcf : canonF Rc (m + 1) (.str s) with
              | ok c2 =>
                  simp only [hcf] at hse
                  injection hse with h1
                  subst h1
                  exact CanonSlot.can _ (canon_sound_str hws hcf)
              | error e =>
                  cases e with
                  | typeError =>
                      obtain ⟨v, hv⟩ := canon_wfstr_total hws
                      have := canonF_ok_not_err hv hcf
                      exact absurd this (by decide)
                  | fuel => simp only [hcf] at hse; exact Except.noConfusion hse
                  | indexError => simp only [hcf] at hse; exact Except.noConfusion hse
                  | keyError => simp only [hcf] at hse; exact Except.noConfusion hse
                  | valueError => simp only [hcf] at hse; exact Except.noConfusion hse
                  | assertionError => simp only [hcf] at hse; exact Except.noConfusion hse
                  | notImplementedError => simp only [hcf] at hse; exact Except.noConfusion hse
            · have hws2 : wfStrRc s = false := by simpa using hws
              simp only [slotExprF, canonF_fail_str hws2 hk m] at hse
              injection hse with h1
              subst h1
              exact CanonSlot.fail s (by simp [strFailsRc, hws2, hk])
        | tup ys =>
            rcases ys with _ | ⟨y0, _ | ⟨y1, _ | ⟨y2, ys3⟩⟩⟩
            · simp only [wfSlotF] at hk
              rcases k with _ | k2
              · simp [wfF] at hk
              · simp [wfF] at hk
            · simp only [wfSlotF] at hk
              simp only [slotExprF] at hse
              exact CanonSlot.can _ (HC _ _ ⟨k, hk⟩ hse)
            · simp only [wfSlotF] at hk
              rw [slotExprF_pair] at hse
              by_cases ha0 : inArgEnum y0 = true
              · rw [if_pos ha0] at hse
                rw [if_pos ha0] at hk
                exact CanonSlot.can _ (HC _ _ ⟨k, hk⟩ hse)
              · rw [if_neg ha0] at hse
                rw [if_neg ha0] at hk
                exact CanonSlot.can _ (HC _ _ ⟨k, hk⟩ hse)
            · simp only [wfSlotF] at hk
              rw [slotExprF_long] at hse
              exact CanonSlot.can _ (HC _ _ ⟨k, hk⟩ hse)

end XdressTS
namespace XdressTS

theorem base_names {s : String} (hmem : Rc.base_types.contains (.str s) = true) :
    s = "int32" ∨ s = "int64" ∨ s = "float32" ∨ s = "float64" ∨
    s = "char" ∨ s = "str" ∨ s = "bool" ∨ s = "void" := by
  simpa [Rc, List.contains, List.elem_iff, List.mem_cons, or_assoc] using hmem

theorem base_not_templ {s : String} (hmem : Rc.base_types.contains (.str s) = true) :
    dlookup Rc.template_types (.str s) = none := by
  rcases base_names hmem with rfl | rfl | rfl | rfl | rfl | rfl | rfl | rfl <;> decide

theorem base_not_dep {s : String} (hmem : Rc.base_types.contains (.str s) = true) :
    isdepName Rc s = false := by
  rcases base_names hmem with rfl | rfl | rfl | rfl | rfl | rfl | rfl | rfl <;> decide

theorem canon_isdepD : ∀ {c0 : Desc}, Canon c0 → isdepD Rc c0 = .ok false := by
  intro c0 h0
  refine @Canon.rec (fun c _ => isdepD Rc c = .ok false) (fun _ _ => True) (fun _ _ => True)
    ?_ ?_ ?_ trivial (fun _ _ _ _ _ _ => trivial) (fun _ _ => trivial)
    (fun _ _ _ => trivial) (fun _ _ => trivial) c0 h0
  · intro s hmem
    simp [isdepD, base_not_dep hmem]
  · intro c p a ih
    simpa [isdepD] using ih
  · intro h slots p a harity hlen hslots _
    simp [isdepD, isdepName_Rc_eq, templArity_not_intrange harity]

theorem canon_not_arg {c : Desc} (h : Canon c) : inArgEnum c = false := by
  cases h with
  | base s hmem => rfl
  | pair c p a => rfl
  | templ h slots p a h1 h2 h3 => rfl

end XdressTS
namespace XdressTS

theorem fixed_base (s : String) (hmem : Rc.base_types.contains (.str s) = true) :
    ∃ m, canonF Rc m (.str s) = .ok (.str s) := by
  refine ⟨1, ?_⟩
  rw [show (1 : Nat) = 0 + 1 from rfl, canonF_succ_str, if_pos hmem]

theorem fixed_pair (c p : Desc) (a : Canon c)
    (ih : ∃ m, canonF Rc m c = .ok c) :
    ∃ m, canonF Rc m (.tup [c, p]) = .ok (.tup [c, p]) := by
  obtain ⟨m, hm⟩ := ih
  have hdd := canon_isdepD a
  have hL : (((c :: [p]).length == 1) : Bool) = false := rfl
  have hG : (c :: [p]).getLastD (Desc.int 0) = p := rfl
  refine ⟨m + 1, ?_⟩
  rw [canonF_succ_cons]
  cases a with
  | base s hmem =>
      have hnd : isdepName Rc s = false := base_not_dep hmem
      simp only [hnd, Bool.false_eq_true, if_false, base_not_templ hmem, hm, hL, hG]
  | pair c0 p0 a0 =>
      simp only [hdd, Bool.false_eq_true, if_false, hm, hL, hG]
  | templ h0 slots0 p0 a0 h1 h2 h3 =>
      simp only [hdd, Bool.false_eq_true, if_false, hm, hL, hG]

theorem fixed_templ (h : String) (slots : List Desc) (p : Desc) (a : Nat)
    (harity : templArityRc h = some a) (hlen : slots.length = a)
    (hslots : CanonSlots slots)
    (ih : ∃ m, canonSlots Rc m slots = .ok slots) :
    ∃ m, canonF Rc m (.tup (.str h :: (slots ++ [p]))) =
      .ok (.tup (.str h :: (slots ++ [p]))) := by
  obtain ⟨m, hm⟩ := ih
  obtain ⟨params, hdl, hplen⟩ := dlookup_templ_some harity
  refine ⟨m + 1, ?_⟩
  rw [canonF_succ_cons]
  have hdrop : ((Desc.str h :: (slots ++ [p])).drop 1) = slots ++ [p] := rfl
  have htake : ((slots ++ [p]).take params.length) = slots := by
    rw [show params.length = slots.length from hplen.trans hlen.symm, List.take_left]
  have hlast : (Desc.str h :: (slots ++ [p])).getLastD (.int 0) = p := by
    rw [show Desc.str h :: (slots ++ [p]) = (Desc.str h :: slots) ++ [p] from rfl,
      List.getLastD_eq_getLast?, List.getLast?_concat]
    rfl
  have hlenne : ((Desc.str h :: (slots ++ [p])).length == 1 + params.length) = false := by
    simp [List.length_cons, List.length_append, hlen, hplen]
    omega
  simp only [isdepName_Rc_eq, templArity_not_intrange harity, Bool.false_eq_true, if_false,
    hdl, hdrop, htake, hm, hlenne, hlast]

theorem fixed_num (d : Desc) (hnum : isNumber d = true) :
    ∃ m, slotExprF Rc m d = .ok d := by
  cases d with
  | int j => exact ⟨0, rfl⟩
  | bool b => exact ⟨0, rfl⟩
  | float f => exact ⟨0, rfl⟩
  | str s => simp [isNumber] at hnum
  | tup ys => simp [isNumber] at hnum
  | arg a => simp [isNumber] at hnum

theorem fixed_fail (s : String) (hfail : strFailsRc s = true) :
    ∃ m, slotExprF Rc m (.str s) = .ok (.str s) := by
  simp only [strFailsRc, Bool.and_eq_true, Bool.not_eq_true'] at hfail
  exact ⟨1, by simp only [slotExprF, canonF_fail_str hfail.1 hfail.2 0]⟩

theorem fixed_can (d : Desc) (a : Canon d)
    (ih : ∃ m, canonF Rc m d = .ok d) :
    ∃ m, slotExprF Rc m d = .ok d := by
  obtain ⟨m, hm⟩ := ih
  refine ⟨m, ?_⟩
  cases a with
  | base s hmem => simp only [slotExprF, hm]
  | pair c0 p0 a0 =>
      rw [slotExprF_pair, if_neg (by simp [canon_not_arg a0])]
      exact hm
  | templ h0 slots0 p0 a0 h1 h2 h3 =>
      have hpos := templArity_pos h1
      rcases slots0 with _ | ⟨s1, srest⟩
      · simp at h2; omega
      · rcases srest with _ | ⟨z, zs⟩
        · simp only [List.cons_append, List.nil_append] at hm ⊢
          rw [slotExprF_long]
          exact hm
        · simp only [List.cons_append] at hm ⊢
          rw [slotExprF_long]
          exact hm

theorem fixed_cons (d : Desc) (ds : List Desc) (hd : CanonSlot d) (hds : CanonSlots ds)
    (ih1 : ∃ m, slotExprF Rc m d = .ok d)
    (ih2 : ∃ m, canonSlots Rc m ds = .ok ds) :
    ∃ m, canonSlots Rc m (d :: ds) = .ok (d :: ds) := by
  obtain ⟨m1, hm1⟩ := ih1
  obtain ⟨m2, hm2⟩ := ih2
  refine ⟨max m1 m2 + 1, ?_⟩
  rw [canonSlots_slot_cons]
  rw [slotExprF_mono_le (Nat.le_max_left m1 m2) hm1 (by simp)]
  rw [canonSlots_mono_le (Nat.le_max_right m1 m2) hm2 (by simp)]

theorem canon_fixed {c : Desc} (h : Canon c) : ∃ m, canonF Rc m c = .ok c :=
  @Canon.rec (fun c _ => ∃ m, canonF Rc m c = .ok c)
    (fun ds _ => ∃ m, canonSlots Rc m ds = .ok ds)
    (fun d _ => ∃ m, slotExprF Rc m d = .ok d)
    fixed_base fixed_pair fixed_templ ⟨1, rfl⟩ fixed_cons fixed_num fixed_can fixed_fail
    c h

theorem canonSlots_fixed {ds : List Desc} (h : CanonSlots ds) :
    ∃ m, canonSlots Rc m ds = .ok ds :=
  @CanonSlots.rec (fun c _ => ∃ m, canonF Rc m c = .ok c)
    (fun ds _ => ∃ m, canonSlots Rc m ds = .ok ds)
    (fun d _ => ∃ m, slotExprF Rc m d = .ok d)
    fixed_base fixed_pair fixed_templ ⟨1, rfl⟩ fixed_cons fixed_num fixed_can fixed_fail
    ds h

end XdressTS
namespace XdressTS

/-- C1 (amended): canonicalization over the fixed registry is idempotent on
every well-formed descriptor; bare dependent-refinement names, excluded
from the well-formed forms, are the only documented-shape inputs on which
it is not (see the counterexample theorem). -/
theorem canon_idempotent_on_wf (t c : Desc) (hw : WfRc t) (hc : CanonRel t c) :
    CanonRel c c := by
  obtain ⟨m, hm⟩ := hc
  exact canon_fixed ((canon_sound_all m).1 t c hw hm)

theorem canon_idempotent_on_wf_witness :
    WfRc (.tup [.str "vector", .str "int"]) ∧
    CanonRel (.tup [.str "vector", .str "int"]) (.tup [.str "vector", .str "int32", .int 0]) ∧
    CanonRel (.tup [.str "vector", .str "int32", .int 0])
      (.tup [.str "vector", .str "int32", .int 0]) :=
  ⟨⟨3, by decide⟩, ⟨4, by decide⟩,
    canon_idempotent_on_wf (.tup [.str "vector", .str "int"])
      (.tup [.str "vector", .str "int32", .int 0]) ⟨3, by decide⟩ ⟨4, by decide⟩⟩

end XdressTS
namespace XdressTS

theorem strIntTupList_append {a b : List Desc} :
    strIntTupList (a ++ b) = (strIntTupList a && strIntTupList b) := by
  induction a with
  | nil => rfl
  | cons x xs ih => simp [strIntTupList, ih, Bool.and_assoc]

theorem strIntTupList_mem {l : List Desc} (hl : strIntTupList l = true)
    {d : Desc} (hd : d ∈ l) : strIntTup d = true := by
  induction l with
  | nil => simp at hd
  | cons x xs ih =>
      simp only [strIntTupList, Bool.and_eq_true] at hl
      rcases List.mem_cons.mp hd with rfl | hd2
      · exact hl.1
      · exact ih hl.2 hd2

theorem strIntTupList_drop {l : List Desc} (hl : strIntTupList l = true) (n : Nat) :
    strIntTupList (l.drop n) = true := by
  induction l generalizing n with
  | nil => simp [List.drop_nil, strIntTupList]
  | cons x xs ih =>
      cases n with
      | zero => exact hl
      | succ n =>
          simp only [strIntTupList, Bool.and_eq_true] at hl
          simpa using ih hl.2 n

theorem strIntTupList_take {l : List Desc} (hl : strIntTupList l = true) (n : Nat) :
    strIntTupList (l.take n) = true := by
  induction l generalizing n with
  | nil => simp [strIntTupList]
  | cons x xs ih =>
      cases n with
      | zero => rfl
      | succ n =>
          simp only [strIntTupList, Bool.and_eq_true] at hl
          simpa [strIntTupList, hl.1] using ih hl.2 n

theorem strIntTup_getLastD {l : List Desc} (hl : strIntTupList l = true) :
    strIntTup (l.getLastD (.int 0)) = true := by
  induction l with
  | nil => rfl
  | cons x xs ih =>
      simp only [strIntTupList, Bool.and_eq_true] at hl
      cases xs with
      | nil => exact hl.1
      | cons y ys => simpa [List.getLastD] using ih hl.2

theorem alookup_flat {A : List (String × Desc)} {s : String} {v : Desc}
    (h : alookup A s = some v) (hall : A.all (fun kv => strIntTup kv.2) = true) :
    strIntTup v = true := by
  induction A with
  | nil => simp [alookup] at h
  | cons kv rest ih =>
      obtain ⟨k, w⟩ := kv
      simp only [List.all_cons, Bool.and_eq_true] at hall
      simp only [alookup] at h
      by_cases hk : (k == s) = true
      · rw [if_pos hk] at h
        injection h with h2
        subst h2
        exact hall.1
      · rw [if_neg hk] at h
        exact ih h hall.2

theorem dlookup_flat {L : List (Desc × Desc)} {k : Desc} {v : Desc}
    (h : dlookup L k = some v)
    (hall : L.all (fun kv => strIntTup kv.1 && strIntTup kv.2) = true) :
    strIntTup v = true := by
  induction L with
  | nil => simp [dlookup] at h
  | cons kv rest ih =>
      obtain ⟨k0, w⟩ := kv
      simp only [List.all_cons, Bool.and_eq_true] at hall
      simp only [dlookup] at h
      by_cases hk : (k0 == k) = true
      · rw [if_pos hk] at h
        injection h with h2
        subst h2
        exact hall.1.2
      · rw [if_neg hk] at h
        exact ih h hall.2

theorem findDepKey_go_flat {tname : Desc} :
    ∀ {L : List (Desc × Desc)} {dk dv : Desc},
    findDepKey.go tname L = .ok (dk, dv) →
    L.all (fun kv => strIntTup kv.1 && strIntTup kv.2) = true →
    strIntTup dk = true ∧ strIntTup dv = true := by
  intro L
  induction L with
  | nil => intro dk dv h _; simp [findDepKey.go] at h
  | cons kv rest ih =>
      intro dk dv h hall
      obtain ⟨k0, w⟩ := kv
      simp only [List.all_cons, Bool.and_eq_true] at hall
      simp only [findDepKey.go] at h
      cases hi : pyIndex0 k0 with
      | error e => rw [hi] at h; exact Except.noConfusion h
      | ok hd =>
          simp only [hi] at h
          by_cases hk : (hd == tname) = true
          · rw [if_pos hk] at h
            injection h with h2
            injection h2 with h3 h4
            subst h3; subst h4
            exact ⟨hall.1.1, hall.1.2⟩
          · rw [if_neg hk] at h
            exact ih h hall.2

theorem findDepKey_flat {R : Reg} {tname dk dv : Desc}
    (h : findDepKey R tname = .ok (dk, dv))
    (hall : R.refined_types.all (fun kv => strIntTup kv.1 && strIntTup kv.2) = true) :
    strIntTup dk = true ∧ strIntTup dv = true :=
  findDepKey_go_flat h hall

theorem pyIndex0_flat {k k0 : Desc} (hk : strIntTup k = true)
    (h : pyIndex0 k = .ok k0) : strIntTup k0 = true := by
  cases k with
  | str s =>
      simp only [pyIndex0] at h
      by_cases hl : (s.length == 0) = true
      · rw [if_pos hl] at h; exact Except.noConfusion h
      · rw [if_neg hl] at h
        injection h with h2
        subst h2
        rfl
  | tup xs =>
      cases xs with
      | nil => exact Except.noConfusion h
      | cons x rest =>
          injection h with h2
          subst h2
          exact (Bool.and_eq_true _ _ |>.mp hk).1
  | int j => exact Except.noConfusion h
  | bool b => exact Except.noConfusion h
  | float f => exact Except.noConfusion h
  | arg a => exact Except.noConfusion h

theorem pyIndex1_flat {k k1 : Desc} (hk : strIntTup k = true)
    (h : pyIndex1 k = .ok k1) : strIntTup k1 = true := by
  cases k with
  | str s =>
      simp only [pyIndex1] at h
      by_cases hl : s.length ≤ 1
      · rw [if_pos hl] at h; exact Except.noConfusion h
      · rw [if_neg hl] at h
        injection h with h2
        subst h2
        rfl
  | tup xs =>
      rcases xs with _ | ⟨x, _ | ⟨y, rest⟩⟩
      · exact Except.noConfusion h
      · exact Except.noConfusion h
      · injection h with h2
        subst h2
        simp only [strIntTup, strIntTupList, Bool.and_eq_true] at hk
        exact hk.2.1
  | int j => exact Except.noConfusion h
  | bool b => exact Except.noConfusion h
  | float f => exact Except.noConfusion h
  | arg a => exact Except.noConfusion h

theorem strIntTupList_all_str (l : List Desc)
    (h : ∀ d ∈ l, ∃ s, d = Desc.str s) : strIntTupList l = true := by
  induction l with
  | nil => rfl
  | cons x xs ih =>
      obtain ⟨s, hs⟩ := h x (List.mem_cons_self _ _)
      subst hs
      simp only [strIntTupList, Bool.and_eq_true]
      exact ⟨rfl, ih (fun d hd => h d (List.mem_cons_of_mem _ hd))⟩

theorem pyElemsTail_flat {t : Desc} {l : List Desc} (ht : strIntTup t = true)
    (h : pyElemsTail t = .ok l) : strIntTupList l = true := by
  cases t with
  | str s =>
      injection h with h2
      subst h2
      apply strIntTupList_all_str
      intro d hd
      simp only [List.mem_map] at hd
      obtain ⟨ch, _, hch⟩ := hd
      exact ⟨_, hch.symm⟩
  | tup xs =>
      injection h with h2
      subst h2
      exact strIntTupList_drop ht 1
  | int j => exact Except.noConfusion h
  | bool b => exact Except.noConfusion h
  | float f => exact Except.noConfusion h
  | arg a => exact Except.noConfusion h

theorem zip_flat {l1 l2 : List Desc} (h1 : strIntTupList l1 = true)
    (h2 : strIntTupList l2 = true) :
    (l1.zip l2).all (fun kv => strIntTup kv.1 && strIntTup kv.2) = true := by
  induction l1 generalizing l2 with
  | nil => simp
  | cons x xs ih =>
      cases l2 with
      | nil => simp
      | cons y ys =>
          simp only [strIntTupList, Bool.and_eq_true] at h1 h2
          simp only [List.zip_cons_cons, List.all_cons, Bool.and_eq_true]
          exact ⟨⟨h1.1, h2.1⟩, ih h1.2 h2.2⟩

theorem all_filter_flat {L : List (Desc × Desc)} {q : Desc × Desc → Bool}
    (h : L.all (fun kv => strIntTup kv.1 && strIntTup kv.2) = true) :
    (L.filter q).all (fun kv => strIntTup kv.1 && strIntTup kv.2) = true := by
  induction L with
  | nil => rfl
  | cons kv rest ih =>
      simp only [List.all_cons, Bool.and_eq_true] at h
      simp only [List.filter]
      cases q kv with
      | true =>
          simp only [List.all_cons, Bool.and_eq_true]
          exact ⟨h.1, ih h.2⟩
      | false => exact ih h.2

theorem typemap_values_flat {L : List (Desc × Desc)}
    (h : L.all (fun kv => strIntTup kv.1 && strIntTup kv.2) = true) :
    (L.filterMap (fun kv =>
      match kv.1 with
      | .str s => some (s, kv.2)
      | _ => none)).all (fun kv => strIntTup kv.2) = true := by
  induction L with
  | nil => rfl
  | cons kv rest ih =>
      obtain ⟨k0, w⟩ := kv
      simp only [List.all_cons, Bool.and_eq_true] at h
      simp only [List.filterMap]
      cases k0 with
      | str s =>
          simp only [List.all_cons, Bool.and_eq_true]
          exact ⟨h.1.2, ih h.2⟩
      | int j => exact ih h.2
      | bool b => exact ih h.2
      | float f => exact ih h.2
      | tup xs => exact ih h.2
      | arg a => exact ih h.2

theorem strParams_flat (dep : List Desc) (q : String → Bool) :
    strIntTupList (dep.filterMap (fun k =>
      match k with
      | .str s => if q s then some (.str s) else none
      | _ => none)) = true := by
  induction dep with
  | nil => rfl
  | cons x xs ih =>
      simp only [List.filterMap]
      cases x with
      | str s =>
          by_cases hq : q s = true
          · simp only [hq, if_true]
            simp only [strIntTupList, Bool.and_eq_true]
            exact ⟨rfl, ih⟩
          · simp only [hq, Bool.false_eq_true, if_false]
            exact ih
      | int j => exact ih
      | bool b => exact ih
      | float f => exact ih
      | tup xs2 => exact ih
      | arg a => exact ih

end XdressTS
namespace XdressTS

theorem flat_not_arg {d : Desc} (h : strIntTup d = true) : inArgEnum d = false := by
  cases d with
  | arg a => simp [strIntTup] at h
  | int j => rfl
  | bool b => rfl
  | float f => rfl
  | str s => rfl
  | tup xs => rfl

theorem pyUnpack2_flat {k a b : Desc} (hk : strIntTup k = true)
    (h : pyUnpack2 k = .ok (a, b)) : strIntTup a = true ∧ strIntTup b = true := by
  cases k with
  | str s =>
      simp only [pyUnpack2] at h
      by_cases hl : (s.length == 2) = true
      · rw [if_pos hl] at h
        injection h with h2
        injection h2 with h3 h4
        subst h3; subst h4
        exact ⟨rfl, rfl⟩
      · rw [if_neg hl] at h; exact Except.noConfusion h
  | tup xs =>
      rcases xs with _ | ⟨x, _ | ⟨y, _ | ⟨z, rest⟩⟩⟩
      · exact Except.noConfusion h
      · exact Except.noConfusion h
      · injection h with h2
        injection h2 with h3 h4
        subst h3; subst h4
        simp only [strIntTup, strIntTupList, Bool.and_eq_true] at hk
        exact ⟨hk.1, hk.2.1⟩
      · exact Except.noConfusion h
  | int j => exact Except.noConfusion h
  | bool b => exact Except.noConfusion h
  | float f => exact Except.noConfusion h
  | arg a2 => exact Except.noConfusion h

end XdressTS
namespace XdressTS

theorem strIntTupList_cons_of {x : Desc} {l : List Desc} (hx : strIntTup x = true)
    (hl : strIntTupList l = true) : strIntTupList (x :: l) = true := by
  simp [strIntTupList, hx, hl]

theorem strIntTupList_append_of {a b : List Desc} (ha : strIntTupList a = true)
    (hb : strIntTupList b = true) : strIntTupList (a ++ b) = true := by
  rw [strIntTupList_append, ha, hb]
  rfl

theorem strIntTupList_single {x : Desc} (hx : strIntTup x = true) :
    strIntTupList [x] = true := by
  simp [strIntTupList, hx]

theorem canon_flat_all : ∀ n : Nat,
    (∀ (R : Reg) (t c : Desc), regFlat R = true → strIntTup t = true →
        canonF R n t = .ok c → strIntTup c = true) ∧
    (∀ (R : Reg) (l cs : List Desc), regFlat R = true → strIntTupList l = true →
        canonSlots R n l = .ok cs → strIntTupList cs = true) ∧
    (∀ (R : Reg) (l cs : List Desc), regFlat R = true → strIntTupList l = true →
        canonList R n l = .ok cs → strIntTupList cs = true) ∧
    (∀ (R : Reg) (l : List (Desc × Desc)) (cs : List Desc), regFlat R = true →
        l.all (fun kv => strIntTup kv.1 && strIntTup kv.2) = true →
        depTriples R n l = .ok cs → strIntTupList cs = true) ∧
    (∀ (R : Reg) (l : List (Desc × Desc)) (cs : List Desc), regFlat R = true →
        l.all (fun kv => strIntTup kv.1 && strIntTup kv.2) = true →
        depTriplesU R n l = .ok cs → strIntTupList cs = true) ∧
    (∀ (R : Reg) (t : Desc) (ti : Option Desc) (c : Desc), regFlat R = true →
        strIntTup t = true → (∀ x, ti = some x → strIntTup x = true) →
        resolveDepF R n t ti = .ok c → strIntTup c = true) := by
  intro n
  induction n with
  | zero =>
      refine ⟨?_, ?_, ?_, ?_, ?_, ?_⟩
      · intro R t c _ _ h; exact Except.noConfusion h
      · intro R l cs _ _ h; exact Except.noConfusion h
      · intro R l cs _ _ h; exact Except.noConfusion h
      · intro R l cs _ _ h; exact Except.noConfusion h
      · intro R l cs _ _ h; exact Except.noConfusion h
      · intro R t ti c _ _ _ h; exact Except.noConfusion h
  | succ n ih =>
      obtain ⟨ihC, ihS, ihL, ihT, ihU, ihR⟩ := ih
      have hreg : ∀ R : Reg, regFlat R = true →
          R.type_aliases.all (fun kv => strIntTup kv.2) = true ∧
          R.refined_types.all (fun kv => strIntTup kv.1 && strIntTup kv.2) = true := by
        intro R hR
        simpa [regFlat, Bool.and_eq_true] using hR
      refine ⟨?_, ?_, ?_, ?_, ?_, ?_⟩
      · -- canonF
        intro R t c hR ht h
        cases t with
        | int j => exact Except.noConfusion h
        | bool b => exact Except.noConfusion h
        | float f => exact Except.noConfusion h
        | arg a => exact Except.noConfusion h
        | str s =>
            rw [canonF_succ_str] at h
            by_cases hb : R.base_types.contains (Desc.str s) = true
            · rw [if_pos hb] at h
              injection h with h2
              subst h2
              rfl
            · rw [if_neg hb] at h
              cases ha : alookup R.type_aliases s with
              | some v =>
                  simp only [ha] at h
                  exact ihC R v c hR (alookup_flat ha (hreg R hR).1) h
              | none =>
                  simp only [ha] at h
                  cases hrf : dlookup R.refined_types (Desc.str s) with
                  | some parent =>
                      simp only [hrf] at h
                      cases hp : canonF R n parent with
                      | error e => simp only [hp] at h; exact Except.noConfusion h
                      | ok p =>
                          simp only [hp] at h
                          injection h with h2
                          subst h2
                          have hpf := ihC R parent p hR (dlookup_flat hrf (hreg R hR).2) hp
                          simp [strIntTup, strIntTupList, hpf]
                  | none =>
                      simp only [hrf] at h
                      by_cases hd : isdepName R s = true
                      · rw [if_pos hd] at h
                        exact ihR R (.str s) none c hR rfl (by intro x hx; cases hx) h
                      · rw [if_neg hd] at h
                        exact Except.noConfusion h
        | tup xs =>
        cases xs with
        | nil => rw [canonF_succ_nil] at h; exact Except.noConfusion h
        | cons t0 rest =>
            have hts : strIntTupList (t0 :: rest) = true := ht
            have ht0 : strIntTup t0 = true := by
              simpa using (Bool.and_eq_true _ _ |>.mp hts).1
            have htr : strIntTupList rest = true := by
              simpa using (Bool.and_eq_true _ _ |>.mp hts).2
            have hlastv : strIntTup
                (if (t0 :: rest).length == 1 then Desc.int 0
                 else (t0 :: rest).getLastD (.int 0)) = true := by
              cases hcond : ((t0 :: rest).length == 1 : Bool)
              · simp only [Bool.false_eq_true, if_false]
                exact strIntTup_getLastD hts
              · simp only [if_true]
                rfl
            rw [canonF_succ_cons] at h
            cases t0 with
            | str s0 =>
                by_cases hd : isdepName R s0 = true
                · simp only [hd, if_true] at h
                  exact ihR R (.str s0) (some (.tup (Desc.str s0 :: rest))) c hR rfl
                    (by intro x hx; injection hx with h2; subst h2; exact hts) h
                · simp only [hd, Bool.false_eq_true, if_false] at h
                  cases htm : dlookup R.template_types (Desc.str s0) with
                  | some params =>
                      simp only [htm] at h
                      cases hsl : canonSlots R n
                          (((Desc.str s0 :: rest).drop 1).take params.length) with
                      | error e => simp only [hsl] at h; exact Except.noConfusion h
                      | ok slots =>
                          simp only [hsl] at h
                          injection h with h2
                          subst h2
                          have hslf : strIntTupList slots = true :=
                            ihS R _ slots hR
                              (by
                                rw [show ((Desc.str s0 :: rest).drop 1) = rest from rfl]
                                exact strIntTupList_take htr params.length) hsl
                          have hlast2 : strIntTup
                              (if (Desc.str s0 :: rest).length == 1 + params.length
                               then Desc.int 0
                               else (Desc.str s0 :: rest).getLastD (.int 0)) = true := by
                            cases hcond : (((Desc.str s0 :: rest).length == 1 + params.length) : Bool)
                            · simp only [Bool.false_eq_true, if_false]
                              exact strIntTup_getLastD hts
                            · simp only [if_true]
                              rfl
                          exact strIntTupList_cons_of rfl
                            (strIntTupList_append_of hslf (strIntTupList_single hlast2))
                  | none =>
                      simp only [htm] at h
                      cases hp : canonF R n (Desc.str s0) with
                      | error e => simp only [hp] at h; exact Except.noConfusion h
                      | ok c0 =>
                          simp only [hp] at h
                          injection h with h2
                          subst h2
                          have hc0 := ihC R (.str s0) c0 hR rfl hp
                          exact strIntTupList_cons_of hc0 (strIntTupList_single hlastv)
            | tup ys =>
                cases hdd : isdepD R (Desc.tup ys) with
                | error e => simp only [hdd] at h; exact Except.noConfusion h
                | ok dep =>
                    simp only [hdd] at h
                    cases dep with
                    | true =>
                        rw [if_pos rfl] at h
                        exact ihR R (.tup ys) (some (.tup (Desc.tup ys :: rest))) c hR ht0
                          (by intro x hx; injection hx with h2; subst h2; exact hts) h
                    | false =>
                        rw [if_neg (by simp)] at h
                        cases hp : canonF R n (Desc.tup ys) with
                        | error e => simp only [hp] at h; exact Except.noConfusion h
                        | ok c0 =>
                            simp only [hp] at h
                            injection h with h2
                            subst h2
                            have hc0 := ihC R (.tup ys) c0 hR ht0 hp
                            exact strIntTupList_cons_of hc0 (strIntTupList_single hlastv)
            | int j => exact Except.noConfusion h
            | bool b => exact Except.noConfusion h
            | float f => simp [strIntTup, strIntTupList] at hts
            | arg a => simp [strIntTup, strIntTupList] at hts
      · -- canonSlots
        intro R l cs hR hl h
        induction l generalizing cs with
        | nil =>
            rw [canonSlots_succ_nil] at h
            injection h with h2
            subst h2
            rfl
        | cons tt more ihtail =>
            have htt : strIntTup tt = true := by
              simpa using (Bool.and_eq_true _ _ |>.mp hl).1
            have hmore : strIntTupList more = true := by
              simpa using (Bool.and_eq_true _ _ |>.mp hl).2
            rw [canonSlots_slot_cons] at h
            have HSE : ∀ c1, slotExprF R n tt = .ok c1 → strIntTup c1 = true := by
              intro c1 hse
              cases tt with
              | int j => injection hse with h2; subst h2; rfl
              | bool b => injection hse with h2; subst h2; rfl
              | float f => simp [strIntTup] at htt
              | arg a => simp [strIntTup] at htt
              | str s =>
                  simp only [slotExprF] at hse
                  cases hcf : canonF R n (.str s) with
                  | ok c2 =>
                      simp only [hcf] at hse
                      injection hse with h2
                      subst h2
                      exact ihC R (.str s) c2 hR rfl hcf
                  | error e =>
                      cases e <;> simp only [hcf] at hse <;>
                        first
                        | (injection hse with h2; subst h2; rfl)
                        | exact Except.noConfusion hse
              | tup ys =>
                  rcases ys with _ | ⟨y0, _ | ⟨y1, _ | ⟨y2, ys3⟩⟩⟩
                  · exact ihC R (.tup []) c1 hR htt hse
                  · exact ihC R (.tup [y0]) c1 hR htt hse
                  · rw [slotExprF_pair] at hse
                    have hy0 : strIntTup y0 = true := by
                      simpa using (Bool.and_eq_true _ _ |>.mp htt).1
                    rw [if_neg (by simp [flat_not_arg hy0])] at hse
                    exact ihC R (.tup [y0, y1]) c1 hR htt hse
                  · rw [slotExprF_long] at hse
                    exact ihC R (.tup (y0 :: y1 :: y2 :: ys3)) c1 hR htt hse
            cases hse : slotExprF R n tt with
            | error e => simp only [hse] at h; exact Except.noConfusion h
            | ok c1 =>
                simp only [hse] at h
                cases hrest : canonSlots R n more with
                | error e => simp only [hrest] at h; exact Except.noConfusion h
                | ok cs2 =>
                    simp only [hrest] at h
                    injection h with h2
                    subst h2
                    simp only [strIntTupList, Bool.and_eq_true]
                    exact ⟨HSE c1 hse, ihS R more cs2 hR hmore hrest⟩
      · -- canonList
        intro R l cs hR hl h
        cases l with
        | nil =>
            rw [canonList_succ_nil] at h
            injection h with h2
            subst h2
            rfl
        | cons d ds =>
            have hd : strIntTup d = true := by
              simpa using (Bool.and_eq_true _ _ |>.mp hl).1
            have hds : strIntTupList ds = true := by
              simpa using (Bool.and_eq_true _ _ |>.mp hl).2
            rw [canonList_succ_cons] at h
            cases hc : canonF R n d with
            | error e => simp only [hc] at h; exact Except.noConfusion h
            | ok c1 =>
                simp only [hc] at h
                cases hrest : canonList R n ds with
                | error e => simp only [hrest] at h; exact Except.noConfusion h
                | ok cs2 =>
                    simp only [hrest] at h
                    injection h with h2
                    subst h2
                    simp only [strIntTupList, Bool.and_eq_true]
                    exact ⟨ihC R d c1 hR hd hc, ihL R ds cs2 hR hds hrest⟩
      · -- depTriples
        intro R l cs hR hl h
        cases l with
        | nil =>
            rw [depTriples_succ_nil] at h
            injection h with h2
            subst h2
            rfl
        | cons kv more =>
            obtain ⟨k, instval⟩ := kv
            have hk : strIntTup k = true := by
              simpa using (Bool.and_eq_true _ _ |>.mp (by simpa using (Bool.and_eq_true _ _ |>.mp hl).1)).1
            have hiv : strIntTup instval = true := by
              simpa using (Bool.and_eq_true _ _ |>.mp (by simpa using (Bool.and_eq_true _ _ |>.mp hl).1)).2
            have hmore : more.all (fun kv => strIntTup kv.1 && strIntTup kv.2) = true := by
              simpa using (Bool.and_eq_true _ _ |>.mp hl).2
            rw [depTriples_succ_cons] at h
            cases hk0 : pyIndex0 k with
            | error e => simp only [hk0] at h; exact Except.noConfusion h
            | ok k0 =>
                simp only [hk0] at h
                cases hk1 : pyIndex1 k with
                | error e => simp only [hk1] at h; exact Except.noConfusion h
                | ok k1 =>
                    simp only [hk1] at h
                    cases hc : canonF R n k1 with
                    | error e => simp only [hc] at h; exact Except.noConfusion h
                    | ok ck1 =>
                        simp only [hc] at h
                        cases hrest : depTriples R n more with
                        | error e => simp only [hrest] at h; exact Except.noConfusion h
                        | ok ts2 =>
                            simp only [hrest] at h
                            injection h with h2
                            subst h2
                            exact strIntTupList_cons_of
                              (strIntTupList_cons_of (pyIndex0_flat hk hk0)
                                (strIntTupList_cons_of
                                  (ihC R k1 ck1 hR (pyIndex1_flat hk hk1) hc)
                                  (strIntTupList_single hiv)))
                              (ihT R more ts2 hR hmore hrest)
      · -- depTriplesU
        intro R l cs hR hl h
        cases l with
        | nil =>
            rw [depTriplesU_succ_nil] at h
            injection h with h2
            subst h2
            rfl
        | cons kv more =>
            obtain ⟨k, instval⟩ := kv
            have hk : strIntTup k = true := by
              simpa using (Bool.and_eq_true _ _ |>.mp (by simpa using (Bool.and_eq_true _ _ |>.mp hl).1)).1
            have hiv : strIntTup instval = true := by
              simpa using (Bool.and_eq_true _ _ |>.mp (by simpa using (Bool.and_eq_true _ _ |>.mp hl).1)).2
            have hmore : more.all (fun kv => strIntTup kv.1 && strIntTup kv.2) = true := by
              simpa using (Bool.and_eq_true _ _ |>.mp hl).2
            rw [depTriplesU_succ_cons] at h
            cases hu : pyUnpack2 k with
            | error e => simp only [hu] at h; exact Except.noConfusion h
            | ok p =>
                obtain ⟨kname, ktype⟩ := p
                simp only [hu] at h
                obtain ⟨hkn, hkt⟩ := pyUnpack2_flat hk hu
                cases hc : canonF R n ktype with
                | error e => simp only [hc] at h; exact Except.noConfusion h
                | ok ck =>
                    simp only [hc] at h
                    cases hrest : depTriplesU R n more with
                    | error e => simp only [hrest] at h; exact Except.noConfusion h
                    | ok ts2 =>
                        simp only [hrest] at h
                        injection h with h2
                        subst h2
                        exact strIntTupList_cons_of
                          (strIntTupList_cons_of hkn
                            (strIntTupList_cons_of (ihC R ktype ck hR hkt hc)
                              (strIntTupList_single hiv)))
                          (ihU R more ts2 hR hmore hrest)
      · -- resolveDepF
        intro R tname ti c hR htn hti h
        rw [resolveDepF_succ] at h
        cases hf : findDepKey R tname with
        | error e => simp only [hf] at h; exact Except.noConfusion h
        | ok dk =>
            obtain ⟨depkey, depval⟩ := dk
            simp only [hf] at h
            obtain ⟨hdkf, hdvf⟩ := findDepKey_flat hf (hreg R hR).2
            cases hit : istemplD R depkey with
            | error e => simp only [hit] at h; exact Except.noConfusion h
            | ok istemplated =>
                simp only [hit] at h
                cases ti with
                | none =>
                    injection h with h2
                    subst h2
                    exact hdkf
                | some tiv =>
                    have htiv : strIntTup tiv = true := hti tiv rfl
                    cases hl1 : pyLen tiv with
                    | error e => simp only [hl1] at h; exact Except.noConfusion h
                    | ok tiLen =>
                        simp only [hl1] at h
                        cases hl2 : pyLen depkey with
                        | error e => simp only [hl2] at h; exact Except.noConfusion h
                        | ok dkLen =>
                            simp only [hl2] at h
                            by_cases hlen : tiLen ≠ dkLen
                            · rw [if_pos hlen] at h; exact Except.noConfusion h
                            · rw [if_neg hlen] at h
                              cases he1 : pyElemsTail depkey with
                              | error e => simp only [he1] at h; exact Except.noConfusion h
                              | ok deprest =>
                                  simp only [he1] at h
                                  have hdrf : strIntTupList deprest = true :=
                                    pyElemsTail_flat hdkf he1
                                  cases he2 : pyElemsTail tiv with
                                  | error e => simp only [he2] at h; exact Except.noConfusion h
                                  | ok tirest =>
                                      simp only [he2] at h
                                      have htrf : strIntTupList tirest = true :=
                                        pyElemsTail_flat htiv he2
                                      have hzip := zip_flat hdrf htrf
                                      cases istemplated with
                                      | false =>
                                          rw [if_neg (by simp)] at h
                                          cases hc : canonF R n depval with
                                          | error e =>
                                              simp only [hc] at h
                                              exact Except.noConfusion h
                                          | ok a =>
                                              simp only [hc] at h
                                              cases hu : depTriplesU R n (deprest.zip tirest) with
                                              | error e =>
                                                  simp only [hu] at h
                                                  exact Except.noConfusion h
                                              | ok cs =>
                                                  simp only [hu] at h
                                                  injection h with h2
                                                  subst h2
                                                  exact strIntTupList_cons_of
                                                    (ihC R depval a hR hdvf hc)
                                                    (strIntTupList_single
                                                      (strIntTupList_cons_of htn
                                                        (ihU R _ cs hR hzip hu)))
                                      | true =>
                                          rw [if_pos rfl] at h
                                          split at h
                                          · exact Except.noConfusion h
                                          · rename_i hany
                                            have hRx : regFlat { R with type_aliases :=
                                                R.type_aliases ++
                                                ((deprest.zip tirest).filterMap (fun kv =>
                                                  match kv.1 with
                                                  | .str s => some (s, kv.2)
                                                  | _ => none)) } = true := by
                                              simp only [regFlat, Bool.and_eq_true,
                                                List.all_append]
                                              exact ⟨⟨(hreg R hR).1, typemap_values_flat hzip⟩,
                                                (hreg R hR).2⟩
                                            split at h
                                            · exact Except.noConfusion h
                                            · rename_i a hc
                                              split at h
                                              · exact Except.noConfusion h
                                              · rename_i bs hcl
                                                split at h
                                                · exact Except.noConfusion h
                                                · rename_i cs hdt
                                                  injection h with h2
                                                  subst h2
                                                  have haf := ihC _ depval a hRx hdvf hc
                                                  have hbf := ihL _ _ bs hRx
                                                    (strParams_flat deprest _) hcl
                                                  have hcf := ihT _ _ cs hRx
                                                    (all_filter_flat hzip) hdt
                                                  exact strIntTupList_cons_of haf
                                                    (strIntTupList_single
                                                      (strIntTupList_cons_of htn
                                                        (strIntTupList_append_of hbf hcf)))

end XdressTS
namespace XdressTS

/-- C6 (amended): over any registry whose alias values and refinement keys
and values pass the strings-ints-tuples walk, a successful canonicalization
of a strings-ints-tuples descriptor yields a strings-ints-tuples result;
floats and argument tags in slots pass through, so without that hypothesis
only hashability survives (see the counterexample theorem). -/
theorem canon_flat_of_flat (R : Reg) (t c : Desc) (hR : regFlat R = true)
    (ht : strIntTup t = true) (h : ∃ n, canonF R n t = .ok c) :
    strIntTup c = true := by
  obtain ⟨n, hn⟩ := h
  exact (canon_flat_all n).1 R t c hR ht hn

theorem canon_flat_of_flat_witness :
    regFlat Rc = true ∧ strIntTup (.tup [.str "vector", .str "int"]) = true ∧
    strIntTup (.tup [.str "vector", .str "int32", .int 0]) = true :=
  ⟨by decide, by decide,
    canon_flat_of_flat Rc (.tup [.str "vector", .str "int"])
      (.tup [.str "vector", .str "int32", .int 0]) (by decide) (by decide) ⟨4, by decide⟩⟩

end XdressTS
namespace XdressTS

theorem stripCore_succ_pair (R : Reg) (n : Nat) (a b : Desc) :
    stripCore R (n + 1) (.tup [a, b]) =
      (match stripPredsF R n a with
       | .error e => .error e
       | .ok sp0 =>
           if pyEqZero b then .ok (.tup [sp0, .int 0]) else .ok sp0) := rfl

theorem strip_mono_step : ∀ n : Nat,
    (∀ (R : Reg) (t : Desc) (r : Except Err Desc),
        stripPredsF R n t = r → r ≠ .error .fuel → stripPredsF R (n + 1) t = r) ∧
    (∀ (R : Reg) (c : Desc) (r : Except Err Desc),
        stripCore R n c = r → r ≠ .error .fuel → stripCore R (n + 1) c = r) := by
  intro n
  induction n with
  | zero =>
      refine ⟨?_, ?_⟩
      · intro R t r h hne; exact absurd (h.symm.trans rfl) hne
      · intro R c r h hne; exact absurd (h.symm.trans rfl) hne
  | succ n ih =>
      obtain ⟨ihP, ihK⟩ := ih
      refine ⟨?_, ?_⟩
      · intro R t r h hne
        rw [stripPredsF_succ] at h ⊢
        cases hc : canonF R n t with
        | error e =>
            simp only [hc] at h
            subst h
            rw [(canon_mono_step n).1 R t _ hc (err_ne_fuel hne)]
        | ok c =>
            rw [(canon_mono_step n).1 R t _ hc (by simp)]
            simp only [hc] at h
            exact ihK R c r h hne
      · intro R c r h hne
        cases c with
        | str s => rw [stripCore_succ] at h ⊢; exact h
        | int j => rw [stripCore_succ] at h ⊢; exact h
        | bool b => rw [stripCore_succ] at h ⊢; exact h
        | float f => rw [stripCore_succ] at h ⊢; exact h
        | arg a => rw [stripCore_succ] at h ⊢; exact h
        | tup xs =>
            rcases xs with _ | ⟨a, _ | ⟨b, _ | ⟨z, zs⟩⟩⟩
            · rw [stripCore_succ] at h ⊢; exact h
            · rw [stripCore_succ] at h ⊢; exact h
            · rw [stripCore_succ_pair] at h ⊢
              cases hsp : stripPredsF R n a with
              | error e =>
                  simp only [hsp] at h
                  subst h
                  rw [ihP R a _ hsp (err_ne_fuel hne)]
              | ok sp0 =>
                  rw [ihP R a _ hsp (by simp)]
                  simp only [hsp] at h
                  exact h
            · rw [stripCore_succ] at h ⊢; exact h

theorem stripPredsF_mono_le {R : Reg} {t : Desc} {r : Except Err Desc} {n m : Nat}
    (hnm : n ≤ m) (h : stripPredsF R n t = r) (hne : r ≠ .error .fuel) :
    stripPredsF R m t = r := by
  induction hnm with
  | refl => exact h
  | step _ ih => exact (strip_mono_step _).1 R t r ih hne

theorem stripCore_mono_le {R : Reg} {c : Desc} {r : Except Err Desc} {n m : Nat}
    (hnm : n ≤ m) (h : stripCore R n c = r) (hne : r ≠ .error .fuel) :
    stripCore R m c = r := by
  induction hnm with
  | refl => exact h
  | step _ ih => exact (strip_mono_step _).2 R c r ih hne

end XdressTS
namespace XdressTS

theorem wfstr_not_templ {s : String} (hw : wfStrRc s = true) :
    dlookup Rc.template_types (.str s) = none := by
  simp only [wfStrRc, Bool.or_eq_true, beq_iff_eq, or_assoc] at hw
  rcases hw with rfl | rfl | rfl | rfl | rfl | rfl | rfl | rfl | rfl | rfl | rfl | rfl | rfl <;>
    decide

theorem wfstr_not_dep {s : String} (hw : wfStrRc s = true) :
    isdepName Rc s = false := by
  simp only [wfStrRc, Bool.or_eq_true, beq_iff_eq, or_assoc] at hw
  rcases hw with rfl | rfl | rfl | rfl | rfl | rfl | rfl | rfl | rfl | rfl | rfl | rfl | rfl <;>
    decide

theorem canon_pair_step {t : Desc} (hw : WfRc t) (hdh : depHeadRc t = false)
    (k : Desc) (m : Nat) :
    canonF Rc (m + 1) (.tup [t, k]) =
      (match canonF Rc m t with
       | .ok c0 => .ok (.tup [c0, k])
       | .error e => .error e) := by
  obtain ⟨kw, hkw⟩ := hw
  rw [canonF_succ_cons]
  cases t with
  | int j =>
      match kw, hkw with
      | 0, hkw => simp [wfF] at hkw
      | Nat.succ kw, hkw => simp [wfF] at hkw
  | bool b =>
      match kw, hkw with
      | 0, hkw => simp [wfF] at hkw
      | Nat.succ kw, hkw => simp [wfF] at hkw
  | float f =>
      match kw, hkw with
      | 0, hkw => simp [wfF] at hkw
      | Nat.succ kw, hkw => simp [wfF] at hkw
  | arg a =>
      match kw, hkw with
      | 0, hkw => simp [wfF] at hkw
      | Nat.succ kw, hkw => simp [wfF] at hkw
  | str s =>
      have hws : wfStrRc s = true := by
        match kw, hkw with
        | 0, hkw => simp [wfF] at hkw
        | Nat.succ kw, hkw => simpa [wfF] using hkw
      simp only [wfstr_not_dep hws, Bool.false_eq_true, if_false, wfstr_not_templ hws]
      cases hc : canonF Rc m (.str s) with
      | error e => simp only [hc]
      | ok c0 => simp only [hc]; rfl
  | tup ys =>
      have hdd : isdepD Rc (.tup ys) = .ok false := by
        rw [wf_isdepD kw (.tup ys) hkw, hdh]
      simp only [hdd, Bool.false_eq_true, if_false]
      cases hc : canonF Rc m (.tup ys) with
      | error e => simp only [hc]
      | ok c0 => simp only [hc]; rfl

theorem stripped_canon {r : Desc} (h : Stripped r) : Canon r := by
  induction h with
  | base s hmem => exact Canon.base s hmem
  | pair0 c hc ih => exact Canon.pair _ _ ih
  | templ h slots a h1 h2 h3 => exact Canon.templ _ _ _ _ h1 h2 h3

end XdressTS
namespace XdressTS

theorem canon_stable {c : Desc} (hc : Canon c) :
    ∀ n c2, canonF Rc n c = .ok c2 → c2 = c := by
  intro n c2 h
  obtain ⟨mf, hmf⟩ := canon_fixed hc
  exact canonF_det h hmf

theorem strip_sound_all : ∀ m : Nat,
    (∀ t r, (∀ n c, canonF Rc n t = .ok c → Canon c) →
        stripPredsF Rc m t = .ok r → Stripped r) ∧
    (∀ c r, Canon c → stripCore Rc m c = .ok r → Stripped r) := by
  intro m
  induction m with
  | zero =>
      refine ⟨?_, ?_⟩
      · intro t r _ h; exact Except.noConfusion h
      · intro c r _ h; exact Except.noConfusion h
  | succ m ih =>
      obtain ⟨ihP, ihK⟩ := ih
      refine ⟨?_, ?_⟩
      · intro t r hcn h
        rw [stripPredsF_succ] at h
        cases hc : canonF Rc m t with
        | error e => simp only [hc] at h; exact Except.noConfusion h
        | ok c =>
            simp only [hc] at h
            exact ihK c r (hcn m c hc) h
      · intro c r hCanon h
        cases hCanon with
        | base s hmem =>
            rw [stripCore_succ] at h
            injection h with h2
            subst h2
            exact Stripped.base s hmem
        | pair c0 p hc0 =>
            rw [stripCore_succ_pair] at h
            cases hsp : stripPredsF Rc m c0 with
            | error e => simp only [hsp] at h; exact Except.noConfusion h
            | ok sp0 =>
                simp only [hsp] at h
                have hstr : Stripped sp0 := by
                  refine ihP c0 sp0 ?_ hsp
                  intro n c2 h2
                  rw [canon_stable hc0 n c2 h2]
                  exact hc0
                cases hz : pyEqZero p with
                | true =>
                    rw [hz, if_pos rfl] at h
                    injection h with h2
                    subst h2
                    exact Stripped.pair0 _ hstr
                | false =>
                    rw [hz] at h
                    rw [if_neg (by simp)] at h
                    injection h with h2
                    subst h2
                    exact hstr
        | templ h0 slots p a h1 h2 h3 =>
            have hpos := templArity_pos h1
            rcases slots with _ | ⟨s1, srest⟩
            · simp at h2; omega
            · rcases srest with _ | ⟨z, zs⟩
              · rw [show Desc.tup (Desc.str h0 :: ([s1] ++ [p])) =
                    Desc.tup [Desc.str h0, s1, p] from rfl] at h
                rw [stripCore_succ] at h
                injection h with hr
                subst hr
                exact Stripped.templ h0 [s1] a h1 (by simpa using h2) h3
              · rw [stripCore_succ] at h
                simp only [List.cons_append] at h
                injection h with hr
                subst hr
                have hshape : (Desc.str h0 :: s1 :: z :: (zs ++ [p])).dropLast ++ [Desc.int 0] =
                    Desc.str h0 :: ((s1 :: z :: zs) ++ [.int 0]) := by
                  rw [show Desc.str h0 :: s1 :: z :: (zs ++ [p]) =
                      (Desc.str h0 :: s1 :: z :: zs) ++ [p] by simp]
                  rw [List.dropLast_concat]
                  simp
                rw [hshape]
                exact Stripped.templ h0 (s1 :: z :: zs) a h1 (by simpa using h2) h3

end XdressTS
namespace XdressTS

theorem strip_fixed {r : Desc} (h : Stripped r) : ∃ m, stripCore Rc m r = .ok r := by
  induction h with
  | base s hmem => exact ⟨1, rfl⟩
  | pair0 c hc ih =>
      obtain ⟨mf, hmf⟩ := canon_fixed (stripped_canon hc)
      obtain ⟨ms, hms⟩ := ih
      have h1 : canonF Rc (max mf ms) c = .ok c :=
        canonF_mono_le (Nat.le_max_left mf ms) hmf (by simp)
      have h2 : stripCore Rc (max mf ms) c = .ok c :=
        stripCore_mono_le (Nat.le_max_right mf ms) hms (by simp)
      refine ⟨max mf ms + 1 + 1, ?_⟩
      rw [stripCore_succ_pair, stripPredsF_succ]
      simp only [h1, h2, show pyEqZero (Desc.int 0) = true from rfl, if_true]
  | templ h0 slots a h1 h2 h3 =>
      have hpos := templArity_pos h1
      rcases slots with _ | ⟨s1, srest⟩
      · simp at h2; omega
      · rcases srest with _ | ⟨z, zs⟩
        · exact ⟨1, rfl⟩
        · refine ⟨1, ?_⟩
          rw [stripCore_succ]
          simp only [List.cons_append]
          have hshape : (Desc.str h0 :: s1 :: z :: (zs ++ [Desc.int 0])).dropLast ++
              [Desc.int 0] = Desc.str h0 :: s1 :: z :: (zs ++ [Desc.int 0]) := by
            rw [show Desc.str h0 :: s1 :: z :: (zs ++ [Desc.int 0]) =
                (Desc.str h0 :: s1 :: z :: zs) ++ [Desc.int 0] by simp]
            rw [List.dropLast_concat]
          rw [hshape]

end XdressTS

namespace XdressTS

/-- C3 (amended): stripping the predicates of a canonicalized (type,
predicate) pair with a non-zero predicate yields the bare stripped head,
not a (head, 0) re-wrap, and predicate stripping is idempotent on
well-formed descriptors. -/
theorem strip_nonzero_and_idempotent :
    (∀ t k d r, WfRc t → depHeadRc t = false → pyEqZero k = false →
        CanonRel (.tup [t, k]) d → (StripRel d r ↔ StripRel t r)) ∧
    (∀ t r, WfRc t → StripRel t r → StripRel r r) := by
  constructor
  · intro t k d r hw hdh hkz hcd
    obtain ⟨mc, hmc⟩ := hcd
    match mc, hmc with
    | 0, hmc => exact absurd hmc (fun hx => Except.noConfusion hx)
    | Nat.succ mc, hmc =>
    rw [canon_pair_step hw hdh k mc] at hmc
    cases hct : canonF Rc mc t with
    | error e => simp only [hct] at hmc; exact Except.noConfusion hmc
    | ok c0 =>
    simp only [hct] at hmc
    injection hmc with hd2
    subst hd2
    have hc0 : Canon c0 := (canon_sound_all mc).1 t c0 hw hct
    have hcanD : Canon (.tup [c0, k]) := Canon.pair _ _ hc0
    obtain ⟨mfd, hmfd⟩ := canon_fixed hcanD
    obtain ⟨mf0, hmf0⟩ := canon_fixed hc0
    constructor
    · rintro ⟨ms1, hms1⟩
      match ms1, hms1 with
      | 0, hms1 => exact absurd hms1 (fun hx => Except.noConfusion hx)
      | Nat.succ ms1, hms1 =>
      rw [stripPredsF_succ] at hms1
      cases hcd2 : canonF Rc ms1 (.tup [c0, k]) with
      | error e => simp only [hcd2] at hms1; exact Except.noConfusion hms1
      | ok d2 =>
      simp only [hcd2] at hms1
      rw [canonF_det hcd2 hmfd] at hms1
      match ms1, hms1 with
      | 0, hms1 => exact absurd hms1 (fun hx => Except.noConfusion hx)
      | Nat.succ ms2, hms1 =>
      rw [stripCore_succ_pair] at hms1
      cases hsp : stripPredsF Rc ms2 c0 with
      | error e => simp only [hsp] at hms1; exact Except.noConfusion hms1
      | ok sp0 =>
      simp only [hsp, hkz, Bool.false_eq_true, if_false] at hms1
      injection hms1 with hr2
      subst hr2
      match ms2, hsp with
      | 0, hsp => exact absurd hsp (fun hx => Except.noConfusion hx)
      | Nat.succ ms3, hsp =>
      rw [stripPredsF_succ] at hsp
      cases hc0c : canonF Rc ms3 c0 with
      | error e => simp only [hc0c] at hsp; exact Except.noConfusion hsp
      | ok c00 =>
      simp only [hc0c] at hsp
      rw [canonF_det hc0c hmf0] at hsp
      refine ⟨max mc ms3 + 1, ?_⟩
      rw [stripPredsF_succ]
      simp only [canonF_mono_le (Nat.le_max_left mc ms3) hct (by simp),
        stripCore_mono_le (Nat.le_max_right mc ms3) hsp (by simp)]
    · rintro ⟨ms1, hms1⟩
      match ms1, hms1 with
      | 0, hms1 => exact absurd hms1 (fun hx => Except.noConfusion hx)
      | Nat.succ ms1, hms1 =>
      rw [stripPredsF_succ] at hms1
      cases hct2 : canonF Rc ms1 t with
      | error e => simp only [hct2] at hms1; exact Except.noConfusion hms1
      | ok c00 =>
      simp only [hct2] at hms1
      rw [canonF_det hct2 hct] at hms1
      have hA : canonF Rc (max mf0 (max ms1 mfd)) c0 = .ok c0 :=
        canonF_mono_le (Nat.le_max_left _ _) hmf0 (by simp)
      have hB : stripCore Rc (max mf0 (max ms1 mfd)) c0 = .ok r :=
        stripCore_mono_le (by omega) hms1 (by simp)
      have hP : stripPredsF Rc (max mf0 (max ms1 mfd) + 1) c0 = .ok r := by
        rw [stripPredsF_succ]
        simp only [hA, hB]
      have hK : stripCore Rc (max mf0 (max ms1 mfd) + 1 + 1) (.tup [c0, k]) = .ok r := by
        rw [stripCore_succ_pair]
        simp only [hP, hkz, Bool.false_eq_true, if_false]
      have hD : canonF Rc (max mf0 (max ms1 mfd) + 1 + 1) (.tup [c0, k]) =
          .ok (.tup [c0, k]) :=
        canonF_mono_le (by omega) hmfd (by simp)
      refine ⟨max mf0 (max ms1 mfd) + 1 + 1 + 1, ?_⟩
      rw [stripPredsF_succ]
      simp only [hD, hK]
  · intro t r hw hsr
    obtain ⟨ms, hms⟩ := hsr
    have hstr : Stripped r :=
      (strip_sound_all ms).1 t r (fun n c hc => (canon_sound_all n).1 t c hw hc) hms
    obtain ⟨mf, hmf⟩ := canon_fixed (stripped_canon hstr)
    obtain ⟨mk, hmk⟩ := strip_fixed hstr
    refine ⟨max mf mk + 1, ?_⟩
    rw [stripPredsF_succ]
    simp only [canonF_mono_le (Nat.le_max_left mf mk) hmf (by simp),
      stripCore_mono_le (Nat.le_max_right mf mk) hmk (by simp)]

theorem strip_nonzero_and_idempotent_witness :
    WfRc (.str "posint") ∧ depHeadRc (.str "posint") = false ∧
    pyEqZero (.int 5) = false ∧
    CanonRel (.tup [.str "posint", .int 5])
      (.tup [.tup [.str "int32", .str "posint"], .int 5]) ∧
    StripRel (.str "posint") (.str "int32") ∧
    StripRel (.str "int32") (.str "int32") :=
  ⟨⟨3, by decide⟩, rfl, rfl, ⟨4, by decide⟩,
    (strip_nonzero_and_idempotent.1 (.str "posint") (.int 5)
      (.tup [.tup [.str "int32", .str "posint"], .int 5]) (.str "int32")
      ⟨3, by decide⟩ rfl rfl ⟨4, by decide⟩).mp ⟨8, by decide⟩,
    strip_nonzero_and_idempotent.2 (.str "posint") (.str "int32")
      ⟨3, by decide⟩ ⟨8, by decide⟩⟩

end XdressTS
